import Mathlib

/-!
# Kafka dump parser of `tools/cli/adminKafkaCommands.go`

A shallow embedding of the frame splitter, the message decoder, the filters
and the writers of the `admin kafka parse` command, and of the
`admin kafka rereplicate` command, with theorems about them. The file also
embeds the access-controlled admin handler of the frontend
(`service/frontend/accessControlledAdminHandler.go`), the validation and the
defaults of the cluster metadata (`common/config/cluster.go`) and the lookup
of the config store client (`common/dynamicconfig/config_store_client.go`).

Conventions of the embedding

* a Go `[]byte` / `string` is a `List Byte` with `Byte := Nat`;
* `ErrorAndExit(msg, err)` prints and ends the process (`os.Exit(1)`): it is
  the error `Halt.exit msg cause` of the `Except` monad;
* a Go run-time panic (index or slice out of range, a `nil` pointer, or a
  `panic` of a library function) is `Halt.panic`;
* `int32` values are `Int`s kept in range by `wrapInt32`, `int64` values by
  `wrapInt64`;
* a pointer that may be `nil` is an `Option`; a field access through a `nil`
  pointer is a panic;
* a channel is the list of the values sent on it so far (oldest first);
  `none` is the nil channel;
* a Go map is the list of its entries, with distinct keys;
* library code (thrift, JSON, the serializer, the authorizer, the admin
  client) is a parameter of the functions that call it.
-/

namespace Cadence

abbrev Byte := Nat

/-! ## The regular expression `r` (Go `regexp`, leftmost-first semantics) -/

/-- Pieces of the patterns the header expression is made of: a literal byte
string, and the non-greedy `.*?` (any byte but the line feed, as few as
possible). -/
inductive Item where
  | lit (l : List Byte)
  | lazyDotStar
  deriving DecidableEq

/-- Backtracking search for `.*?` followed by the continuation `k`: the
empty repetition is tried first, then one more byte other than `\n` is
consumed. The result is the number of bytes matched. -/
def lazyStar (k : List Byte → Option Nat) : List Byte → Option Nat
  | [] => k []
  | c :: s =>
    match k (c :: s) with
    | some n => some n
    | none => if c = 10 then none else (lazyStar k s).map (· + 1)

/-- Anchored match of a sequence of items at the start of the input, with the
priorities of a backtracking search (which is what Go's `regexp` returns for
a given start position). The result is the length of the match. -/
def matchItems : List Item → List Byte → Option Nat
  | [] => fun _ => some 0
  | Item.lit l :: ps => fun s =>
    if l.isPrefixOf s then (matchItems ps (s.drop l.length)).map (· + l.length) else none
  | Item.lazyDotStar :: ps => lazyStar (matchItems ps)

/-- Bytes of an ASCII string literal. -/
def ascii (s : String) : List Byte := s.toList.map Char.toNat

/-- Source: `r = regexp.MustCompile("Partition: .*?, Offset: .*?, Key: .*?")`. -/
def r : List Item :=
  [Item.lit (ascii "Partition: "), Item.lazyDotStar,
   Item.lit (ascii ", Offset: "), Item.lazyDotStar,
   Item.lit (ascii ", Key: "), Item.lazyDotStar]

/-- Loop of `regexp.allMatches`: `skip` is the number of bytes still covered by
the match found last, `pos` the offset of the bytes left. A match `(a, b)` is
the half-open byte range `[a, b)`. The expression `r` never matches the empty
string, so the empty-match branch of the Go loop is not modelled: a match of
length zero counts as no match. -/
def allMatches (re : List Item) : Nat → Nat → List Byte → List (Nat × Nat)
  | _, _, [] => []
  | k + 1, pos, _ :: s => allMatches re k (pos + 1) s
  | 0, pos, c :: s =>
    match matchItems re (c :: s) with
    | some (n + 1) => (pos, pos + (n + 1)) :: allMatches re n (pos + 1) s
    | _ => allMatches re 0 (pos + 1) s

/-- Model of `re.FindAllIndex(b, -1)`: all successive leftmost matches. -/
def FindAllIndex (re : List Item) (b : List Byte) : List (Nat × Nat) :=
  allMatches re 0 0 b

/-- Go slice expression `s[a:b]`. -/
def slice (s : List Byte) (a b : Nat) : List Byte := (s.take b).drop a

/-- Loop of `regexp.Split` over the matches, with its variables `beg` and
`end`; after the loop the rest `s[beg:]` is appended unless `end` is `len(s)`. -/
def splitLoop (s : List Byte) : List (Nat × Nat) → Nat → Nat → List (List Byte)
  | [], beg, end_ => if end_ ≠ s.length then [s.drop beg] else []
  | (m0, m1) :: ms, beg, _ =>
    (if m1 ≠ 0 then [slice s beg m0] else []) ++ splitLoop s ms m1 m0

/-- Model of `re.Split(s, -1)` for a non-empty expression. -/
def Split (re : List Item) (s : List Byte) : List (List Byte) :=
  if s.length = 0 then [[]] else splitLoop s (FindAllIndex re s) 0 0

/-! ## Constants and errors -/

/-- Source: `preambleVersion0 byte = 0x59`. -/
def preambleVersion0 : Byte := 0x59

/-- Source: `malformedMessage = "Input was malformed"`. -/
def malformedMessage : String := "Input was malformed"

/-- Source: `kafkaMessageTypeReplicationTask kafkaMessageType = iota`. -/
def kafkaMessageTypeReplicationTask : Int := 0

/-- Source: `kafkaMessageTypeVisibilityMsg`, the second constant of the block. -/
def kafkaMessageTypeVisibilityMsg : Int := 1

/-- The `error` argument of the `ErrorAndExit` calls of the kafka commands, one
constructor per call site. -/
inductive Cause (E : Type) where
  /-- Text: header not found, did you generate dump with -v. -/
  | headerNotFound
  /-- Text: got data chunk to handle that does not start with valid header. -/
  | noLeadingHeader
  /-- Text: got empty message between valid headers. -/
  | emptyMessage
  /-- Text: failed to find message preamble. -/
  | noPreamble
  /-- The error returned by `decode` or `decodeVisibility`. -/
  | decodeError (e : E)
  /-- Text: failed to encode into json, followed by the serialisation error. -/
  | encodeError (e : E)
  /-- The error returned by `outputFile.WriteString`. -/
  | writeError (e : E)
  /-- The error returned by `adminClient.ResendReplicationTasks`. -/
  | resendError (e : E)
  /-- The `nil` error that `AdminRereplicate` passes for a bad shard count. -/
  | nilError
  deriving DecidableEq

/-- Ways in which the parser goroutine stops without returning. -/
inductive Halt (E : Type) where
  /-- The call `ErrorAndExit(msg, cause)`: the process exits. -/
  | exit (msg : String) (cause : Cause E)
  /-- A run-time panic (index or slice bound out of range). -/
  | panic
  /-- A send on a nil channel, or a receive from one, which blocks forever. -/
  | blocked
  deriving DecidableEq

/-- Model of `ErrorAndExit(msg, err)` (defined in the package's `util.go`): it
prints the message and calls `os.Exit(1)`, so nothing after it runs. -/
def ErrorAndExit {E α : Type} (msg : String) (cause : Cause E) : Except (Halt E) α :=
  Except.error (Halt.exit msg cause)

/-- Value of an `int32` after an arithmetic operation whose exact result is
`x` (two's complement wrap-around). -/
def wrapInt32 (x : Int) : Int := (x + 2147483648) % 4294967296 - 2147483648

/-- Model of `bytes.Index(s, []byte{b})`: the index of the first `b` in `s`,
or `-1`. -/
def bytesIndex : List Byte → Byte → Int
  | [], _ => -1
  | c :: s, b =>
    if c = b then 0
    else if bytesIndex s b = -1 then -1 else bytesIndex s b + 1

/-! ## The thrift decoder (external library, a parameter of the model) -/

/-- The functions of `go.uber.org/thriftrw` and of the generated thrift code
that the parser calls: `E` is the type of their errors, `W` of wire values,
`R` of `replicator.ReplicationTask`, `V` of `indexer.Message`, `T` of
`types.ReplicationTask`. -/
structure Thrift (E W R V T : Type) where
  /-- Call `protocol.Binary.Decode(reader, wire.TStruct)` on a reader over the bytes. -/
  binaryDecode : List Byte → Except E W
  /-- Method `(*replicator.ReplicationTask).FromWire` on a zero value. -/
  replicationTaskFromWire : W → Except E R
  /-- Method `(*indexer.Message).FromWire` on a zero value. -/
  messageFromWire : W → Except E V
  /-- Function `thrift.ToReplicationTask`, which converts a decoded task to the
  internal type. It panics on a value outside one of its enumerations (for
  example an unknown task type): the result is then `none`. -/
  toReplicationTask : R → Option T

section Parser

variable {E W R V T : Type}

/-! ## getMessages -/

/-- Body of the `for _, m := range messagesWithHeaders` loop of `getMessages`,
with its variables `rawMessages` and `skipped`. -/
def getMessagesLoop (skipErrors : Bool) :
    List (List Byte) → List (List Byte) → Int → Except (Halt E) (List (List Byte) × Int)
  | [], rawMessages, skipped => Except.ok (rawMessages, skipped)
  | m :: ms, rawMessages, skipped =>
    if m.length = 0 then ErrorAndExit malformedMessage Cause.emptyMessage
    else
      let messageStart := bytesIndex m preambleVersion0
      if messageStart = -1 then
        if !skipErrors then ErrorAndExit malformedMessage Cause.noPreamble
        else getMessagesLoop skipErrors ms rawMessages (wrapInt32 (skipped + 1))
      else getMessagesLoop skipErrors ms (rawMessages ++ [m.drop messageStart.toNat]) skipped

/-- Source: `getMessages(data []byte, skipErrors bool) ([][]byte, int32)`. -/
def getMessages (data : List Byte) (skipErrors : Bool) :
    Except (Halt E) (List (List Byte) × Int) :=
  match Split r data with
  | [] => Except.error Halt.panic
  | first :: messagesWithHeaders =>
    if first.length ≠ 0 then ErrorAndExit malformedMessage Cause.noLeadingHeader
    else getMessagesLoop skipErrors messagesWithHeaders [] 0

/-! ## decode and deserializeMessages -/

/-- Source: `decode(message []byte, val *replicator.ReplicationTask) error`.
The slice expression `message[1:]` panics on an empty message; otherwise the
inner result is the returned `error`, or the value stored in `val`. -/
def decode (cx : Thrift E W R V T) (message : List Byte) : Except (Halt E) (Except E R) :=
  match message with
  | [] => Except.error Halt.panic
  | _ :: rest =>
    Except.ok (match cx.binaryDecode rest with
      | Except.error err => Except.error err
      | Except.ok wireVal => cx.replicationTaskFromWire wireVal)

/-- Source: `decodeVisibility(message []byte, val *indexer.Message) error`. -/
def decodeVisibility (cx : Thrift E W R V T) (message : List Byte) :
    Except (Halt E) (Except E V) :=
  match message with
  | [] => Except.error Halt.panic
  | _ :: rest =>
    Except.ok (match cx.binaryDecode rest with
      | Except.error err => Except.error err
      | Except.ok wireVal => cx.messageFromWire wireVal)

/-- Loop of `deserializeMessages` with its variables `replicationTasks` and
`skipped`. -/
def deserializeMessagesLoop (cx : Thrift E W R V T) (skipErrors : Bool) :
    List (List Byte) → List T → Int → Except (Halt E) (List T × Int)
  | [], replicationTasks, skipped => Except.ok (replicationTasks, skipped)
  | m :: ms, replicationTasks, skipped =>
    match decode cx m with
    | Except.error h => Except.error h
    | Except.ok (Except.error err) =>
      if !skipErrors then ErrorAndExit malformedMessage (Cause.decodeError err)
      else deserializeMessagesLoop cx skipErrors ms replicationTasks (wrapInt32 (skipped + 1))
    | Except.ok (Except.ok task) =>
      match cx.toReplicationTask task with
      | none => Except.error Halt.panic
      | some converted =>
        deserializeMessagesLoop cx skipErrors ms (replicationTasks ++ [converted]) skipped

/-- Source: `deserializeMessages(messages [][]byte, skipErrors bool)`. -/
def deserializeMessages (cx : Thrift E W R V T) (messages : List (List Byte))
    (skipErrors : Bool) : Except (Halt E) (List T × Int) :=
  deserializeMessagesLoop cx skipErrors messages [] 0

/-- Loop of `deserializeVisibilityMessages`. -/
def deserializeVisibilityMessagesLoop (cx : Thrift E W R V T) (skipErrors : Bool) :
    List (List Byte) → List V → Int → Except (Halt E) (List V × Int)
  | [], visibilityMessages, skipped => Except.ok (visibilityMessages, skipped)
  | m :: ms, visibilityMessages, skipped =>
    match decodeVisibility cx m with
    | Except.error h => Except.error h
    | Except.ok (Except.error err) =>
      if !skipErrors then ErrorAndExit malformedMessage (Cause.decodeError err)
      else deserializeVisibilityMessagesLoop cx skipErrors ms visibilityMessages
        (wrapInt32 (skipped + 1))
    | Except.ok (Except.ok msg) =>
      deserializeVisibilityMessagesLoop cx skipErrors ms (visibilityMessages ++ [msg]) skipped

/-- Source: `deserializeVisibilityMessages(messages [][]byte, skipErrors bool)`. -/
def deserializeVisibilityMessages (cx : Thrift E W R V T) (messages : List (List Byte))
    (skipErrors : Bool) : Except (Halt E) (List V × Int) :=
  deserializeVisibilityMessagesLoop cx skipErrors messages [] 0

/-! ## parse, splitBuffer and startParser -/

/-- Source: `writerChannel`. A channel is the list of the values sent on it so
far; `none` is a nil channel. -/
structure writerChannel (T V : Type) where
  /-- Field `Type`. -/
  msgType : Int
  ReplicationTaskChannel : Option (List T)
  VisibilityMsgChannel : Option (List V)
  deriving DecidableEq

/-- Where the parser goroutine stands when it stops: the writer channel, the
value the parser has given the shared skip counter (the additions of the
writer stage are not part of this model), and why it stopped (`none` when the
function returned). -/
structure Run (E T V : Type) where
  writerCh : writerChannel T V
  skippedCount : Int
  halted : Option (Halt E)
  deriving DecidableEq

/-- The loop `for _, msg := range msgs { ch <- msg }`: the new content of the
channel, or `none` when the goroutine blocks on a nil channel. -/
def sendAll {α : Type} (ch : Option (List α)) (msgs : List α) : Option (Option (List α)) :=
  match ch, msgs with
  | none, [] => some none
  | none, _ :: _ => none
  | some q, _ => some (some (q ++ msgs))

/-- Source: `parse(bytes []byte, skipErrors bool, skippedCount *int32, writerCh *writerChannel)`. -/
def parse (cx : Thrift E W R V T) (bytes : List Byte) (skipErrors : Bool)
    (skippedCount : Int) (writerCh : writerChannel T V) : Run E T V :=
  match getMessages bytes skipErrors with
  | Except.error h => ⟨writerCh, skippedCount, some h⟩
  | Except.ok (messages, skippedGetMsgCount) =>
    if writerCh.msgType = kafkaMessageTypeReplicationTask then
      match deserializeMessages cx messages skipErrors with
      | Except.error h => ⟨writerCh, skippedCount, some h⟩
      | Except.ok (msgs, skippedDeserializeCount) =>
        let added := wrapInt32 (skippedCount + wrapInt32 (skippedGetMsgCount + skippedDeserializeCount))
        match sendAll writerCh.ReplicationTaskChannel msgs with
        | none => ⟨writerCh, added, some Halt.blocked⟩
        | some ch => ⟨{ writerCh with ReplicationTaskChannel := ch }, added, none⟩
    else if writerCh.msgType = kafkaMessageTypeVisibilityMsg then
      match deserializeVisibilityMessages cx messages skipErrors with
      | Except.error h => ⟨writerCh, skippedCount, some h⟩
      | Except.ok (msgs, skippedDeserializeCount) =>
        let added := wrapInt32 (skippedCount + wrapInt32 (skippedGetMsgCount + skippedDeserializeCount))
        match sendAll writerCh.VisibilityMsgChannel msgs with
        | none => ⟨writerCh, added, some Halt.blocked⟩
        | some ch => ⟨{ writerCh with VisibilityMsgChannel := ch }, added, none⟩
    else ⟨writerCh, skippedCount, none⟩

/-- Source: `splitBuffer(buffer []byte) ([]byte, []byte)`. -/
def splitBuffer (buffer : List Byte) : Except (Halt E) (List Byte × List Byte) :=
  let found := FindAllIndex r buffer
  if found.length = 0 then ErrorAndExit malformedMessage Cause.headerNotFound
  else
    match found.getLast? with
    | none => Except.error Halt.panic
    | some (splitIndex, _) => Except.ok (buffer.take splitIndex, buffer.drop splitIndex)

/-- The `Loop:` of `startParser` over the chunks received from `readerCh` until
it is closed, followed by the final `parse(buffer, ...)`. -/
def startParserLoop (cx : Thrift E W R V T) (skipErrors : Bool) :
    List (List Byte) → List Byte → Int → writerChannel T V → Run E T V
  | [], buffer, skippedCount, writerCh => parse cx buffer skipErrors skippedCount writerCh
  | data :: rest, buffer, skippedCount, writerCh =>
    match splitBuffer (E := E) (buffer ++ data) with
    | Except.error h => ⟨writerCh, skippedCount, some h⟩
    | Except.ok (data1, nextBuffer) =>
      match parse cx data1 skipErrors skippedCount writerCh with
      | ⟨writerCh1, skippedCount1, none⟩ =>
        startParserLoop cx skipErrors rest nextBuffer skippedCount1 writerCh1
      | stopped => stopped

/-- Source: `startParser(readerCh <-chan []byte, writerCh *writerChannel, skipErrors bool,
skippedCount *int32)`; `readerCh` is the list of the chunks the reader sends
before closing the channel. -/
def startParser (cx : Thrift E W R V T) (readerCh : List (List Byte))
    (writerCh : writerChannel T V) (skipErrors : Bool) (skippedCount : Int) : Run E T V :=
  startParserLoop cx skipErrors readerCh [] skippedCount writerCh

end Parser

/-! ## Vocabulary of the statements -/

section Vocabulary

variable {E W R V T : Type}

/-- The raw frame of a group (the text between two headers): its suffix from the
first marker byte on, if the group has a marker byte. -/
def rawFrame : List Byte → Option (List Byte)
  | [] => none
  | c :: g => if c = preambleVersion0 then some (c :: g) else rawFrame g

/-- The replication task a raw frame decodes to, if it decodes and the decoded
task converts to the internal type. -/
def frameTask (cx : Thrift E W R V T) (m : List Byte) : Option T :=
  match decode cx m with
  | Except.ok (Except.ok task) => cx.toReplicationTask task
  | _ => none

/-- The raw frame decodes, but the conversion of the decoded task to the
internal type panics. -/
def framePanics (cx : Thrift E W R V T) (m : List Byte) : Bool :=
  match decode cx m with
  | Except.ok (Except.ok task) => (cx.toReplicationTask task).isNone
  | _ => false

/-- The visibility message a raw frame decodes to, if it decodes. -/
def frameMsg (cx : Thrift E W R V T) (m : List Byte) : Option V :=
  match decodeVisibility cx m with
  | Except.ok (Except.ok msg) => some msg
  | _ => none

/-- The replication task of a group: none when the group has no marker byte,
the bytes after the marker do not decode, or the decoded task does not
convert. -/
def groupTask (cx : Thrift E W R V T) (g : List Byte) : Option T :=
  (rawFrame g).bind (frameTask cx)

/-- The visibility message of a group, likewise. -/
def groupMsg (cx : Thrift E W R V T) (g : List Byte) : Option V :=
  (rawFrame g).bind (frameMsg cx)

/-- The group has a marker byte and the bytes after it decode to a task on
which the conversion to the internal type panics. -/
def groupPanics (cx : Thrift E W R V T) (g : List Byte) : Bool :=
  match rawFrame g with
  | some m => framePanics cx m
  | none => false

/-- The groups of a data slice: the texts after each header match. -/
def groups (data : List Byte) : List (List Byte) := (Split r data).tail

end Vocabulary

/-! ## A small instance for the examples -/

/-- A decoder for the examples: the payload `[1, k]` decodes to `k`, every other
payload is rejected. The conversion to the internal type panics on the tasks
from 100 on, which stand for the tasks with a value outside an enumeration. -/
def demoThrift : Thrift Unit (List Byte) Nat Nat Nat where
  binaryDecode := fun b => Except.ok b
  replicationTaskFromWire := fun w =>
    match w with
    | [1, k] => Except.ok k
    | _ => Except.error ()
  messageFromWire := fun w =>
    match w with
    | [1, k] => Except.ok k
    | _ => Except.error ()
  toReplicationTask := fun n => if n < 100 then some n else none

/-- A header as the dump tool prints it, up to the end of the match of `r`. -/
def demoHeader : List Byte := ascii "Partition: 1, Offset: 2, Key: "

/-- Three groups: one that decodes, one that does not, one without marker byte. -/
def demoGroups : List (List Byte) := [[107, 0x59, 1, 7], [0x59, 2], [107]]

/-- The groups of `demoGroups`, each after a header. -/
def demoData : List Byte :=
  demoHeader ++ [107, 0x59, 1, 7] ++ demoHeader ++ [0x59, 2] ++ demoHeader ++ [107]

/-- No literal of the expression contains a line feed. -/
def litsNoNewline : List Item → Prop
  | [] => True
  | Item.lit l :: ps => 10 ∉ l ∧ litsNoNewline ps
  | Item.lazyDotStar :: ps => litsNoNewline ps

/-- Matches moved `d` bytes to the right. -/
def shift (d : Nat) (L : List (Nat × Nat)) : List (Nat × Nat) :=
  L.map (fun m => (m.1 + d, m.2 + d))

/-- A buffer whose first payload, `Y 1 <header text> 7`, holds a match of the
header expression; a second group follows. -/
def demoNestedBuffer : List Byte :=
  demoHeader ++ ([0x59, 1] ++ ascii "Partition: 9, Offset: 9, Key: " ++ [7])
    ++ demoHeader ++ [0x59, 1, 9]

section RunVocabulary

variable {E W R V T : Type}

/-- When `parse` returns on data that `Split` cuts into `pieces`: the first
piece is empty, no group is empty, in strict mode every group has a marker byte
and decodes as the kind of message the channel carries, messages are sent
only if the channel they go to is not nil, and no group holds a replication
task on which the conversion to the internal type panics. -/
def parseSucceeds (cx : Thrift E W R V T) (skipErrors : Bool) (writerCh : writerChannel T V)
    (pieces : List (List Byte)) : Prop :=
  pieces.head? = some [] ∧
  (∀ g ∈ pieces.tail, g ≠ [] ∧ (skipErrors = false → rawFrame g ≠ none)) ∧
  (writerCh.msgType = kafkaMessageTypeReplicationTask →
    (∀ g ∈ pieces.tail, skipErrors = false → groupTask cx g ≠ none) ∧
    (writerCh.ReplicationTaskChannel = none → pieces.tail.filterMap (groupTask cx) = []) ∧
    (∀ g ∈ pieces.tail, groupPanics cx g = false)) ∧
  (writerCh.msgType = kafkaMessageTypeVisibilityMsg →
    (∀ g ∈ pieces.tail, skipErrors = false → groupMsg cx g ≠ none) ∧
    (writerCh.VisibilityMsgChannel = none → pieces.tail.filterMap (groupMsg cx) = []))

/-- Where `parse` stands when it has returned on data with the groups `gs`: the
messages of the groups are at the end of the channel and the groups without
message are added to the skip counter. -/
def parseResult (cx : Thrift E W R V T) (skippedCount : Int) (writerCh : writerChannel T V)
    (gs : List (List Byte)) : Run E T V :=
  if writerCh.msgType = kafkaMessageTypeReplicationTask then
    ⟨{ writerCh with ReplicationTaskChannel :=
        writerCh.ReplicationTaskChannel.map (· ++ gs.filterMap (groupTask cx)) },
      wrapInt32 (skippedCount + ((gs.countP (fun g => (groupTask cx g).isNone) : Nat) : Int)),
      none⟩
  else if writerCh.msgType = kafkaMessageTypeVisibilityMsg then
    ⟨{ writerCh with VisibilityMsgChannel :=
        writerCh.VisibilityMsgChannel.map (· ++ gs.filterMap (groupMsg cx)) },
      wrapInt32 (skippedCount + ((gs.countP (fun g => (groupMsg cx g).isNone) : Nat) : Int)),
      none⟩
  else ⟨writerCh, skippedCount, none⟩

/-- The calls of `parse` on successive data slices, until one does not return. -/
def parseAll (cx : Thrift E W R V T) (skipErrors : Bool) :
    List (List Byte) → Int → writerChannel T V → Run E T V
  | [], skippedCount, writerCh => ⟨writerCh, skippedCount, none⟩
  | d :: ds, skippedCount, writerCh =>
    match parse cx d skipErrors skippedCount writerCh with
    | ⟨writerCh1, skippedCount1, none⟩ => parseAll cx skipErrors ds skippedCount1 writerCh1
    | stopped => stopped

/-- The data slices `startParser` hands to `parse` one after the other on the
chunks of `readerCh`, starting from `buffer`: one slice per chunk, as long as
`splitBuffer` finds a header, and the rest of the buffer when the chunks are
used up. -/
def dataSlices : List (List Byte) → List Byte → List (List Byte)
  | [], buffer => [buffer]
  | data :: rest, buffer =>
    match (FindAllIndex r (buffer ++ data)).getLast? with
    | none => []
    | some (splitIndex, _) =>
      (buffer ++ data).take splitIndex :: dataSlices rest ((buffer ++ data).drop splitIndex)

/-- On these chunks `splitBuffer` finds a header every time it is called. -/
def splitsOk : List (List Byte) → List Byte → Prop
  | [], _ => True
  | data :: rest, buffer =>
    ∃ i e, (FindAllIndex r (buffer ++ data)).getLast? = some (i, e) ∧
      splitsOk rest ((buffer ++ data).drop i)

end RunVocabulary

/-- A channel for replication tasks on which nothing has been sent yet. -/
def demoChannel : writerChannel Nat Nat :=
  ⟨kafkaMessageTypeReplicationTask, some [], none⟩

/-- Three groups each after a header: the first decodes to `7`, the second does
not decode, the third decodes to `9`. -/
def demoStream : List Byte :=
  demoHeader ++ [107, 0x59, 1, 7] ++ demoHeader ++ [0x59, 2] ++ demoHeader ++ [0x59, 1, 9]

/-- The input `demoStream` in two chunks, cut inside the second group. -/
def demoChunks : List (List Byte) :=
  [demoHeader ++ [107, 0x59, 1, 7] ++ demoHeader, [0x59, 2] ++ demoHeader ++ [0x59, 1, 9]]

/-! ## Messages and filters -/

/-- Modelled from the spec: the type `types.HistoryTaskV2Attributes` is
declared in `common/types`, which is not under src. It has the identifiers
and the two raw event blobs of a history task; a `nil` blob is `none`, and
the fields the kafka commands never read are left out. -/
structure HistoryTaskV2Attributes (Blob : Type) where
  DomainID : List Byte
  WorkflowID : List Byte
  RunID : List Byte
  Events : Option Blob
  NewRunEvents : Option Blob
  deriving DecidableEq

/-- Modelled from the spec: the type `types.ReplicationTask` is declared in
`common/types`, which is not under src. `TaskType` is a pointer to an
enumeration value and `HistoryTaskV2Attributes` a pointer to the history
attributes; `nil` is `none`. -/
structure ReplicationTask (Blob : Type) where
  TaskType : Option Int
  HistoryTaskV2Attributes : Option (HistoryTaskV2Attributes Blob)
  deriving DecidableEq

/-- Modelled from the spec: the constant `types.ReplicationTaskTypeHistoryV2`
is declared in `common/types`, which is not under src. It marks the history
v2 variant of a replication task and differs from the zero value of the
enumeration. -/
def ReplicationTaskTypeHistoryV2 : Int := 5

/-- Modelled from the spec: the getter `GetTaskType` of
`types.ReplicationTask` (not under src): the value behind the pointer, or the
zero value of the enumeration when the pointer is `nil`. -/
def ReplicationTask.GetTaskType {Blob : Type} (task : ReplicationTask Blob) : Int :=
  task.TaskType.getD 0

/-- Modelled from the spec: the getter `GetHistoryTaskV2Attributes` of
`types.ReplicationTask` (not under src): the pointer itself, possibly `nil`. -/
def ReplicationTask.GetHistoryTaskV2Attributes {Blob : Type} (task : ReplicationTask Blob) :
    Option (Cadence.HistoryTaskV2Attributes Blob) :=
  task.HistoryTaskV2Attributes

/-- Modelled from the spec: the type `indexer.Message` is generated code that
is not under src. A visibility message has a message type, three identifiers
and a version, all optional on the wire (`nil` is `none`). -/
structure Message where
  MessageType : Option Int
  DomainID : Option (List Byte)
  WorkflowID : Option (List Byte)
  RunID : Option (List Byte)
  Version : Option Int
  deriving DecidableEq

/-- Modelled from the spec: the getters of `indexer.Message` (generated code,
not under src) return the value behind the pointer, or the zero value of the
field when the pointer is `nil`. This one is `GetMessageType`. -/
def Message.GetMessageType (msg : Message) : Int := msg.MessageType.getD 0

/-- Modelled from the spec: `GetDomainID` of `indexer.Message`, the domain id
or the empty string. -/
def Message.GetDomainID (msg : Message) : List Byte := msg.DomainID.getD []

/-- Modelled from the spec: `GetWorkflowID` of `indexer.Message`, the workflow
id or the empty string. -/
def Message.GetWorkflowID (msg : Message) : List Byte := msg.WorkflowID.getD []

/-- Modelled from the spec: `GetRunID` of `indexer.Message`, the run id or the
empty string. -/
def Message.GetRunID (msg : Message) : List Byte := msg.RunID.getD []

/-- Modelled from the spec: `GetVersion` of `indexer.Message`, the version or
zero. -/
def Message.GetVersion (msg : Message) : Int := msg.Version.getD 0

/-- The function `buildFilterFn(workflowID, runID)`, applied to a task. A Go
string is its list of bytes. The result `none` is the run-time panic of a
field access through a `nil` attributes pointer; the boolean operators of the
source are short-circuiting, so the access happens only when the criterion is
set. -/
def buildFilterFn {Blob : Type} (workflowID runID : List Byte) (task : ReplicationTask Blob) :
    Option Bool :=
  if (workflowID.length ≠ 0 ∨ runID.length ≠ 0) ∧ task.GetHistoryTaskV2Attributes.isNone then
    some false
  else
    let first : Option Bool :=
      if workflowID.length ≠ 0 then
        match task.GetHistoryTaskV2Attributes with
        | none => none
        | some attributes => some (decide (attributes.WorkflowID ≠ workflowID))
      else some false
    match first with
    | none => none
    | some true => some false
    | some false =>
      let second : Option Bool :=
        if runID.length ≠ 0 then
          match task.GetHistoryTaskV2Attributes with
          | none => none
          | some attributes => some (decide (attributes.RunID ≠ runID))
        else some false
      match second with
      | none => none
      | some true => some false
      | some false => some true

/-- The function `buildFilterFnForVisibility(workflowID, runID)`, applied to a
message. -/
def buildFilterFnForVisibility (workflowID runID : List Byte) (msg : Message) : Bool :=
  if workflowID.length ≠ 0 ∧ msg.GetWorkflowID ≠ workflowID then false
  else if runID.length ≠ 0 ∧ msg.GetRunID ≠ runID then false
  else true

/-- A history v2 task with the given workflow and run id, domain id `d1`, and
an event blob but no new-run blob. -/
def demoTask (workflowID runID : String) : ReplicationTask Nat :=
  ⟨some ReplicationTaskTypeHistoryV2,
    some ⟨ascii "d1", ascii workflowID, ascii runID, some 1, none⟩⟩

/-- A replication task of another type, without history attributes. -/
def demoBareTask : ReplicationTask Nat := ⟨some 0, none⟩

/-- A visibility message of type `0` and version `7`. -/
def demoMessage (workflowID runID : String) : Message :=
  ⟨some 0, some (ascii "d1"), some (ascii workflowID), some (ascii runID), some 7⟩

/-! ## Serialisation and the writers -/

/-- The struct `historyV2Task`: the projection of a history v2 task that is
written as JSON. `Task` is the task after the function has run (the source
stores the pointer), and a Go slice of events is `none` when it is `nil`. -/
structure historyV2Task (Blob H : Type) where
  Task : ReplicationTask Blob
  Events : Option (List H)
  NewRunEvents : Option (List H)

/-- The library code that the writers call, taken as parameters:
`DeserializeBatchEvents` is
`serializer.DeserializeBatchEvents(persistence.NewDataBlobFromInternal(blob))`
for a blob that is not `nil`, with `none` for a panic of the library
(`persistence.NewDataBlobFromInternal` panics on a blob whose encoding type it
does not support); on a `nil` blob `persistence.NewDataBlobFromInternal`
panics, which `decodeReplicationTask` models itself. The three `marshal`
functions are `json.Marshal` at the three types it is called with, and
`messageTypeString` is the generated `String` method of the message type of
`indexer.Message`. -/
structure Codec (E Blob H : Type) where
  DeserializeBatchEvents : Blob → Option (Except E (Option (List H)))
  marshalHistoryV2Task : historyV2Task Blob H → Except E (List Byte)
  marshalTask : ReplicationTask Blob → Except E (List Byte)
  marshalMessage : Message → Except E (List Byte)
  messageTypeString : Int → List Byte

/-- The function `decodeReplicationTask(task, serializer)`. It returns the
pair of results of the source together with the task as the call leaves it
(the source writes through the pointer). The result `none` is a run-time
panic: of a field access through a `nil` attributes pointer, of
`persistence.NewDataBlobFromInternal` on a `nil` events blob (only the new-run
blob is compared with `nil` before the call), or of the library on a blob that
is not `nil`. -/
def decodeReplicationTask {E Blob H : Type} (cd : Codec E Blob H) (task : ReplicationTask Blob) :
    Option (Except E (List Byte) × ReplicationTask Blob) :=
  if task.GetTaskType = ReplicationTaskTypeHistoryV2 then
    match task.GetHistoryTaskV2Attributes with
    | none => none
    | some historyV2 =>
      match historyV2.Events with
      | none => none
      | some blob =>
        match cd.DeserializeBatchEvents blob with
        | none => none
        | some (Except.error err) => some (Except.error err, task)
        | some (Except.ok events) =>
          let newRun : Option (Except E (Option (List H))) :=
            match historyV2.NewRunEvents with
            | none => some (Except.ok none)
            | some newRunBlob => cd.DeserializeBatchEvents newRunBlob
          match newRun with
          | none => none
          | some (Except.error err) => some (Except.error err, task)
          | some (Except.ok newRunEvents) =>
            let cleared : ReplicationTask Blob :=
              { task with
                HistoryTaskV2Attributes :=
                  some { historyV2 with Events := none, NewRunEvents := none } }
            some (cd.marshalHistoryV2Task ⟨cleared, events, newRunEvents⟩, cleared)
  else some (cd.marshalTask task, task)

/-- The output file: the strings written so far, one per successful call of
`WriteString`, and the error (if any) with which the operating system answers
the next write, which may depend on what has been written. -/
structure OutputFile (E : Type) where
  written : List (List Byte)
  failure : List (List Byte) → List Byte → Option E

/-- The call `outputFile.WriteString(s)`. -/
def OutputFile.WriteString {E : Type} (outputFile : OutputFile E) (s : List Byte) :
    OutputFile E × Option E :=
  match outputFile.failure outputFile.written s with
  | some err => (outputFile, some err)
  | none => ({ outputFile with written := outputFile.written ++ [s] }, none)

/-- What a writer leaves behind: the output file, the shared skip counter,
and how the goroutine stopped: `none` is a return from the function. -/
structure WriterRun (E : Type) where
  outputFile : OutputFile E
  skippedCount : Int
  halted : Option (Halt E)

/-- The verb `%v` applied to an `int64`: its decimal digits. -/
def formatInt (n : Int) : List Byte := ascii (toString n)

/-- The loop of `writeReplicationTask` over the tasks it receives before the
channel is closed. -/
def writeReplicationTaskLoop {E Blob H : Type} (cd : Codec E Blob H)
    (workflowID runID : List Byte) (skipErrMode headerMode : Bool) :
    List (ReplicationTask Blob) → OutputFile E → Int → WriterRun E
  | [], outputFile, skippedCount => ⟨outputFile, skippedCount, none⟩
  | task :: rest, outputFile, skippedCount =>
    match buildFilterFn workflowID runID task with
    | none => ⟨outputFile, skippedCount, some Halt.panic⟩
    | some false =>
      writeReplicationTaskLoop cd workflowID runID skipErrMode headerMode rest outputFile
        skippedCount
    | some true =>
      match decodeReplicationTask cd task with
      | none => ⟨outputFile, skippedCount, some Halt.panic⟩
      | some (Except.error err, _) =>
        if !skipErrMode then
          ⟨outputFile, skippedCount, some (Halt.exit malformedMessage (Cause.encodeError err))⟩
        else
          writeReplicationTaskLoop cd workflowID runID skipErrMode headerMode rest outputFile
            (wrapInt32 (skippedCount + 1))
      | some (Except.ok jsonStr, task1) =>
        let outStr : Option (List Byte) :=
          if !headerMode then some jsonStr
          else
            match task1.GetHistoryTaskV2Attributes with
            | none => none
            | some attributes =>
              some (attributes.DomainID ++ ascii ", " ++ attributes.WorkflowID ++ ascii ", "
                ++ attributes.RunID)
        match outStr with
        | none => ⟨outputFile, skippedCount, some Halt.panic⟩
        | some outStr =>
          match outputFile.WriteString (outStr ++ ascii "\n") with
          | (_, some err) =>
            ⟨outputFile, skippedCount,
              some (Halt.exit "Failed to write to file" (Cause.writeError err))⟩
          | (outputFile1, none) =>
            writeReplicationTaskLoop cd workflowID runID skipErrMode headerMode rest outputFile1
              skippedCount

/-- The function `writeReplicationTask`; `workflowID` and `runID` are the two
flag values it reads from the command line context. A receive from a `nil`
channel blocks forever. -/
def writeReplicationTask {E Blob H V : Type} (cd : Codec E Blob H) (outputFile : OutputFile E)
    (writerCh : writerChannel (ReplicationTask Blob) V) (skippedCount : Int)
    (skipErrMode headerMode : Bool) (workflowID runID : List Byte) : WriterRun E :=
  match writerCh.ReplicationTaskChannel with
  | none => ⟨outputFile, skippedCount, some Halt.blocked⟩
  | some tasks =>
    writeReplicationTaskLoop cd workflowID runID skipErrMode headerMode tasks outputFile
      skippedCount

/-- The loop of `writeVisibilityMessage` over the messages it receives before
the channel is closed. -/
def writeVisibilityMessageLoop {E Blob H : Type} (cd : Codec E Blob H)
    (workflowID runID : List Byte) (skipErrMode headerMode : Bool) :
    List Message → OutputFile E → Int → WriterRun E
  | [], outputFile, skippedCount => ⟨outputFile, skippedCount, none⟩
  | msg :: rest, outputFile, skippedCount =>
    if buildFilterFnForVisibility workflowID runID msg then
      match cd.marshalMessage msg with
      | Except.error err =>
        if !skipErrMode then
          ⟨outputFile, skippedCount, some (Halt.exit malformedMessage (Cause.encodeError err))⟩
        else
          writeVisibilityMessageLoop cd workflowID runID skipErrMode headerMode rest outputFile
            (wrapInt32 (skippedCount + 1))
      | Except.ok jsonStr =>
        let outStr : List Byte :=
          if !headerMode then jsonStr
          else
            msg.GetDomainID ++ ascii ", " ++ msg.GetWorkflowID ++ ascii ", " ++ msg.GetRunID
              ++ ascii ", " ++ cd.messageTypeString msg.GetMessageType ++ ascii ", "
              ++ formatInt msg.GetVersion
        match outputFile.WriteString (outStr ++ ascii "\n") with
        | (_, some err) =>
          ⟨outputFile, skippedCount,
            some (Halt.exit "Failed to write to file" (Cause.writeError err))⟩
        | (outputFile1, none) =>
          writeVisibilityMessageLoop cd workflowID runID skipErrMode headerMode rest outputFile1
            skippedCount
    else
      writeVisibilityMessageLoop cd workflowID runID skipErrMode headerMode rest outputFile
        skippedCount

/-- The function `writeVisibilityMessage`. -/
def writeVisibilityMessage {E Blob H T : Type} (cd : Codec E Blob H) (outputFile : OutputFile E)
    (writerCh : writerChannel T Message) (skippedCount : Int)
    (skipErrMode headerMode : Bool) (workflowID runID : List Byte) : WriterRun E :=
  match writerCh.VisibilityMsgChannel with
  | none => ⟨outputFile, skippedCount, some Halt.blocked⟩
  | some msgs =>
    writeVisibilityMessageLoop cd workflowID runID skipErrMode headerMode msgs outputFile
      skippedCount

/-- A codec for the examples: the blob `0` does not deserialise and a blob
`n + 1` holds the single event `n`; `json.Marshal` returns no error. -/
def demoCodec : Codec Unit Nat Nat where
  DeserializeBatchEvents := fun blob =>
    match blob with
    | 0 => some (Except.error ())
    | n + 1 => some (Except.ok (some [n]))
  marshalHistoryV2Task := fun p =>
    Except.ok (ascii "v2 " ++ (p.Events.getD []).map (fun n => n + 48))
  marshalTask := fun _ => Except.ok (ascii "task")
  marshalMessage := fun _ => Except.ok (ascii "msg")
  messageTypeString := fun n => if n = 0 then ascii "Index" else ascii "Delete"

/-- An empty output file on which every write succeeds. -/
def demoFile : OutputFile Unit := ⟨[], fun _ _ => none⟩

/-- A history v2 task whose event blob does not deserialise. -/
def demoBrokenTask : ReplicationTask Nat :=
  ⟨some ReplicationTaskTypeHistoryV2, some ⟨ascii "d1", ascii "A", ascii "X", some 0, none⟩⟩

/-! ## Rereplication -/

/-- Arithmetic of `int64`: the value of `x` after wrap-around. -/
def wrapInt64 (x : Int) : Int :=
  (x + 9223372036854775808) % 18446744073709551616 - 9223372036854775808

/-- The constant `defaultResendContextTimeout = 30 * time.Second`, in
nanoseconds (the unit of `time.Duration`). -/
def defaultResendContextTimeout : Int := 30 * 1000000000

/-- Modelled from the spec: the type `types.ResendReplicationTasksRequest` is
declared in `common/types`, which is not under src. It has the four
identifiers and the two optional bounds that `doRereplicate` fills in; a `nil`
bound is `none`. -/
structure ResendReplicationTasksRequest where
  DomainID : List Byte
  WorkflowID : List Byte
  RunID : List Byte
  RemoteCluster : List Byte
  EndEventID : Option Int
  EndVersion : Option Int
  deriving DecidableEq

/-- What a rereplication leaves behind: the calls of
`adminClient.ResendReplicationTasks` in the order they were made, each with
its context and request, and how the command stopped: `none` is a return. -/
structure ResendRun (E Ctx : Type) where
  calls : List (Ctx × ResendReplicationTasksRequest)
  halted : Option (Halt E)

/-- The function `doRereplicate`. The admin client is the function that gives
the error returned by `ResendReplicationTasks` (`none` for `nil`); the two
progress messages printed on standard output are left out. -/
def doRereplicate {E Ctx : Type} (ctx : Ctx) (domainID wid rid : List Byte)
    (endEventID endEventVersion : Option Int) (sourceCluster : List Byte)
    (adminClient : Ctx → ResendReplicationTasksRequest → Option E) : ResendRun E Ctx :=
  let request : ResendReplicationTasksRequest :=
    { DomainID := domainID, WorkflowID := wid, RunID := rid, RemoteCluster := sourceCluster,
      EndEventID := endEventID, EndVersion := endEventVersion }
  match adminClient ctx request with
  | some err =>
    ⟨[(ctx, request)], some (Halt.exit "Failed to resend ndc workflow" (Cause.resendError err))⟩
  | none => ⟨[(ctx, request)], none⟩

/-- What `AdminRereplicate` reads from the command line context `c`: the
shard count `c.Int(FlagNumberOfShards)`; for each of the four required
options the outcome of `getRequiredOption` (a helper of the package that is
not under src: it returns the value or exits); for the two optional bounds
the value of `c.Int64` when `c.IsSet` holds, else `none`; and the value of
`c.GlobalInt(FlagContextTimeout)` when `c.GlobalIsSet` holds. -/
structure RereplicateContext (E : Type) where
  NumberOfShards : Int
  SourceCluster : Except (Halt E) (List Byte)
  MaxEventID : Option Int
  EndEventVersion : Option Int
  DomainID : Except (Halt E) (List Byte)
  WorkflowID : Except (Halt E) (List Byte)
  RunID : Except (Halt E) (List Byte)
  ContextTimeout : Option Int

/-- The function `AdminRereplicate`; `adminClient` is the client that
`cFactory.ServerAdminClient(c)` returns, and the context passed on is its
timeout in nanoseconds. -/
def AdminRereplicate {E : Type} (c : RereplicateContext E)
    (adminClient : Int → ResendReplicationTasksRequest → Option E) : ResendRun E Int :=
  if c.NumberOfShards ≤ 0 then
    ⟨[], some (Halt.exit "numberOfShards is must be > 0" Cause.nilError)⟩
  else
    match c.SourceCluster with
    | Except.error h => ⟨[], some h⟩
    | Except.ok sourceCluster =>
      let endEventID : Option Int :=
        match c.MaxEventID with
        | some n => some (wrapInt64 (n + 1))
        | none => none
      let endVersion : Option Int :=
        match c.EndEventVersion with
        | some v => some v
        | none => none
      match c.DomainID with
      | Except.error h => ⟨[], some h⟩
      | Except.ok domainID =>
        match c.WorkflowID with
        | Except.error h => ⟨[], some h⟩
        | Except.ok wid =>
          match c.RunID with
          | Except.error h => ⟨[], some h⟩
          | Except.ok rid =>
            let contextTimeout : Int :=
              match c.ContextTimeout with
              | some n => wrapInt64 (n * 1000000000)
              | none => defaultResendContextTimeout
            doRereplicate contextTimeout domainID wid rid endEventID endVersion sourceCluster
              adminClient

/-- A command line for the examples: all required options present, four
shards, and the given optional bounds. -/
def demoContext (maxEventID endEventVersion : Option Int) : RereplicateContext Unit :=
  { NumberOfShards := 4, SourceCluster := Except.ok (ascii "west"), MaxEventID := maxEventID,
    EndEventVersion := endEventVersion, DomainID := Except.ok (ascii "d1"),
    WorkflowID := Except.ok (ascii "A"), RunID := Except.ok (ascii "X"),
    ContextTimeout := none }

/-! ## Access control of the admin API (`service/frontend/accessControlledAdminHandler.go`) -/

/-- The methods that the source defines on `AccessControlledWorkflowAdminHandler`
for the admin API, in the order of the file. -/
inductive AdminMethod where
  | AddSearchAttribute
  | CloseShard
  | DescribeCluster
  | DescribeShardDistribution
  | DescribeHistoryHost
  | DescribeQueue
  | DescribeWorkflowExecution
  | GetDLQReplicationMessages
  | GetDomainReplicationMessages
  | GetReplicationMessages
  | GetWorkflowExecutionRawHistoryV2
  | MergeDLQMessages
  | PurgeDLQMessages
  | ReadDLQMessages
  | ReapplyEvents
  | RefreshWorkflowTasks
  | RemoveTask
  | ResendReplicationTasks
  | ResetQueue
  | GetCrossClusterTasks
  deriving DecidableEq

/-- The Go name of each method. -/
def AdminMethod.name : AdminMethod → String
  | .AddSearchAttribute => "AddSearchAttribute"
  | .CloseShard => "CloseShard"
  | .DescribeCluster => "DescribeCluster"
  | .DescribeShardDistribution => "DescribeShardDistribution"
  | .DescribeHistoryHost => "DescribeHistoryHost"
  | .DescribeQueue => "DescribeQueue"
  | .DescribeWorkflowExecution => "DescribeWorkflowExecution"
  | .GetDLQReplicationMessages => "GetDLQReplicationMessages"
  | .GetDomainReplicationMessages => "GetDomainReplicationMessages"
  | .GetReplicationMessages => "GetReplicationMessages"
  | .GetWorkflowExecutionRawHistoryV2 => "GetWorkflowExecutionRawHistoryV2"
  | .MergeDLQMessages => "MergeDLQMessages"
  | .PurgeDLQMessages => "PurgeDLQMessages"
  | .ReadDLQMessages => "ReadDLQMessages"
  | .ReapplyEvents => "ReapplyEvents"
  | .RefreshWorkflowTasks => "RefreshWorkflowTasks"
  | .RemoveTask => "RemoveTask"
  | .ResendReplicationTasks => "ResendReplicationTasks"
  | .ResetQueue => "ResetQueue"
  | .GetCrossClusterTasks => "GetCrossClusterTasks"

/-- The string literal that the body of each method stores in `APIName`. -/
def AdminMethod.APIName : AdminMethod → String
  | .AddSearchAttribute => "AddSearchAttribute"
  | .CloseShard => "CloseShard"
  | .DescribeCluster => "DescribeCluster"
  | .DescribeShardDistribution => "DescribeShardDistribution"
  | .DescribeHistoryHost => "DescribeHistoryHost"
  | .DescribeQueue => "DescribeQueue"
  | .DescribeWorkflowExecution => "DescribeWorkflowExecution"
  | .GetDLQReplicationMessages => "GetDLQReplicationMessages"
  | .GetDomainReplicationMessages => "GetDomainReplicationMessages"
  | .GetReplicationMessages => "GetReplicationMessages"
  | .GetWorkflowExecutionRawHistoryV2 => "GetWorkflowExecutionRawHistoryV2"
  | .MergeDLQMessages => "MergeDLQMessages"
  | .PurgeDLQMessages => "PurgeDLQMessages"
  | .ReadDLQMessages => "ReadDLQMessages"
  | .ReapplyEvents => "ReapplyEvents"
  | .RefreshWorkflowTasks => "RefreshWorkflowTasks"
  | .RemoveTask => "RemoveTask"
  | .ResendReplicationTasks => "ResendReplicationTasks"
  | .ResetQueue => "ResetQueue"
  | .GetCrossClusterTasks => "GetCrossClusterTasks"

/-- The method of the wrapped handler that the body of each method calls in
its last line. -/
def AdminMethod.wrapped : AdminMethod → AdminMethod
  | .AddSearchAttribute => .AddSearchAttribute
  | .CloseShard => .CloseShard
  | .DescribeCluster => .DescribeCluster
  | .DescribeShardDistribution => .DescribeShardDistribution
  | .DescribeHistoryHost => .DescribeHistoryHost
  | .DescribeQueue => .DescribeQueue
  | .DescribeWorkflowExecution => .DescribeWorkflowExecution
  | .GetDLQReplicationMessages => .GetDLQReplicationMessages
  | .GetDomainReplicationMessages => .GetDomainReplicationMessages
  | .GetReplicationMessages => .GetReplicationMessages
  | .GetWorkflowExecutionRawHistoryV2 => .GetWorkflowExecutionRawHistoryV2
  | .MergeDLQMessages => .MergeDLQMessages
  | .PurgeDLQMessages => .PurgeDLQMessages
  | .ReadDLQMessages => .ReadDLQMessages
  | .ReapplyEvents => .ReapplyEvents
  | .RefreshWorkflowTasks => .RefreshWorkflowTasks
  | .RemoveTask => .RemoveTask
  | .ResendReplicationTasks => .ResendReplicationTasks
  | .ResetQueue => .ResetQueue
  | .GetCrossClusterTasks => .GetCrossClusterTasks

/-- Modelled from the spec: the type `authorization.Permission` is declared in
`common/authorization`, which is not under src. -/
inductive Permission where
  | PermissionRead
  | PermissionWrite
  | PermissionAdmin
  deriving DecidableEq

/-- Modelled from the spec: the type `authorization.Decision` is declared in
`common/authorization`, which is not under src; `unset` is its zero value. -/
inductive Decision where
  | unset
  | DecisionDeny
  | DecisionAllow
  deriving DecidableEq

/-- Modelled from the spec: the type `authorization.Attributes` is declared in
`common/authorization`, which is not under src; the fields that the admin
wrapper leaves at their zero value are left out. -/
structure Attributes where
  APIName : String
  Permission : Permission
  deriving DecidableEq

/-- Modelled from the spec: the type `authorization.Result` is declared in
`common/authorization`, which is not under src. -/
structure AuthorizationResult where
  Decision : Decision
  deriving DecidableEq

/-- The struct `AccessControlledWorkflowAdminHandler`: the wrapped admin
handler, as the function that gives for a method, a context and a request the
response and the error that the method returns (`none` is `nil`, and a method
that returns only an error has no response), and the authorizer, as the
function `Authorize`. -/
structure AccessControlledWorkflowAdminHandler (E Ctx Req Resp : Type) where
  adminHandler : AdminMethod → Ctx → Req → Option Resp × Option E
  authorizer : Ctx → Attributes → AuthorizationResult × Option E

/-- The method `isAuthorized`. -/
def isAuthorized {E Ctx Req Resp : Type}
    (a : AccessControlledWorkflowAdminHandler E Ctx Req Resp) (ctx : Ctx) (attr : Attributes) :
    Bool × Option E :=
  match a.authorizer ctx attr with
  | (_, some err) => (false, some err)
  | (result, none) => (decide (result.Decision = Decision.DecisionAllow), none)

/-- What a call of a method of the wrapper leaves behind: the calls made on
the wrapped handler, and the response and error returned. -/
structure HandlerRun (E Ctx Req Resp : Type) where
  calls : List (AdminMethod × Ctx × Req)
  result : Option Resp × Option E

/-- The body that the twenty methods of the wrapper share, for the method
`method`: they differ in the `APIName` literal and in the method of the
wrapped handler they call. `errUnauthorized` is a variable of the package
that is declared outside src. -/
def AccessControlledWorkflowAdminHandler.call {E Ctx Req Resp : Type}
    (a : AccessControlledWorkflowAdminHandler E Ctx Req Resp) (errUnauthorized : E)
    (method : AdminMethod) (ctx : Ctx) (request : Req) : HandlerRun E Ctx Req Resp :=
  let attr : Attributes :=
    { APIName := method.APIName, Permission := Permission.PermissionAdmin }
  match isAuthorized a ctx attr with
  | (_, some err) => ⟨[], (none, some err)⟩
  | (false, none) => ⟨[], (none, some errUnauthorized)⟩
  | (true, none) =>
    ⟨[(method.wrapped, ctx, request)], a.adminHandler method.wrapped ctx request⟩

/-- An admin handler for the examples: every wrapped method answers the
request plus one; the authorizer allows `ResendReplicationTasks`, fails on
`CloseShard` and denies the other methods. -/
def demoAdminHandler : AccessControlledWorkflowAdminHandler String Unit Nat Nat where
  adminHandler := fun _ _ n => (some (n + 1), none)
  authorizer := fun _ attr =>
    if attr.APIName = "ResendReplicationTasks" ∧ attr.Permission = Permission.PermissionAdmin then
      (⟨Decision.DecisionAllow⟩, none)
    else if attr.APIName = "CloseShard" then (⟨Decision.unset⟩, some "authorizer failed")
    else (⟨Decision.DecisionDeny⟩, none)

/-! ## Cluster metadata (`common/config/cluster.go`) -/

/-- A Go map, as the list of its entries in the order in which a `range`
loop visits them. The keys of a map are distinct. -/
abbrev GoMap (κ α : Type) := List (κ × α)

/-- The expression `m[k]` with its `ok` result: the value stored for the key,
if there is one. -/
def GoMap.get? {κ α : Type} [DecidableEq κ] : GoMap κ α → κ → Option α
  | [], _ => none
  | e :: m, k => if e.1 = k then some e.2 else GoMap.get? m k

/-- The assignment `m[k] = v`: the value of an existing key is replaced, a
new key is added. -/
def GoMap.set {κ α : Type} [DecidableEq κ] : GoMap κ α → κ → α → GoMap κ α
  | [], k, v => [(k, v)]
  | e :: m, k, v => if e.1 = k then (k, v) :: m else e :: GoMap.set m k v

/-- The struct `ClusterInformation`. -/
structure ClusterInformation where
  Enabled : Bool
  InitialFailoverVersion : Int
  RPCName : List Byte
  RPCAddress : List Byte
  deriving DecidableEq

/-- The struct `ClusterMetadata`. -/
structure ClusterMetadata where
  EnableGlobalDomain : Bool
  FailoverVersionIncrement : Int
  PrimaryClusterName : List Byte
  MasterClusterName : List Byte
  CurrentClusterName : List Byte
  ClusterInformation : GoMap (List Byte) ClusterInformation
  deriving DecidableEq

/-- The errors that `validate` appends, one constructor per call of
`multierr.Append` and one for the nil receiver. -/
inductive ValidationError where
  /-- Text: ClusterMetadata cannot be empty. -/
  | metadataEmpty
  /-- Text: primary cluster name is empty. -/
  | primaryNameEmpty
  /-- Text: current cluster name is empty. -/
  | currentNameEmpty
  /-- Text: version increment is 0. -/
  | incrementZero
  /-- Text: empty cluster information. -/
  | emptyClusterInformation
  /-- Text: primary cluster is not specified in cluster info. -/
  | primaryNotInInfo
  /-- Text: current cluster is not specified in cluster info. -/
  | currentNotInInfo
  /-- Text: cluster with empty name defined. -/
  | emptyClusterName
  /-- Text: cluster, version increment is smaller than initial version. -/
  | versionOutOfRange (clusterName : List Byte) (increment initial : Int)
  /-- Text: cluster, rpc name / address is empty. -/
  | rpcEmpty (clusterName : List Byte)
  /-- Text: cluster info initial versions have duplicates. -/
  | duplicateVersions
  deriving DecidableEq

/-- The loop `for clusterName, info := range m.ClusterInformation` of
`validate`, with its variables `errs` and `versionToClusterName`. The call
`multierr.Append(errs, err)` adds `err` to the list of errors; the `nil`
error is the empty list. -/
def validateLoop (increment : Int) :
    List (List Byte × ClusterInformation) → List ValidationError → GoMap Int (List Byte) →
      List ValidationError × GoMap Int (List Byte)
  | [], errs, versionToClusterName => (errs, versionToClusterName)
  | (clusterName, info) :: rest, errs, versionToClusterName =>
    let errs1 :=
      if clusterName.length = 0 then errs ++ [ValidationError.emptyClusterName] else errs
    let versionToClusterName1 :=
      GoMap.set versionToClusterName info.InitialFailoverVersion clusterName
    let errs2 :=
      if increment ≤ info.InitialFailoverVersion ∨ info.InitialFailoverVersion < 0 then
        errs1 ++ [ValidationError.versionOutOfRange clusterName increment
          info.InitialFailoverVersion]
      else errs1
    let errs3 :=
      if info.Enabled = true ∧ (info.RPCName.length = 0 ∨ info.RPCAddress.length = 0) then
        errs2 ++ [ValidationError.rpcEmpty clusterName]
      else errs2
    validateLoop increment rest errs3 versionToClusterName1

/-- The method `validate` of `ClusterMetadata`; the receiver is a pointer,
`none` when it is `nil`. The warning it logs is left out. -/
def validate (m : Option ClusterMetadata) : List ValidationError :=
  match m with
  | none => [ValidationError.metadataEmpty]
  | some m =>
    let errs0 : List ValidationError := []
    let errs1 :=
      if m.PrimaryClusterName.length = 0 then errs0 ++ [ValidationError.primaryNameEmpty]
      else errs0
    let errs2 :=
      if m.CurrentClusterName.length = 0 then errs1 ++ [ValidationError.currentNameEmpty]
      else errs1
    let errs3 :=
      if m.FailoverVersionIncrement = 0 then errs2 ++ [ValidationError.incrementZero]
      else errs2
    let errs4 :=
      if m.ClusterInformation.length = 0 then errs3 ++ [ValidationError.emptyClusterInformation]
      else errs3
    let errs5 :=
      if m.PrimaryClusterName.length > 0 ∧
          (GoMap.get? m.ClusterInformation m.PrimaryClusterName).isNone = true then
        errs4 ++ [ValidationError.primaryNotInInfo]
      else errs4
    let errs6 :=
      if m.CurrentClusterName.length > 0 ∧
          (GoMap.get? m.ClusterInformation m.CurrentClusterName).isNone = true then
        errs5 ++ [ValidationError.currentNotInInfo]
      else errs5
    match validateLoop m.FailoverVersionIncrement m.ClusterInformation errs6 [] with
    | (errs, versionToClusterName) =>
      if versionToClusterName.length ≠ m.ClusterInformation.length then
        errs ++ [ValidationError.duplicateVersions]
      else errs

/-- The loop `for name, cluster := range m.ClusterInformation` of
`fillDefaults`: the entries are those of the map when the loop starts, and
the assignments go to the map. -/
def fillDefaultsLoop :
    List (List Byte × ClusterInformation) → GoMap (List Byte) ClusterInformation →
      GoMap (List Byte) ClusterInformation
  | [], clusterInformation => clusterInformation
  | (name, cluster) :: rest, clusterInformation =>
    if cluster.RPCName = [] then
      fillDefaultsLoop rest
        (GoMap.set clusterInformation name { cluster with RPCName := ascii "cadence-frontend" })
    else fillDefaultsLoop rest clusterInformation

/-- The method `fillDefaults` of `ClusterMetadata`: the metadata as the call
leaves it; the receiver is a pointer, `none` when it is `nil`. The warning it
logs is left out. -/
def fillDefaults (m : Option ClusterMetadata) : Option ClusterMetadata :=
  match m with
  | none => none
  | some m =>
    let m1 : ClusterMetadata :=
      if m.PrimaryClusterName.length = 0 then
        { m with PrimaryClusterName := m.MasterClusterName }
      else m
    some { m1 with
      ClusterInformation := fillDefaultsLoop m1.ClusterInformation m1.ClusterInformation }

/-- Metadata for the examples: two clusters, the second without RPC name. -/
def demoMetadata : ClusterMetadata :=
  { EnableGlobalDomain := true, FailoverVersionIncrement := 10,
    PrimaryClusterName := ascii "east", MasterClusterName := [],
    CurrentClusterName := ascii "west",
    ClusterInformation :=
      [(ascii "east", ⟨true, 0, ascii "frontend", ascii "host1:7933"⟩),
       (ascii "west", ⟨false, 2, [], ascii "host2:7933"⟩)] }

/-! ## The writer channel and the writer goroutine -/

/-- The function `newWriterChannel(messageType)`: a channel is made for the
message type in one of the two cases of the `switch`, and a made channel has
nothing sent on it yet. -/
def newWriterChannel {T V : Type} (messageType : Int) : writerChannel T V :=
  if messageType = kafkaMessageTypeReplicationTask then
    { msgType := messageType, ReplicationTaskChannel := some [], VisibilityMsgChannel := none }
  else if messageType = kafkaMessageTypeVisibilityMsg then
    { msgType := messageType, ReplicationTaskChannel := none, VisibilityMsgChannel := some [] }
  else
    { msgType := messageType, ReplicationTaskChannel := none, VisibilityMsgChannel := none }

/-- The function `startWriter`, on the messages sent on the channel before it
is closed; the two mode flags and the two filter criteria are what it and the
writers read from the command line context. Closing `doneCh` is left out. -/
def startWriter {E Blob H : Type} (cd : Codec E Blob H) (outputFile : OutputFile E)
    (writerCh : writerChannel (ReplicationTask Blob) Message) (skippedCount : Int)
    (skipErrMode headerMode : Bool) (workflowID runID : List Byte) : WriterRun E :=
  if writerCh.msgType = kafkaMessageTypeReplicationTask then
    writeReplicationTask cd outputFile writerCh skippedCount skipErrMode headerMode workflowID
      runID
  else if writerCh.msgType = kafkaMessageTypeVisibilityMsg then
    writeVisibilityMessage cd outputFile writerCh skippedCount skipErrMode headerMode workflowID
      runID
  else ⟨outputFile, skippedCount, none⟩

/-- The buffers that `startParser` retains after each chunk of `readerCh`,
starting from `buffer`: after a chunk the buffer is the second result of
`splitBuffer` on the old buffer followed by the chunk, as long as
`splitBuffer` finds a header. -/
def retainedBuffers : List (List Byte) → List Byte → List (List Byte)
  | [], _ => []
  | data :: rest, buffer =>
    match (FindAllIndex r (buffer ++ data)).getLast? with
    | none => []
    | some (splitIndex, _) =>
      (buffer ++ data).drop splitIndex ::
        retainedBuffers rest ((buffer ++ data).drop splitIndex)

/-! ## Dynamic configuration from the config store (`common/dynamicconfig/config_store_client.go`) -/

/-- Modelled from the spec: the type `types.DataBlob` is declared in
`common/types`, in a file that is not under src. The encoding type is a
pointer to an enumeration value (`nil` is `none`). -/
structure DataBlob where
  EncodingType : Option Int
  Data : List Byte
  deriving DecidableEq

/-- Modelled from the spec: the constant `types.EncodingTypeJSON` is declared
in `common/types`, in a file that is not under src. -/
def EncodingTypeJSON : Int := 1

/-- Modelled from the spec: the type `types.DynamicConfigFilter` is declared
in `common/types`, in a file that is not under src. -/
structure DynamicConfigFilter where
  Name : List Byte
  Value : Option DataBlob
  deriving DecidableEq

/-- Modelled from the spec: the type `types.DynamicConfigValue` is declared in
`common/types`, in a file that is not under src. -/
structure DynamicConfigValue where
  Value : Option DataBlob
  Filters : List DynamicConfigFilter
  deriving DecidableEq

/-- Modelled from the spec: the type `types.DynamicConfigEntry` is declared in
`common/types`, in a file that is not under src. -/
structure DynamicConfigEntry where
  Name : List Byte
  Values : List DynamicConfigValue
  deriving DecidableEq

/-- The errors of the config store client: the variable `notFoundError` of the
package (declared outside src), the error for an unsupported blob encoding,
and an error returned by `json.Unmarshal`. -/
inductive ConfigError (E : Type) where
  | notFoundError
  | unsupportedEncoding
  | json (e : E)
  deriving DecidableEq

/-- The JSON decoder of the Go library: what valid data decodes to, or the
syntax error of invalid data, and the error `InvalidUnmarshalError`. -/
structure Json (E Val : Type) where
  decodeValue : List Byte → Except E Val
  invalidUnmarshalError : E

/-- The call `json.Unmarshal(data, v)` of the Go library where `v` holds the
nil interface value, as in `convertFromDataBlob`: the library checks the
syntax of the data and then, since `v` is not a pointer, returns an
`InvalidUnmarshalError`. Nothing is stored. -/
def jsonUnmarshalNil {E Val : Type} (js : Json E Val) (data : List Byte) : Option E :=
  match js.decodeValue data with
  | Except.error err => some err
  | Except.ok _ => some js.invalidUnmarshalError

/-- The function `convertFromDataBlob(blob)`: the value and the error it
returns. An `interface{}` value is `none` when it is nil. The outer `none` is
the panic of a dereference of a nil blob or a nil encoding type. The variable
`v` is declared without a value and is passed to `json.Unmarshal` by value,
so it is still nil when it is returned. -/
def convertFromDataBlob {E Val : Type} (js : Json E Val) (blob : Option DataBlob) :
    Option (Option Val × Option (ConfigError E)) :=
  match blob with
  | none => none
  | some blob =>
    match blob.EncodingType with
    | none => none
    | some encodingType =>
      if encodingType = EncodingTypeJSON then
        let v : Option Val := none
        let err := jsonUnmarshalNil js blob.Data
        some (v, err.map ConfigError.json)
      else some (none, some ConfigError.unsupportedEncoding)

/-- The loop over `dc_value.Filters` of `matchFilters`; `parseFilter` is a
function of the package that is declared outside src. The outer `none` is a
panic. -/
def matchFiltersLoop {E Val F : Type} [DecidableEq Val] [DecidableEq F] (js : Json E Val)
    (parseFilter : List Byte → F) (filters : GoMap F (Option Val)) :
    List DynamicConfigFilter → Option Bool
  | [] => some true
  | value_filter :: rest =>
    let filterKey := parseFilter value_filter.Name
    if (GoMap.get? filters filterKey).join = none then some false
    else
      match convertFromDataBlob js value_filter.Value with
      | none => none
      | some (request_value, err) =>
        if err.isSome = true ∨ (GoMap.get? filters filterKey).join ≠ request_value then
          some false
        else matchFiltersLoop js parseFilter filters rest

/-- The function `matchFilters(dc_value, filters)`. -/
def matchFilters {E Val F : Type} [DecidableEq Val] [DecidableEq F] (js : Json E Val)
    (parseFilter : List Byte → F) (dc_value : DynamicConfigValue)
    (filters : GoMap F (Option Val)) : Option Bool :=
  if dc_value.Filters.length > filters.length then some false
  else matchFiltersLoop js parseFilter filters dc_value.Filters

/-- The loop over `values[keyName].Values` of `getValueWithFilters`, with its
variables `defaultValue` and `found`, and the two return statements after it. -/
def getValueWithFiltersLoop {E Val F : Type} [DecidableEq Val] [DecidableEq F]
    (js : Json E Val) (parseFilter : List Byte → F) (filters : GoMap F (Option Val)) :
    List DynamicConfigValue → Option Val → Bool →
      Option (Option Val × Option (ConfigError E))
  | [], defaultValue, found =>
    if !found then some (defaultValue, some ConfigError.notFoundError)
    else some (defaultValue, none)
  | dc_value :: rest, defaultValue, found =>
    if dc_value.Filters.length = 0 then
      match convertFromDataBlob js dc_value.Value with
      | none => none
      | some (parsed_val, none) =>
        getValueWithFiltersLoop js parseFilter filters rest parsed_val true
      | some (_, some _) =>
        getValueWithFiltersLoop js parseFilter filters rest defaultValue found
    else
      match matchFilters js parseFilter dc_value filters with
      | none => none
      | some true => convertFromDataBlob js dc_value.Value
      | some false => getValueWithFiltersLoop js parseFilter filters rest defaultValue found

/-- The method `getValueWithFilters` of the config store client. `keyName` is
`keys[key]`, from a table of the package that is declared outside src, and
`values` is the map that the client has loaded. The outer `none` is a panic:
for a key that is not in the map, `values[keyName]` is a nil pointer. -/
def getValueWithFilters {E Val F : Type} [DecidableEq Val] [DecidableEq F] (js : Json E Val)
    (parseFilter : List Byte → F) (values : GoMap (List Byte) DynamicConfigEntry)
    (keyName : List Byte) (filters : GoMap F (Option Val)) (defaultValue : Option Val) :
    Option (Option Val × Option (ConfigError E)) :=
  match GoMap.get? values keyName with
  | none => none
  | some entry =>
    getValueWithFiltersLoop js parseFilter filters entry.Values defaultValue false

/-- A JSON decoder for the examples: a text of one digit decodes to that
digit, every other text is a syntax error. -/
def demoJson : Json String Nat where
  decodeValue := fun data =>
    match data with
    | [c] => if 48 ≤ c ∧ c ≤ 57 then Except.ok (c - 48) else Except.error "syntax error"
    | _ => Except.error "syntax error"
  invalidUnmarshalError := "json: Unmarshal(nil)"

/-- Loaded configuration for the examples: the key `k` has one value without
filters, the JSON text `1`. -/
def demoValues : GoMap (List Byte) DynamicConfigEntry :=
  [(ascii "k", ⟨ascii "k", [⟨some ⟨some EncodingTypeJSON, ascii "1"⟩, []⟩]⟩)]

/-- Two groups each after a header: the first decodes to the task `7`, the
second decodes to the value `200`, on which the conversion of `demoThrift`
panics. -/
def demoPanicData : List Byte :=
  demoHeader ++ [107, 0x59, 1, 7] ++ demoHeader ++ [107, 0x59, 1, 200]

/-- Two groups each after a header: the first decodes to the value `200`, on
which the conversion of `demoThrift` panics, the second does not decode. -/
def demoPanicStream : List Byte :=
  demoHeader ++ [0x59, 1, 200] ++ demoHeader ++ [0x59, 2]

/-! ## The lines of the output -/

/-- The line that the loop of `writeReplicationTask` writes for one task it has
received, if it writes one: the task passes the filter, `decodeReplicationTask`
returns without error, and the text is the JSON, or in header mode the three
identifiers of the attributes. -/
def replicationTaskLine {E Blob H : Type} (cd : Codec E Blob H) (workflowID runID : List Byte)
    (headerMode : Bool) (task : ReplicationTask Blob) : Option (List Byte) :=
  match buildFilterFn workflowID runID task with
  | some true =>
    match decodeReplicationTask cd task with
    | some (Except.ok jsonStr, task1) =>
      if !headerMode then some (jsonStr ++ ascii "\n")
      else
        match task1.GetHistoryTaskV2Attributes with
        | none => none
        | some attributes =>
          some (attributes.DomainID ++ ascii ", " ++ attributes.WorkflowID ++ ascii ", "
            ++ attributes.RunID ++ ascii "\n")
    | _ => none
  | _ => none

/-- The line that the loop of `writeVisibilityMessage` writes for one message
it has received, if it writes one. -/
def visibilityMessageLine {E Blob H : Type} (cd : Codec E Blob H) (workflowID runID : List Byte)
    (headerMode : Bool) (msg : Message) : Option (List Byte) :=
  if buildFilterFnForVisibility workflowID runID msg then
    match cd.marshalMessage msg with
    | Except.error _ => none
    | Except.ok jsonStr =>
      if !headerMode then some (jsonStr ++ ascii "\n")
      else
        some (msg.GetDomainID ++ ascii ", " ++ msg.GetWorkflowID ++ ascii ", " ++ msg.GetRunID
          ++ ascii ", " ++ cd.messageTypeString msg.GetMessageType ++ ascii ", "
          ++ formatInt msg.GetVersion ++ ascii "\n")
  else none

/-- A thrift library for the examples of the whole pipeline: the bytes `1, k`
decode to the value `k`, which converts to a history v2 task (or is a
visibility message) of the workflow whose identifier is the single byte `k`;
the events blob of the task is `k`. -/
def demoPipelineThrift : Thrift Unit (List Byte) Nat Message (ReplicationTask Nat) where
  binaryDecode := fun b => Except.ok b
  replicationTaskFromWire := fun w =>
    match w with
    | [1, k] => Except.ok k
    | _ => Except.error ()
  messageFromWire := fun w =>
    match w with
    | [1, k] =>
      Except.ok ⟨some 0, some (ascii "d1"), some [k], some (ascii "X"), some 7⟩
    | _ => Except.error ()
  toReplicationTask := fun k =>
    if k < 100 then
      some ⟨some ReplicationTaskTypeHistoryV2, some ⟨ascii "d1", [k], ascii "X", some k, none⟩⟩
    else none

/-- Three groups each after a header: the first decodes to the message of the
workflow `A`, the second does not decode, the third decodes to the message of
the workflow `B`. -/
def demoPipelineStream : List Byte :=
  demoHeader ++ [0x59, 1, 65] ++ demoHeader ++ [0x59, 2] ++ demoHeader ++ [0x59, 1, 66]

/-- The line that the replication writer writes for a group of the input, if
the group gives a task and the writer writes a line for that task. -/
def groupTaskLine {E W R V Blob H : Type} (cx : Thrift E W R V (ReplicationTask Blob))
    (cd : Codec E Blob H) (workflowID runID : List Byte) (headerMode : Bool)
    (g : List Byte) : Option (List Byte) :=
  (groupTask cx g).bind (replicationTaskLine cd workflowID runID headerMode)

/-- The line that the visibility writer writes for a group of the input, if
the group gives a message and the writer writes a line for that message. -/
def groupMsgLine {E W R T Blob H : Type} (cx : Thrift E W R Message T)
    (cd : Codec E Blob H) (workflowID runID : List Byte) (headerMode : Bool)
    (g : List Byte) : Option (List Byte) :=
  (groupMsg cx g).bind (visibilityMessageLine cd workflowID runID headerMode)

/-- An empty output file on which every write fails. -/
def demoFullFile : OutputFile Unit := ⟨[], fun _ _ => some ()⟩

/-! ## Lemmas: machine integers and byte search -/

theorem wrapInt32_add_left (a b : Int) : wrapInt32 (wrapInt32 a + b) = wrapInt32 (a + b) := by
  unfold wrapInt32; omega

theorem wrapInt32_add_right (a b : Int) : wrapInt32 (a + wrapInt32 b) = wrapInt32 (a + b) := by
  unfold wrapInt32; omega

theorem wrapInt32_natCast (n : Nat) (h : n < 2147483648) : wrapInt32 (n : Int) = (n : Int) := by
  unfold wrapInt32; omega

theorem wrapInt32_idem (x : Int) : wrapInt32 (wrapInt32 x) = wrapInt32 x := by
  unfold wrapInt32; omega

theorem bytesIndex_ge (s : List Byte) (b : Byte) : -1 ≤ bytesIndex s b := by
  induction s with
  | nil => simp [bytesIndex]
  | cons c s ih =>
    unfold bytesIndex
    split_ifs <;> omega

/-- What `getMessages` does with one group, in the words of `rawFrame`. -/
theorem rawFrame_eq (g : List Byte) :
    rawFrame g =
      if bytesIndex g preambleVersion0 = -1 then none
      else some (g.drop (bytesIndex g preambleVersion0).toNat) := by
  induction g with
  | nil => simp [rawFrame, bytesIndex]
  | cons c g ih =>
    by_cases hc : c = preambleVersion0
    · simp [rawFrame, bytesIndex, hc]
    · have hge := bytesIndex_ge g preambleVersion0
      by_cases hi : bytesIndex g preambleVersion0 = -1
      · simp [rawFrame, bytesIndex, hc, hi, ih]
      · have ht : (bytesIndex g preambleVersion0 + 1).toNat
            = (bytesIndex g preambleVersion0).toNat + 1 := by omega
        have hne : bytesIndex g preambleVersion0 + 1 ≠ -1 := by omega
        simp [rawFrame, bytesIndex, hc, hi, ih, ht, hne]

/-- A raw frame is a suffix of its group that starts with the first marker byte. -/
theorem rawFrame_some (g m : List Byte) (h : rawFrame g = some m) :
    ∃ pre rest, g = pre ++ m ∧ preambleVersion0 ∉ pre ∧ m = preambleVersion0 :: rest := by
  induction g with
  | nil => simp [rawFrame] at h
  | cons c g ih =>
    by_cases hc : c = preambleVersion0
    · simp [rawFrame, hc] at h
      exact ⟨[], g, by simp [← h, hc], by simp, by simp [← h]⟩
    · simp [rawFrame, hc] at h
      obtain ⟨pre, rest, h1, h2, h3⟩ := ih h
      refine ⟨c :: pre, rest, by simp [h1], ?_, h3⟩
      simp only [List.mem_cons, not_or]
      exact ⟨fun h => hc h.symm, h2⟩

theorem rawFrame_none (g : List Byte) : rawFrame g = none ↔ preambleVersion0 ∉ g := by
  induction g with
  | nil => simp [rawFrame]
  | cons c g ih =>
    by_cases hc : c = preambleVersion0
    · simp [rawFrame, hc]
    · simp only [rawFrame, hc, if_false, ih, List.mem_cons, not_or]
      exact ⟨fun h => ⟨fun h2 => hc h2.symm, h⟩, fun h => h.2⟩

/-! ## Lemmas: the loops of getMessages and of the deserializers -/

section Loops

variable {E W R V T : Type}

/-- The count a loop reaches after `n` increments of an in-range `int32`. -/
theorem wrapInt32_succ_add (sk : Int) (n : Nat) :
    wrapInt32 (wrapInt32 (sk + 1) + (n : Int)) = wrapInt32 (sk + ((n + 1 : Nat) : Int)) := by
  rw [wrapInt32_add_left]
  congr 1
  push_cast
  ring

theorem getMessagesLoop_ok (skipErrors : Bool) (ms rawMessages : List (List Byte)) (sk : Int)
    (hsk : wrapInt32 sk = sk)
    (h : ∀ m ∈ ms, m ≠ [] ∧ (skipErrors = false → rawFrame m ≠ none)) :
    getMessagesLoop (E := E) skipErrors ms rawMessages sk =
      Except.ok (rawMessages ++ ms.filterMap rawFrame,
        wrapInt32 (sk + ((ms.countP (fun m => (rawFrame m).isNone) : Nat) : Int))) := by
  induction ms generalizing rawMessages sk with
  | nil => simp [getMessagesLoop, hsk]
  | cons m ms ih =>
    have hm := h m (List.mem_cons_self _ _)
    have hms : ∀ x ∈ ms, x ≠ [] ∧ (skipErrors = false → rawFrame x ≠ none) :=
      fun x hx => h x (List.mem_cons_of_mem _ hx)
    have hlen : m.length ≠ 0 := by
      intro h0; exact hm.1 (List.length_eq_zero.mp h0)
    unfold getMessagesLoop
    rw [if_neg hlen]
    have hraw := rawFrame_eq m
    by_cases hi : bytesIndex m preambleVersion0 = -1
    · rw [if_pos hi] at hraw
      cases skipErrors with
      | false => exact absurd hraw (hm.2 rfl)
      | true =>
        simp only [hi, if_true, Bool.not_true, Bool.false_eq_true, if_false]
        rw [ih _ _ (wrapInt32_idem _) hms]
        simp [hraw, List.filterMap_cons, List.countP_cons, wrapInt32_succ_add]
    · rw [if_neg hi] at hraw
      simp only [hi, if_false]
      rw [ih _ _ hsk hms]
      simp [hraw, List.filterMap_cons, List.countP_cons]

theorem getMessagesLoop_error (skipErrors : Bool) (ms rawMessages : List (List Byte)) (sk : Int)
    (h : ¬ ∀ m ∈ ms, m ≠ [] ∧ (skipErrors = false → rawFrame m ≠ none)) :
    ∃ cause, getMessagesLoop (E := E) skipErrors ms rawMessages sk =
      Except.error (Halt.exit malformedMessage cause) := by
  induction ms generalizing rawMessages sk with
  | nil => simp at h
  | cons m ms ih =>
    unfold getMessagesLoop
    by_cases hlen : m.length = 0
    · exact ⟨Cause.emptyMessage, by simp [hlen, ErrorAndExit]⟩
    · rw [if_neg hlen]
      have hne : m ≠ [] := fun h0 => hlen (by simp [h0])
      have hraw := rawFrame_eq m
      by_cases hi : bytesIndex m preambleVersion0 = -1
      · cases skipErrors with
        | false => exact ⟨Cause.noPreamble, by simp [hi, ErrorAndExit]⟩
        | true =>
          simp only [hi, if_true, Bool.not_true, Bool.false_eq_true, if_false]
          apply ih
          intro hall
          apply h
          intro x hx
          rcases List.mem_cons.mp hx with rfl | hx
          · exact ⟨hne, by simp⟩
          · exact hall x hx
      · rw [if_neg hi] at hraw
        simp only [hi, if_false]
        apply ih
        intro hall
        apply h
        intro x hx
        rcases List.mem_cons.mp hx with rfl | hx
        · exact ⟨hne, fun _ => by simp [hraw]⟩
        · exact hall x hx

theorem deserializeMessagesLoop_ok (cx : Thrift E W R V T) (skipErrors : Bool)
    (ms : List (List Byte)) (tasks : List T) (sk : Int) (hsk : wrapInt32 sk = sk)
    (h : ∀ m ∈ ms, m ≠ [] ∧ (skipErrors = false → frameTask cx m ≠ none))
    (hnp : ∀ m ∈ ms, framePanics cx m = false) :
    deserializeMessagesLoop cx skipErrors ms tasks sk =
      Except.ok (tasks ++ ms.filterMap (frameTask cx),
        wrapInt32 (sk + ((ms.countP (fun m => (frameTask cx m).isNone) : Nat) : Int))) := by
  induction ms generalizing tasks sk with
  | nil => simp [deserializeMessagesLoop, hsk]
  | cons m ms ih =>
    have hm := h m (List.mem_cons_self _ _)
    have hms : ∀ x ∈ ms, x ≠ [] ∧ (skipErrors = false → frameTask cx x ≠ none) :=
      fun x hx => h x (List.mem_cons_of_mem _ hx)
    have hpm := hnp m (List.mem_cons_self _ _)
    have hpms : ∀ x ∈ ms, framePanics cx x = false :=
      fun x hx => hnp x (List.mem_cons_of_mem _ hx)
    unfold deserializeMessagesLoop
    cases hd : decode cx m with
    | error e =>
      exfalso
      cases m with
      | nil => exact hm.1 rfl
      | cons c p => simp [decode] at hd
    | ok res =>
      cases res with
      | error err =>
        have hft : frameTask cx m = none := by simp [frameTask, hd]
        cases skipErrors with
        | false => exact absurd hft (hm.2 rfl)
        | true =>
          simp only [Bool.not_true, Bool.false_eq_true, if_false]
          rw [ih _ _ (wrapInt32_idem _) hms hpms]
          simp [hft, List.filterMap_cons, List.countP_cons, wrapInt32_succ_add]
      | ok task =>
        cases hc : cx.toReplicationTask task with
        | none =>
          exfalso
          simp [framePanics, hd, hc] at hpm
        | some converted =>
          have hft : frameTask cx m = some converted := by simp [frameTask, hd, hc]
          simp only [hc]
          rw [ih _ _ hsk hms hpms]
          simp [hft, List.filterMap_cons, List.countP_cons]

theorem deserializeVisibilityMessagesLoop_ok (cx : Thrift E W R V T) (skipErrors : Bool)
    (ms : List (List Byte)) (msgs : List V) (sk : Int) (hsk : wrapInt32 sk = sk)
    (h : ∀ m ∈ ms, m ≠ [] ∧ (skipErrors = false → frameMsg cx m ≠ none)) :
    deserializeVisibilityMessagesLoop cx skipErrors ms msgs sk =
      Except.ok (msgs ++ ms.filterMap (frameMsg cx),
        wrapInt32 (sk + ((ms.countP (fun m => (frameMsg cx m).isNone) : Nat) : Int))) := by
  induction ms generalizing msgs sk with
  | nil => simp [deserializeVisibilityMessagesLoop, hsk]
  | cons m ms ih =>
    have hm := h m (List.mem_cons_self _ _)
    have hms : ∀ x ∈ ms, x ≠ [] ∧ (skipErrors = false → frameMsg cx x ≠ none) :=
      fun x hx => h x (List.mem_cons_of_mem _ hx)
    unfold deserializeVisibilityMessagesLoop
    cases hd : decodeVisibility cx m with
    | error e =>
      exfalso
      cases m with
      | nil => exact hm.1 rfl
      | cons c p => simp [decodeVisibility] at hd
    | ok res =>
      cases res with
      | error err =>
        have hft : frameMsg cx m = none := by simp [frameMsg, hd]
        cases skipErrors with
        | false => exact absurd hft (hm.2 rfl)
        | true =>
          simp only [Bool.not_true, Bool.false_eq_true, if_false]
          rw [ih _ _ (wrapInt32_idem _) hms]
          simp [hft, List.filterMap_cons, List.countP_cons, wrapInt32_succ_add]
      | ok msg =>
        have hft : frameMsg cx m = some msg := by simp [frameMsg, hd]
        simp only []
        rw [ih _ _ hsk hms]
        simp [hft, List.filterMap_cons, List.countP_cons]

end Loops

/-! ## Lemmas: matches of the header expression -/

theorem lazyStar_le (k : List Byte → Option Nat)
    (hk : ∀ s n, k s = some n → n ≤ s.length) :
    ∀ s n, lazyStar k s = some n → n ≤ s.length := by
  intro s
  induction s with
  | nil => intro n h; exact hk _ _ (by simpa [lazyStar] using h)
  | cons c s ih =>
    intro n h
    unfold lazyStar at h
    cases hkc : k (c :: s) with
    | some m =>
      rw [hkc] at h
      injection h with h
      subst h
      exact hk _ _ hkc
    | none =>
      rw [hkc] at h
      by_cases hc : c = 10
      · simp [hc] at h
      · simp only [hc, if_false, Option.map_eq_some'] at h
        obtain ⟨m, hm, rfl⟩ := h
        have := ih m hm
        simp only [List.length_cons]
        omega

theorem matchItems_le (re : List Item) : ∀ s n, matchItems re s = some n → n ≤ s.length := by
  induction re with
  | nil => intro s n h; simp [matchItems] at h; omega
  | cons p ps ih =>
    cases p with
    | lit l =>
      intro s n h
      simp only [matchItems] at h
      split_ifs at h with hp
      simp only [Option.map_eq_some'] at h
      obtain ⟨m, hm, rfl⟩ := h
      have h1 := ih _ _ hm
      have h2 : l.length ≤ s.length := (List.isPrefixOf_iff_prefix.mp hp).length_le
      simp only [List.length_drop] at h1
      omega
    | lazyDotStar =>
      intro s n h
      exact lazyStar_le _ ih s n h

/-- A match of an expression that starts with a non-empty literal is not empty. -/
theorem matchItems_lit_pos (b : Byte) (l : List Byte) (ps : List Item) (s : List Byte) (n : Nat)
    (h : matchItems (Item.lit (b :: l) :: ps) s = some n) : 0 < n := by
  simp only [matchItems] at h
  split_ifs at h with hp
  simp only [Option.map_eq_some'] at h
  obtain ⟨m, _, rfl⟩ := h
  simp

theorem matchItems_r_pos (s : List Byte) (n : Nat) (h : matchItems r s = some n) : 0 < n :=
  matchItems_lit_pos 80 (ascii "artition: ") _ s n h

/-- Every match reported by the scan lies in the scanned text, is not empty and
is the anchored match at its start. -/
theorem allMatches_spec (re : List Item) (s : List Byte) :
    ∀ k pos a b, (a, b) ∈ allMatches re k pos s →
      pos + k ≤ a ∧ a < b ∧ b ≤ pos + s.length ∧
        matchItems re (s.drop (a - pos)) = some (b - a) := by
  induction s with
  | nil => intro k pos a b h; simp [allMatches] at h
  | cons c s ih =>
    intro k pos a b h
    cases k with
    | succ k =>
      simp only [allMatches] at h
      obtain ⟨h1, h2, h3, h4⟩ := ih k (pos + 1) a b h
      refine ⟨by omega, h2, by simp only [List.length_cons]; omega, ?_⟩
      have : a - pos = (a - (pos + 1)) + 1 := by omega
      rw [this, List.drop_succ_cons]
      exact h4
    | zero =>
      simp only [allMatches] at h
      cases hm : matchItems re (c :: s) with
      | none =>
        rw [hm] at h
        obtain ⟨h1, h2, h3, h4⟩ := ih 0 (pos + 1) a b h
        refine ⟨by omega, h2, by simp only [List.length_cons]; omega, ?_⟩
        have : a - pos = (a - (pos + 1)) + 1 := by omega
        rw [this, List.drop_succ_cons]
        exact h4
      | some n =>
        rw [hm] at h
        cases n with
        | zero =>
          obtain ⟨h1, h2, h3, h4⟩ := ih 0 (pos + 1) a b h
          refine ⟨by omega, h2, by simp only [List.length_cons]; omega, ?_⟩
          have : a - pos = (a - (pos + 1)) + 1 := by omega
          rw [this, List.drop_succ_cons]
          exact h4
        | succ n =>
          rcases List.mem_cons.mp h with heq | h
          · injection heq with h1 h2
            subst h1 h2
            have hle := matchItems_le re _ _ hm
            refine ⟨by omega, by omega, by omega, ?_⟩
            simp only [Nat.sub_self, List.drop_zero]
            rw [hm]
            congr 1
            omega
          · obtain ⟨h1, h2, h3, h4⟩ := ih n (pos + 1) a b h
            refine ⟨by omega, h2, by simp only [List.length_cons]; omega, ?_⟩
            have : a - pos = (a - (pos + 1)) + 1 := by omega
            rw [this, List.drop_succ_cons]
            exact h4

theorem FindAllIndex_spec (re : List Item) (s : List Byte) (a b : Nat)
    (h : (a, b) ∈ FindAllIndex re s) :
    a < b ∧ b ≤ s.length ∧ matchItems re (s.drop a) = some (b - a) := by
  have := allMatches_spec re s 0 0 a b h
  simpa using this.2

/-! ## Lemmas: Split and getMessages -/

theorem slice_self (s : List Byte) (b : Nat) : slice s b b = [] := by
  unfold slice
  apply List.drop_eq_nil_of_le
  simp

/-- Two adjacent matches leave an empty text between them. -/
theorem splitLoop_adjacent (s : List Byte) (a b c : Nat) (post : List (Nat × Nat))
    (hb : b ≠ 0) (hc : c ≠ 0) :
    ∀ (pre : List (Nat × Nat)) (beg e : Nat),
      [] ∈ (splitLoop s (pre ++ (a, b) :: (b, c) :: post) beg e).tail := by
  intro pre
  induction pre with
  | nil =>
    intro beg e
    simp [splitLoop, hb, hc, slice_self]
  | cons p pre ih =>
    intro beg e
    obtain ⟨p0, p1⟩ := p
    have h := ih p1 p0
    simp only [List.cons_append, splitLoop]
    by_cases hp : p1 ≠ 0
    · rw [if_pos hp]
      exact List.mem_of_mem_tail h
    · rw [if_neg hp]
      exact h

/-- A match that ends with the text leaves an empty text after it. -/
theorem splitLoop_at_end (s : List Byte) (a : Nat) (ha : a ≠ s.length) (hn : s.length ≠ 0) :
    ∀ (pre : List (Nat × Nat)) (beg e : Nat),
      [] ∈ (splitLoop s (pre ++ [(a, s.length)]) beg e).tail := by
  intro pre
  induction pre with
  | nil =>
    intro beg e
    simp [splitLoop, hn, ha]
  | cons p pre ih =>
    intro beg e
    obtain ⟨p0, p1⟩ := p
    have h := ih p1 p0
    simp only [List.cons_append, splitLoop]
    by_cases hp : p1 ≠ 0
    · rw [if_pos hp]
      exact List.mem_of_mem_tail h
    · rw [if_neg hp]
      exact h

section GetMessages

variable {E W R V T : Type}

theorem getMessages_ok (data : List Byte) (skipErrors : Bool) (gs : List (List Byte))
    (hS : Split r data = [] :: gs)
    (h : ∀ m ∈ gs, m ≠ [] ∧ (skipErrors = false → rawFrame m ≠ none)) :
    getMessages (E := E) data skipErrors =
      Except.ok (gs.filterMap rawFrame,
        wrapInt32 ((gs.countP (fun m => (rawFrame m).isNone) : Nat) : Int)) := by
  unfold getMessages
  rw [hS]
  simp only [List.length_nil, ne_eq, not_true_eq_false, if_false]
  rw [getMessagesLoop_ok skipErrors gs [] 0 (by decide) h]
  simp

theorem getMessages_error (data : List Byte) (skipErrors : Bool)
    (h : ¬ ∀ m ∈ groups data, m ≠ [] ∧ (skipErrors = false → rawFrame m ≠ none)) :
    ∃ cause, getMessages (E := E) data skipErrors =
      Except.error (Halt.exit malformedMessage cause) := by
  unfold getMessages
  unfold groups at h
  cases hS : Split r data with
  | nil => rw [hS] at h; simp at h
  | cons first gs =>
    rw [hS] at h
    simp only [List.tail_cons] at h
    by_cases hf : first.length ≠ 0
    · exact ⟨Cause.noLeadingHeader, by simp [hf, ErrorAndExit]⟩
    · simp only [hf, if_false]
      exact getMessagesLoop_error skipErrors gs [] 0 h

/-- Whatever `getMessages` returns is the list of the raw frames of the groups. -/
theorem getMessages_frames (data : List Byte) (skipErrors : Bool)
    (raws : List (List Byte)) (k : Int)
    (h : getMessages (E := E) data skipErrors = Except.ok (raws, k)) :
    (Split r data).head? = some [] ∧
      (∀ m ∈ groups data, m ≠ [] ∧ (skipErrors = false → rawFrame m ≠ none)) ∧
      raws = (groups data).filterMap rawFrame := by
  by_cases hall : ∀ m ∈ groups data, m ≠ [] ∧ (skipErrors = false → rawFrame m ≠ none)
  · unfold getMessages at h
    cases hS : Split r data with
    | nil => rw [hS] at h; simp at h
    | cons first gs =>
      rw [hS] at h
      by_cases hf : first.length ≠ 0
      · simp [hf, ErrorAndExit] at h
      · have hnil : first = [] := List.length_eq_zero.mp (not_not.mp hf)
        subst hnil
        have hg : groups data = gs := by simp [groups, hS]
        rw [hg] at hall
        have := getMessages_ok (E := E) data skipErrors gs hS hall
        unfold getMessages at this
        rw [hS] at this
        rw [this] at h
        injection h with h
        injection h with h1 h2
        exact ⟨by simp, by rw [hg]; exact hall, by rw [hg, ← h1]⟩
  · obtain ⟨cause, hc⟩ := getMessages_error (E := E) data skipErrors hall
    rw [hc] at h
    cases h

end GetMessages

/-! ## Lemmas: counting the groups that give no message -/

theorem length_filterMap_add_countP {α β : Type} (f : α → Option β) (l : List α) :
    (l.filterMap f).length + l.countP (fun x => (f x).isNone) = l.length := by
  induction l with
  | nil => simp
  | cons x l ih =>
    cases hx : f x with
    | none => simp [List.filterMap_cons, List.countP_cons, hx]; omega
    | some y => simp [List.filterMap_cons, List.countP_cons, hx]; omega

theorem countP_bind_isNone {α β γ : Type} (f : α → Option β) (g : β → Option γ) (l : List α) :
    l.countP (fun x => ((f x).bind g).isNone) =
      l.countP (fun x => (f x).isNone) + (l.filterMap f).countP (fun y => (g y).isNone) := by
  induction l with
  | nil => simp
  | cons x l ih =>
    cases hx : f x with
    | none => simp [List.filterMap_cons, List.countP_cons, hx, ih]; omega
    | some y =>
      cases hy : g y with
      | none => simp [List.filterMap_cons, List.countP_cons, hx, hy, ih]; omega
      | some z => simp [List.filterMap_cons, List.countP_cons, hx, hy, ih]

theorem filterMap_bind {α β γ : Type} (f : α → Option β) (g : β → Option γ) (l : List α) :
    (l.filterMap f).filterMap g = l.filterMap (fun x => (f x).bind g) := by
  rw [List.filterMap_filterMap]

theorem rawFrame_ne_nil (gs : List (List Byte)) :
    ∀ m ∈ gs.filterMap rawFrame, m ≠ [] := by
  intro m hm
  rw [List.mem_filterMap] at hm
  obtain ⟨g, _, hr⟩ := hm
  obtain ⟨_, _, _, _, h3⟩ := rawFrame_some g m hr
  simp [h3]

theorem FindAllIndex_nil (re : List Item) : FindAllIndex re [] = [] := rfl

/-! ## Lemmas: a match and the text after it

Appending text never destroys a match (`matchItems_append_isSome`); a match
that ends inside a prefix is a match of the prefix (`matchItems_truncate`). -/

theorem lazyStar_of_cont (k : List Byte → Option Nat) (s : List Byte) (h : (k s).isSome) :
    (lazyStar k s).isSome := by
  cases s with
  | nil => simpa [lazyStar] using h
  | cons c s =>
    unfold lazyStar
    cases hk : k (c :: s) with
    | none => rw [hk] at h; simp at h
    | some n => simp

theorem lazyStar_append_isSome (k : List Byte → Option Nat) (t : List Byte)
    (hk : ∀ s, (k s).isSome → (k (s ++ t)).isSome) :
    ∀ s, (lazyStar k s).isSome → (lazyStar k (s ++ t)).isSome := by
  intro s
  induction s with
  | nil =>
    intro h
    have h1 : (k []).isSome := by simpa [lazyStar] using h
    exact lazyStar_of_cont k _ (hk [] h1)
  | cons c s ih =>
    intro h
    unfold lazyStar at h
    simp only [List.cons_append]
    unfold lazyStar
    cases hk2 : k (c :: (s ++ t)) with
    | some m => simp
    | none =>
      cases hk1 : k (c :: s) with
      | some n =>
        have := hk (c :: s) (by simp [hk1])
        simp only [List.cons_append] at this
        rw [hk2] at this
        simp at this
      | none =>
        rw [hk1] at h
        by_cases hc : c = 10
        · simp [hc] at h
        · simp only [hc, if_false, Option.isSome_map'] at h ⊢
          exact ih h

theorem matchItems_append_isSome (re : List Item) (t : List Byte) :
    ∀ s, (matchItems re s).isSome → (matchItems re (s ++ t)).isSome := by
  induction re with
  | nil => intro s _; simp [matchItems]
  | cons p ps ih =>
    cases p with
    | lit l =>
      intro s h
      simp only [matchItems] at h ⊢
      by_cases hp : l.isPrefixOf s = true
      · have hpre : l <+: s := List.isPrefixOf_iff_prefix.mp hp
        have hp2 : l.isPrefixOf (s ++ t) = true :=
          List.isPrefixOf_iff_prefix.mpr (hpre.trans (List.prefix_append s t))
        rw [if_pos hp, Option.isSome_map'] at h
        rw [if_pos hp2, Option.isSome_map', List.drop_append_of_le_length hpre.length_le]
        exact ih _ h
      · rw [if_neg hp] at h
        simp at h
    | lazyDotStar =>
      intro s h
      exact lazyStar_append_isSome _ t ih s h

theorem lazyStar_truncate (k : List Byte → Option Nat) (t : List Byte)
    (hw : ∀ s, (k s).isSome → (k (s ++ t)).isSome)
    (hk : ∀ s n, k (s ++ t) = some n → n ≤ s.length → k s = some n) :
    ∀ s n, lazyStar k (s ++ t) = some n → n ≤ s.length → lazyStar k s = some n := by
  intro s
  induction s with
  | nil =>
    intro n h hn
    have hn0 : n = 0 := by simpa using hn
    subst hn0
    simp only [List.nil_append] at h
    have hk0 : k [] = some 0 := by
      cases t with
      | nil => simpa [lazyStar] using h
      | cons c t =>
        unfold lazyStar at h
        cases hkc : k (c :: t) with
        | some m =>
          rw [hkc] at h
          injection h with h
          subst h
          exact hk [] 0 (by simpa using hkc) (by simp)
        | none =>
          rw [hkc] at h
          by_cases hc : c = 10
          · simp [hc] at h
          · simp [hc] at h
    simpa [lazyStar] using hk0
  | cons c s ih =>
    intro n h hn
    simp only [List.cons_append] at h
    unfold lazyStar at h
    unfold lazyStar
    cases hkc : k (c :: (s ++ t)) with
    | some m =>
      rw [hkc] at h
      injection h with h
      subst h
      rw [hk (c :: s) m (by simpa using hkc) hn]
    | none =>
      rw [hkc] at h
      have hk1 : k (c :: s) = none := by
        cases hk1 : k (c :: s) with
        | none => rfl
        | some m =>
          have := hw (c :: s) (by simp [hk1])
          simp only [List.cons_append] at this
          rw [hkc] at this
          simp at this
      rw [hk1]
      by_cases hc : c = 10
      · simp [hc] at h
      · simp only [hc, if_false, Option.map_eq_some'] at h ⊢
        obtain ⟨m, hm, rfl⟩ := h
        simp only [List.length_cons] at hn
        exact ⟨m, ih m hm (by omega), rfl⟩

theorem matchItems_truncate (re : List Item) (t : List Byte) :
    ∀ s n, matchItems re (s ++ t) = some n → n ≤ s.length → matchItems re s = some n := by
  induction re with
  | nil => intro s n h _; simpa [matchItems] using h
  | cons p ps ih =>
    cases p with
    | lit l =>
      intro s n h hn
      simp only [matchItems] at h ⊢
      by_cases hp2 : l.isPrefixOf (s ++ t) = true
      · rw [if_pos hp2] at h
        simp only [Option.map_eq_some'] at h
        obtain ⟨m, hm, rfl⟩ := h
        have hpre2 : l <+: s ++ t := List.isPrefixOf_iff_prefix.mp hp2
        have hpre : l <+: s :=
          List.prefix_of_prefix_length_le hpre2 (List.prefix_append s t) (by omega)
        rw [if_pos (List.isPrefixOf_iff_prefix.mpr hpre)]
        rw [List.drop_append_of_le_length hpre.length_le] at hm
        rw [ih _ m hm (by simp only [List.length_drop]; omega)]
        rfl
      · rw [if_neg hp2] at h
        cases h
    | lazyDotStar =>
      intro s n h hn
      exact lazyStar_truncate _ t (matchItems_append_isSome ps t) ih s n h hn

/-! ## Lemmas: matches of `r` are stable when text is appended

A match cannot cross a line feed, and `.*?` swallows any text without line
feed; so a start position that fails before a later match still fails when
more text arrives (`matchItems_dominated`), and a match stays the same match
(`matchItems_r_append`). -/

theorem lazyStar_newline (k : List Byte → Option Nat) (x : List Byte)
    (hk : ∀ s, 10 ∈ s → (k (s ++ x)).isSome → (k s).isSome) :
    ∀ s, 10 ∈ s → (lazyStar k (s ++ x)).isSome → (lazyStar k s).isSome := by
  intro s
  induction s with
  | nil => intro h; simp at h
  | cons c s ih =>
    intro hmem h
    simp only [List.cons_append] at h
    unfold lazyStar at h
    cases hkc : k (c :: (s ++ x)) with
    | some m =>
      exact lazyStar_of_cont k _ (hk (c :: s) hmem (by simp [hkc]))
    | none =>
      rw [hkc] at h
      by_cases hc : c = 10
      · simp [hc] at h
      · simp only [hc, if_false, Option.isSome_map'] at h
        have hs : 10 ∈ s := by
          rcases List.mem_cons.mp hmem with h1 | h1
          · exact absurd h1.symm hc
          · exact h1
        have := ih hs h
        unfold lazyStar
        cases k (c :: s) with
        | some m => simp
        | none => simpa [hc] using this

theorem matchItems_newline (re : List Item) (x : List Byte) :
    litsNoNewline re →
    ∀ s, 10 ∈ s → (matchItems re (s ++ x)).isSome → (matchItems re s).isSome := by
  induction re with
  | nil => intro _ s _ _; simp [matchItems]
  | cons p ps ih =>
    cases p with
    | lit l =>
      intro hwf s hmem h
      obtain ⟨hl, hps⟩ := hwf
      simp only [matchItems] at h ⊢
      by_cases hp2 : l.isPrefixOf (s ++ x) = true
      · rw [if_pos hp2, Option.isSome_map'] at h
        have hpre2 : l <+: s ++ x := List.isPrefixOf_iff_prefix.mp hp2
        by_cases hlen : l.length ≤ s.length
        · have hpre : l <+: s :=
            List.prefix_of_prefix_length_le hpre2 (List.prefix_append s x) hlen
          rw [if_pos (List.isPrefixOf_iff_prefix.mpr hpre), Option.isSome_map']
          rw [List.drop_append_of_le_length hlen] at h
          apply ih hps _ _ h
          obtain ⟨s2, rfl⟩ := hpre
          rw [List.drop_left]
          rcases List.mem_append.mp hmem with h1 | h1
          · exact absurd h1 hl
          · exact h1
        · exfalso
          have hpre : s <+: l :=
            List.prefix_of_prefix_length_le (List.prefix_append s x) hpre2 (by omega)
          exact hl (hpre.subset hmem)
      · rw [if_neg hp2] at h
        simp at h
    | lazyDotStar =>
      intro hwf s hmem h
      exact lazyStar_newline _ x (ih hwf) s hmem h

theorem lazyStar_absorb (k : List Byte → Option Nat) (v : List Byte)
    (h : (lazyStar k v).isSome) :
    ∀ g : List Byte, 10 ∉ g → (lazyStar k (g ++ v)).isSome := by
  intro g
  induction g with
  | nil => intro _; simpa using h
  | cons c g ih =>
    intro hg
    simp only [List.mem_cons, not_or] at hg
    simp only [List.cons_append]
    unfold lazyStar
    cases k (c :: (g ++ v)) with
    | some m => simp
    | none =>
      have hc : ¬ c = 10 := fun h => hg.1 h.symm
      simpa [hc] using ih hg.2

theorem lazyStar_some_exists (k : List Byte → Option Nat) :
    ∀ s n, lazyStar k s = some n → ∃ i, (k (s.drop i)).isSome := by
  intro s
  induction s with
  | nil => intro n h; exact ⟨0, by simpa [lazyStar] using congrArg Option.isSome h⟩
  | cons c s ih =>
    intro n h
    unfold lazyStar at h
    cases hkc : k (c :: s) with
    | some m => exact ⟨0, by simp [hkc]⟩
    | none =>
      rw [hkc] at h
      by_cases hc : c = 10
      · simp [hc] at h
      · simp only [hc, if_false, Option.map_eq_some'] at h
        obtain ⟨m, hm, _⟩ := h
        obtain ⟨i, hi⟩ := ih m hm
        exact ⟨i + 1, by simpa using hi⟩

/-- A start that fails although a later start in the same text succeeds keeps
failing whatever text is appended. -/
theorem matchItems_dominated (l : List Byte) (ps : List Item) (hl : 10 ∉ l)
    (hps : litsNoNewline ps) (w x : List Byte) (i : Nat)
    (h0 : matchItems (Item.lit l :: Item.lazyDotStar :: ps) w = none)
    (hi : (matchItems (Item.lit l :: Item.lazyDotStar :: ps) (w.drop i)).isSome) :
    matchItems (Item.lit l :: Item.lazyDotStar :: ps) (w ++ x) = none := by
  by_contra hne
  have hsome : (matchItems (Item.lit l :: Item.lazyDotStar :: ps) (w ++ x)).isSome :=
    Option.ne_none_iff_isSome.mp hne
  by_cases hnl : 10 ∈ w
  · have := matchItems_newline (Item.lit l :: Item.lazyDotStar :: ps) x ⟨hl, hps⟩ w hnl hsome
    rw [h0] at this
    simp at this
  · simp only [matchItems] at hi hsome h0
    by_cases hpi : l.isPrefixOf (w.drop i) = true
    · rw [if_pos hpi, Option.isSome_map'] at hi
      have hprei : l <+: w.drop i := List.isPrefixOf_iff_prefix.mp hpi
      have hlen : l.length ≤ w.length := by
        have := hprei.length_le
        simp only [List.length_drop] at this
        omega
      by_cases hp2 : l.isPrefixOf (w ++ x) = true
      · have hpre : l <+: w :=
          List.prefix_of_prefix_length_le (List.isPrefixOf_iff_prefix.mp hp2)
            (List.prefix_append w x) hlen
        rw [if_pos (List.isPrefixOf_iff_prefix.mpr hpre)] at h0
        have hsplit : w.drop l.length
            = (w.drop l.length).take i ++ (w.drop i).drop l.length := by
          rw [List.drop_drop, Nat.add_comm, ← List.drop_drop, List.take_append_drop]
        have hg : 10 ∉ (w.drop l.length).take i := fun hmem =>
          hnl ((List.drop_sublist _ _).subset ((List.take_sublist _ _).subset hmem))
        have := lazyStar_absorb (matchItems ps) _ hi _ hg
        rw [← hsplit] at this
        cases hls : lazyStar (matchItems ps) (w.drop l.length) with
        | none => rw [hls] at this; simp at this
        | some m => rw [hls] at h0; simp at h0
      · rw [if_neg hp2] at hsome
        simp at hsome
    · rw [if_neg hpi] at hi
      simp at hi

theorem lazyStar_append_eq (k : List Byte → Option Nat)
    (hst : ∀ s n x, k s = some n → k (s ++ x) = some n)
    (hdom : ∀ w x i, k w = none → (k (w.drop i)).isSome → k (w ++ x) = none) :
    ∀ s n x, lazyStar k s = some n → lazyStar k (s ++ x) = some n := by
  intro s
  induction s with
  | nil =>
    intro n x h
    have hk0 : k [] = some n := by simpa [lazyStar] using h
    cases x with
    | nil => simpa using h
    | cons c x =>
      simp only [List.nil_append]
      unfold lazyStar
      have := hst [] n (c :: x) hk0
      simp only [List.nil_append] at this
      rw [this]
  | cons c s ih =>
    intro n x h
    unfold lazyStar at h
    simp only [List.cons_append]
    unfold lazyStar
    cases hkc : k (c :: s) with
    | some m =>
      rw [hkc] at h
      injection h with h
      subst h
      have := hst (c :: s) m x hkc
      simp only [List.cons_append] at this
      rw [this]
    | none =>
      rw [hkc] at h
      by_cases hc : c = 10
      · simp [hc] at h
      · simp only [hc, if_false, Option.map_eq_some'] at h
        obtain ⟨m, hm, rfl⟩ := h
        obtain ⟨i, hi⟩ := lazyStar_some_exists k s m hm
        have := hdom (c :: s) x (i + 1) hkc (by simpa using hi)
        simp only [List.cons_append] at this
        rw [this]
        simp [hc, ih m x hm]

theorem matchItems_lit_append_eq (l : List Byte) (ps : List Item)
    (hst : ∀ s n x, matchItems ps s = some n → matchItems ps (s ++ x) = some n) :
    ∀ s n x, matchItems (Item.lit l :: ps) s = some n →
      matchItems (Item.lit l :: ps) (s ++ x) = some n := by
  intro s n x h
  simp only [matchItems] at h ⊢
  by_cases hp : l.isPrefixOf s = true
  · have hpre : l <+: s := List.isPrefixOf_iff_prefix.mp hp
    rw [if_pos hp] at h
    simp only [Option.map_eq_some'] at h
    obtain ⟨m, hm, rfl⟩ := h
    rw [if_pos (List.isPrefixOf_iff_prefix.mpr (hpre.trans (List.prefix_append s x))),
      List.drop_append_of_le_length hpre.length_le, hst _ m x hm]
    rfl
  · rw [if_neg hp] at h
    cases h

/-- The three tails of `r` that start with a literal keep failing before a later match. -/
theorem r_tail_dominated :
    (∀ w x i, matchItems [Item.lit (ascii ", Key: "), Item.lazyDotStar] w = none →
      (matchItems [Item.lit (ascii ", Key: "), Item.lazyDotStar] (w.drop i)).isSome →
      matchItems [Item.lit (ascii ", Key: "), Item.lazyDotStar] (w ++ x) = none) ∧
    (∀ w x i, matchItems (r.drop 2) w = none → (matchItems (r.drop 2) (w.drop i)).isSome →
      matchItems (r.drop 2) (w ++ x) = none) ∧
    (∀ w x i, matchItems r w = none → (matchItems r (w.drop i)).isSome →
      matchItems r (w ++ x) = none) := by
  refine ⟨?_, ?_, ?_⟩
  · intro w x i
    exact matchItems_dominated _ [] (by decide) trivial w x i
  · intro w x i
    exact matchItems_dominated (ascii ", Offset: ")
      [Item.lit (ascii ", Key: "), Item.lazyDotStar] (by decide) ⟨by decide, trivial⟩ w x i
  · intro w x i
    exact matchItems_dominated (ascii "Partition: ") (r.drop 2) (by decide)
      ⟨by decide, by decide, trivial⟩ w x i

/-- An anchored match of `r` is still the match after more text is appended. -/
theorem matchItems_r_append (s : List Byte) (n : Nat) (x : List Byte)
    (h : matchItems r s = some n) : matchItems r (s ++ x) = some n := by
  have h0 : ∀ s n x, matchItems [] s = some n → matchItems [] (s ++ x) = some n := by
    intro s n x h; simpa [matchItems] using h
  have d0 : ∀ (w x : List Byte) (i : Nat), matchItems [] w = none →
      (matchItems [] (w.drop i)).isSome → matchItems [] (w ++ x) = none := by
    intro w x i h; simp [matchItems] at h
  have h1 := lazyStar_append_eq (matchItems []) h0 d0
  have h2 := matchItems_lit_append_eq (ascii ", Key: ") [Item.lazyDotStar] h1
  have h3 := lazyStar_append_eq _ h2 r_tail_dominated.1
  have h4 := matchItems_lit_append_eq (ascii ", Offset: ")
    [Item.lazyDotStar, Item.lit (ascii ", Key: "), Item.lazyDotStar] h3
  have h5 := lazyStar_append_eq _ h4 r_tail_dominated.2.1
  exact matchItems_lit_append_eq (ascii "Partition: ") (r.drop 1) h5 s n x h

/-! ## Lemmas: the scan for all matches -/

theorem shift_nil (d : Nat) : shift d [] = [] := rfl

theorem shift_cons (d a b : Nat) (L : List (Nat × Nat)) :
    shift d ((a, b) :: L) = (a + d, b + d) :: shift d L := rfl

theorem shift_append (d : Nat) (L M : List (Nat × Nat)) :
    shift d (L ++ M) = shift d L ++ shift d M := by
  simp [shift]

theorem shift_shift (d e : Nat) (L : List (Nat × Nat)) :
    shift d (shift e L) = shift (e + d) L := by
  simp [shift, Nat.add_assoc]

theorem shift_eq_nil (d : Nat) (L : List (Nat × Nat)) : shift d L = [] ↔ L = [] := by
  simp [shift]

theorem mem_shift (d a b : Nat) (L : List (Nat × Nat)) :
    (a, b) ∈ shift d L ↔ ∃ a0 b0, (a0, b0) ∈ L ∧ a = a0 + d ∧ b = b0 + d := by
  simp only [shift, List.mem_map, Prod.mk.injEq, Prod.exists]
  constructor
  · rintro ⟨a0, b0, h, rfl, rfl⟩; exact ⟨a0, b0, h, rfl, rfl⟩
  · rintro ⟨a0, b0, h, rfl, rfl⟩; exact ⟨a0, b0, h, rfl, rfl⟩

theorem allMatches_shift (re : List Item) (d : Nat) (s : List Byte) :
    ∀ k pos, allMatches re k (pos + d) s = shift d (allMatches re k pos s) := by
  induction s with
  | nil => intro k pos; simp [allMatches, shift]
  | cons c s ih =>
    intro k pos
    cases k with
    | succ k =>
      simp only [allMatches]
      rw [← ih k (pos + 1)]
      congr 1
      omega
    | zero =>
      have e1 : pos + d + 1 = pos + 1 + d := by omega
      simp only [allMatches]
      cases matchItems re (c :: s) with
      | none => simp only []; rw [e1, ih]
      | some n =>
        cases n with
        | zero => simp only []; rw [e1, ih]
        | succ n =>
          simp only [shift_cons]
          rw [e1, ih]
          congr 2
          omega

theorem allMatches_skip (re : List Item) :
    ∀ k pos s, allMatches re k pos s = allMatches re 0 (pos + k) (s.drop k) := by
  intro k
  induction k with
  | zero => intro pos s; simp
  | succ k ih =>
    intro pos s
    cases s with
    | nil => simp [allMatches]
    | cons c s =>
      simp only [allMatches, List.drop_succ_cons]
      rw [ih]
      congr 1
      omega

theorem matchItems_r_nil : matchItems r [] = none := by decide

theorem FindAllIndex_cons_none (c : Byte) (s : List Byte) (h : matchItems r (c :: s) = none) :
    FindAllIndex r (c :: s) = shift 1 (FindAllIndex r s) := by
  unfold FindAllIndex
  simp only [allMatches, h]
  exact allMatches_shift r 1 s 0 0

theorem FindAllIndex_cons_some (c : Byte) (s : List Byte) (n : Nat)
    (h : matchItems r (c :: s) = some n) :
    FindAllIndex r (c :: s) = (0, n) :: shift n (FindAllIndex r ((c :: s).drop n)) := by
  have hpos := matchItems_r_pos _ _ h
  obtain ⟨m, rfl⟩ : ∃ m, n = m + 1 := ⟨n - 1, by omega⟩
  unfold FindAllIndex
  simp only [allMatches, h, List.drop_succ_cons]
  rw [allMatches_skip r m 1 s]
  have := allMatches_shift r (1 + m) (s.drop m) 0 0
  simp only [Nat.zero_add] at this ⊢
  rw [this]
  congr 2
  omega

theorem FindAllIndex_eq_nil_iff (s : List Byte) :
    FindAllIndex r s = [] ↔ ∀ j, matchItems r (s.drop j) = none := by
  induction s with
  | nil => simp [FindAllIndex_nil, matchItems_r_nil]
  | cons c s ih =>
    cases hm : matchItems r (c :: s) with
    | none =>
      rw [FindAllIndex_cons_none c s hm, shift_eq_nil, ih]
      constructor
      · intro h j
        cases j with
        | zero => simpa using hm
        | succ j => simpa using h j
      · intro h j
        simpa using h (j + 1)
    | some n =>
      rw [FindAllIndex_cons_some c s n hm]
      constructor
      · intro h; cases h
      · intro h
        have := h 0
        simp [hm] at this

/-- The first match of a text: where it is and what comes after it. -/
theorem FindAllIndex_cons_elim (s : List Byte) :
    ∀ a b rest, FindAllIndex r s = (a, b) :: rest →
      a < b ∧ b ≤ s.length ∧ matchItems r (s.drop a) = some (b - a) ∧
      (∀ j, j < a → matchItems r (s.drop j) = none) ∧
      rest = shift b (FindAllIndex r (s.drop b)) := by
  induction s with
  | nil => intro a b rest h; simp [FindAllIndex_nil] at h
  | cons c s ih =>
    intro a b rest h
    cases hm : matchItems r (c :: s) with
    | none =>
      rw [FindAllIndex_cons_none c s hm] at h
      cases hf : FindAllIndex r s with
      | nil => rw [hf] at h; simp [shift] at h
      | cons m rest0 =>
        obtain ⟨a0, b0⟩ := m
        rw [hf, shift_cons] at h
        injection h with h1 h2
        injection h1 with ha hb
        obtain ⟨i1, i2, i3, i4, i5⟩ := ih a0 b0 rest0 hf
        subst ha hb
        refine ⟨by omega, by simp only [List.length_cons]; omega, ?_, ?_, ?_⟩
        · simp only [List.drop_succ_cons]
          rw [i3]
          congr 1
          omega
        · intro j hj
          cases j with
          | zero => simpa using hm
          | succ j => simpa using i4 j (by omega)
        · rw [← h2, i5, shift_shift]
          simp only [List.drop_succ_cons]
    | some n =>
      rw [FindAllIndex_cons_some c s n hm] at h
      injection h with h1 h2
      injection h1 with ha hb
      subst ha hb
      have hpos := matchItems_r_pos _ _ hm
      have hle := matchItems_le r _ _ hm
      refine ⟨hpos, hle, by simpa using hm, fun j hj => by omega, h2.symm⟩

theorem FindAllIndex_cons_intro (s : List Byte) :
    ∀ a b, matchItems r (s.drop a) = some (b - a) → a < b →
      (∀ j, j < a → matchItems r (s.drop j) = none) →
      FindAllIndex r s = (a, b) :: shift b (FindAllIndex r (s.drop b)) := by
  induction s with
  | nil => intro a b h; simp [matchItems_r_nil] at h
  | cons c s ih =>
    intro a b h hab hno
    cases a with
    | zero =>
      simp only [List.drop_zero, Nat.sub_zero] at h
      exact FindAllIndex_cons_some c s b h
    | succ a =>
      have hm : matchItems r (c :: s) = none := by simpa using hno 0 (by omega)
      obtain ⟨b0, rfl⟩ : ∃ b0, b = b0 + 1 := ⟨b - 1, by omega⟩
      rw [FindAllIndex_cons_none c s hm]
      simp only [List.drop_succ_cons] at h ⊢
      rw [ih a b0 (by rw [h]; congr 1; omega) (by omega)
        (fun j hj => by simpa using hno (j + 1) (by omega))]
      rw [shift_cons, shift_shift]

/-! ## Lemmas: Split, one match at a time -/

theorem slice_drop (s : List Byte) (b beg m0 : Nat) :
    slice s (beg + b) (m0 + b) = slice (s.drop b) beg m0 := by
  unfold slice
  rw [List.take_drop, List.drop_drop, Nat.add_comm b m0, Nat.add_comm b beg]

/-- The loop of `Split` on the text after the first `b` bytes. -/
theorem splitLoop_shift (s : List Byte) (b : Nat) (hb : b ≤ s.length) :
    ∀ (L : List (Nat × Nat)) (beg e e0 : Nat), (∀ m ∈ L, m.2 ≠ 0) →
      (L = [] → (e ≠ s.length ↔ e0 ≠ (s.drop b).length)) →
      splitLoop s (shift b L) (beg + b) e = splitLoop (s.drop b) L beg e0 := by
  intro L
  induction L with
  | nil =>
    intro beg e e0 _ he
    have he := he rfl
    simp only [shift_nil, splitLoop]
    by_cases h : e ≠ s.length
    · rw [if_pos h, if_pos (he.mp h), List.drop_drop, Nat.add_comm]
    · rw [if_neg h, if_neg (fun h0 => h (he.mpr h0))]
  | cons m L ih =>
    intro beg e e0 hL _
    obtain ⟨m0, m1⟩ := m
    have hm1 : m1 ≠ 0 := hL (m0, m1) (List.mem_cons_self _ _)
    have hm1b : m1 + b ≠ 0 := by omega
    rw [shift_cons, splitLoop, splitLoop, if_pos hm1, if_pos hm1b, slice_drop]
    rw [ih m1 (m0 + b) m0 (fun m hm => hL m (List.mem_cons_of_mem _ hm))
      (fun _ => by simp only [List.length_drop]; omega)]

theorem Split_of_no_match (s : List Byte) (h : FindAllIndex r s = []) : Split r s = [s] := by
  unfold Split
  by_cases hs : s.length = 0
  · rw [if_pos hs, List.length_eq_zero.mp hs]
  · rw [if_neg hs, h]
    simp only [splitLoop]
    rw [if_pos (fun h0 => hs h0.symm)]
    simp

/-- What `Split` returns, by the first match: the text before it, then the pieces of
the text after it. -/
theorem Split_of_first_match (s : List Byte) (a b : Nat) (rest : List (Nat × Nat))
    (h : FindAllIndex r s = (a, b) :: rest) :
    Split r s = s.take a :: Split r (s.drop b) := by
  obtain ⟨hab, hb, _, _, hrest⟩ := FindAllIndex_cons_elim s a b rest h
  have hs : s.length ≠ 0 := by omega
  have hb0 : b ≠ 0 := by omega
  unfold Split
  rw [if_neg hs, h]
  simp only [splitLoop]
  rw [if_pos hb0]
  have hsl : slice s 0 a = s.take a := by simp [slice]
  rw [hsl, List.singleton_append]
  congr 1
  by_cases hd : (s.drop b).length = 0
  · rw [if_pos hd]
    have hnil : s.drop b = [] := List.length_eq_zero.mp hd
    rw [hrest, hnil, FindAllIndex_nil, shift_nil]
    simp only [splitLoop]
    rw [if_pos (by omega), hnil]
  · rw [if_neg hd, hrest]
    have := splitLoop_shift s b hb (FindAllIndex r (s.drop b)) 0 a 0
      (fun m hm => by
        have := FindAllIndex_spec r (s.drop b) m.1 m.2 hm
        omega)
      (fun _ => by constructor <;> intro _ <;> omega)
    simpa using this

/-- No piece that `Split` returns contains a match of the header expression. -/
theorem Split_pieces_no_match :
    ∀ (n : Nat) (s : List Byte), s.length ≤ n → ∀ p ∈ Split r s, FindAllIndex r p = [] := by
  intro n
  induction n with
  | zero =>
    intro s hs p hp
    have hnil : s = [] := List.length_eq_zero.mp (by omega)
    subst hnil
    have : p = [] := by simpa [Split] using hp
    rw [this, FindAllIndex_nil]
  | succ n ih =>
    intro s hs p hp
    cases hf : FindAllIndex r s with
    | nil =>
      rw [Split_of_no_match s hf] at hp
      have : p = s := by simpa using hp
      rw [this, hf]
    | cons m rest =>
      obtain ⟨a, b⟩ := m
      obtain ⟨hab, hb, _, hno, _⟩ := FindAllIndex_cons_elim s a b rest hf
      rw [Split_of_first_match s a b rest hf] at hp
      rcases List.mem_cons.mp hp with rfl | hp
      · rw [FindAllIndex_eq_nil_iff]
        intro j
        by_cases hj : j < a
        · have h1 := hno j hj
          cases h2 : matchItems r ((s.take a).drop j) with
          | none => rfl
          | some k =>
            have h3 := matchItems_append_isSome r (s.drop a) ((s.take a).drop j)
              (by rw [h2]; rfl)
            have h4 : (s.take a).drop j ++ s.drop a = s.drop j := by
              rw [← List.drop_append_of_le_length (by rw [List.length_take]; omega),
                List.take_append_drop]
            rw [h4, h1] at h3
            simp at h3
        · rw [List.drop_eq_nil_of_le (by rw [List.length_take]; omega)]
          exact matchItems_r_nil
      · exact ih (s.drop b) (by simp only [List.length_drop]; omega) p hp

/-! ## Lemmas: cutting a text at the start of a match -/

theorem matchItems_take_none (s : List Byte) (a j : Nat)
    (h : matchItems r (s.drop j) = none) : matchItems r ((s.take a).drop j) = none := by
  by_cases hj : j ≤ a
  · cases h2 : matchItems r ((s.take a).drop j) with
    | none => rfl
    | some k =>
      have h3 := matchItems_append_isSome r (s.drop a) ((s.take a).drop j) (by rw [h2]; rfl)
      by_cases hs : a ≤ s.length
      · have h4 : (s.take a).drop j ++ s.drop a = s.drop j := by
          rw [← List.drop_append_of_le_length (by rw [List.length_take]; omega),
            List.take_append_drop]
        rw [h4, h] at h3
        simp at h3
      · rw [List.take_of_length_le (by omega), h] at h2
        cases h2
  · rw [List.drop_eq_nil_of_le (by rw [List.length_take]; omega)]
    exact matchItems_r_nil

theorem matchItems_take_some (s : List Byte) (a a0 b0 : Nat) (h0 : a0 < b0) (hb : b0 ≤ a)
    (ha : a ≤ s.length) (h : matchItems r (s.drop a0) = some (b0 - a0)) :
    matchItems r ((s.take a).drop a0) = some (b0 - a0) := by
  apply matchItems_truncate r (s.drop a)
  · have h4 : (s.take a).drop a0 ++ s.drop a = s.drop a0 := by
      rw [← List.drop_append_of_le_length (by rw [List.length_take]; omega),
        List.take_append_drop]
    rw [h4, h]
  · rw [List.length_drop, List.length_take]
    omega

/-- Cutting a text at the start of one of its matches: the matches are those of
the part before the cut followed by those of the part from the cut on (which
starts with the match), and the pieces of `Split` are those of the first part
followed by the groups of the second. -/
theorem FindAllIndex_cut :
    ∀ (n : Nat) (s : List Byte), s.length ≤ n → ∀ a b, (a, b) ∈ FindAllIndex r s →
      (∃ rest, FindAllIndex r (s.drop a) = (0, b - a) :: rest) ∧
      FindAllIndex r s = FindAllIndex r (s.take a) ++ shift a (FindAllIndex r (s.drop a)) ∧
      Split r s = Split r (s.take a) ++ (Split r (s.drop a)).tail ∧
      (Split r (s.drop a)).head? = some [] := by
  intro n
  induction n with
  | zero =>
    intro s hs a b h
    have hnil : s = [] := List.length_eq_zero.mp (by omega)
    subst hnil
    simp [FindAllIndex_nil] at h
  | succ n ih =>
    intro s hs a b h
    cases hf : FindAllIndex r s with
    | nil => rw [hf] at h; simp at h
    | cons m rest =>
      obtain ⟨a0, b0⟩ := m
      obtain ⟨hab0, hb0, hm0, hno0, hrest⟩ := FindAllIndex_cons_elim s a0 b0 rest hf
      have hsp := Split_of_first_match s a0 b0 rest hf
      rw [hf] at h
      rcases List.mem_cons.mp h with heq | hmem
      · injection heq with ha hb
        subst ha hb
        have hd : FindAllIndex r (s.drop a)
            = (0, b - a) :: shift (b - a) (FindAllIndex r ((s.drop a).drop (b - a))) :=
          FindAllIndex_cons_intro (s.drop a) 0 (b - a) (by simpa using hm0) (by omega)
            (fun j hj => by omega)
        have hdd : (s.drop a).drop (b - a) = s.drop b := by
          rw [List.drop_drop]; congr 1; omega
        have ht : FindAllIndex r (s.take a) = [] := by
          rw [FindAllIndex_eq_nil_iff]
          intro j
          by_cases hj : j < a
          · exact matchItems_take_none s a j (hno0 j hj)
          · rw [List.drop_eq_nil_of_le (by rw [List.length_take]; omega)]
            exact matchItems_r_nil
        refine ⟨⟨_, hd⟩, ?_, ?_, ?_⟩
        · rw [ht, hd, hdd, hrest, shift_cons, shift_shift]
          simp only [List.nil_append, Nat.zero_add]
          congr 2
          · omega
          · omega
        · rw [hsp, Split_of_no_match _ ht, Split_of_first_match _ _ _ _ hd, hdd]
          simp
        · rw [Split_of_first_match _ _ _ _ hd]
          simp
      · rw [hrest, mem_shift] at hmem
        obtain ⟨a1, b1, hmem1, rfl, rfl⟩ := hmem
        have hspec := FindAllIndex_spec r _ _ _ hmem1
        simp only [List.length_drop] at hspec
        obtain ⟨⟨rest1, i1⟩, i2, i3, i4⟩ :=
          ih (s.drop b0) (by simp only [List.length_drop]; omega) a1 b1 hmem1
        have hdd : (s.drop b0).drop a1 = s.drop (a1 + b0) := by
          rw [List.drop_drop, Nat.add_comm]
        have htd : (s.drop b0).take a1 = (s.take (a1 + b0)).drop b0 := by
          rw [List.take_drop, Nat.add_comm]
        have ht : FindAllIndex r (s.take (a1 + b0))
            = (a0, b0) :: shift b0 (FindAllIndex r ((s.take (a1 + b0)).drop b0)) :=
          FindAllIndex_cons_intro _ a0 b0
            (matchItems_take_some s (a1 + b0) a0 b0 hab0 (by omega) (by omega) hm0) hab0
            (fun j hj => matchItems_take_none s (a1 + b0) j (hno0 j hj))
        rw [hdd] at i1 i2 i3 i4
        rw [htd] at i2 i3
        have hb1 : b1 + b0 - (a1 + b0) = b1 - a1 := by omega
        refine ⟨⟨rest1, by rw [i1, hb1]⟩, ?_, ?_, i4⟩
        · rw [ht, hrest, i2, shift_append, shift_shift]
          simp
        · rw [hsp, i3, Split_of_first_match _ _ _ _ ht]
          have : (s.take (a1 + b0)).take a0 = s.take a0 := by
            rw [List.take_take]; congr 1; omega
          rw [this]
          simp

theorem FindAllIndex_nil_of_append (s t : List Byte) (h : FindAllIndex r (s ++ t) = []) :
    FindAllIndex r s = [] := by
  rw [FindAllIndex_eq_nil_iff] at h ⊢
  intro j
  have := matchItems_take_none (s ++ t) s.length j (h j)
  rwa [List.take_left] at this

theorem FindAllIndex_nil_of_suffix (pre m : List Byte) (h : FindAllIndex r (pre ++ m) = []) :
    FindAllIndex r m = [] := by
  rw [FindAllIndex_eq_nil_iff] at h ⊢
  intro j
  have := h (pre.length + j)
  rwa [List.drop_append] at this

/-! ## Lemmas: when `parse` returns and what it leaves -/

section ParseLemmas

variable {E W R V T : Type}

theorem Split_ne_nil (s : List Byte) : Split r s ≠ [] := by
  cases hf : FindAllIndex r s with
  | nil => rw [Split_of_no_match s hf]; simp
  | cons m rest =>
    obtain ⟨a, b⟩ := m
    rw [Split_of_first_match s a b rest hf]
    simp

theorem Split_eq_cons_groups (s : List Byte) (h : (Split r s).head? = some []) :
    Split r s = [] :: groups s := by
  unfold groups
  cases hs : Split r s with
  | nil => rw [hs] at h; simp at h
  | cons first gs =>
    rw [hs] at h
    simp only [List.head?_cons, Option.some.injEq] at h
    simp [h]

theorem deserializeMessagesLoop_error (cx : Thrift E W R V T) (skipErrors : Bool)
    (ms : List (List Byte)) (tasks : List T) (sk : Int)
    (hne : ∀ m ∈ ms, m ≠ [])
    (h : ¬ ((∀ m ∈ ms, skipErrors = false → frameTask cx m ≠ none) ∧
      ∀ m ∈ ms, framePanics cx m = false)) :
    ∃ e, deserializeMessagesLoop cx skipErrors ms tasks sk = Except.error e ∧
      ((∃ cause, e = Halt.exit malformedMessage cause) ∨
        (e = Halt.panic ∧ ∃ m ∈ ms, framePanics cx m = true)) := by
  induction ms generalizing tasks sk with
  | nil => simp at h
  | cons m ms ih =>
    have hm := hne m (List.mem_cons_self _ _)
    have hms : ∀ x ∈ ms, x ≠ [] := fun x hx => hne x (List.mem_cons_of_mem _ hx)
    have hlift : ∀ e : Halt E, ((∃ cause, e = Halt.exit malformedMessage cause) ∨
        (e = Halt.panic ∧ ∃ x ∈ ms, framePanics cx x = true)) →
        ((∃ cause, e = Halt.exit malformedMessage cause) ∨
        (e = Halt.panic ∧ ∃ x ∈ m :: ms, framePanics cx x = true)) := by
      intro e he
      rcases he with he | ⟨he, x, hx, hp⟩
      · exact Or.inl he
      · exact Or.inr ⟨he, x, List.mem_cons_of_mem _ hx, hp⟩
    unfold deserializeMessagesLoop
    cases hd : decode cx m with
    | error e =>
      exfalso
      cases m with
      | nil => exact hm rfl
      | cons c p => simp [decode] at hd
    | ok res =>
      cases res with
      | error err =>
        cases skipErrors with
        | false => exact ⟨_, by simp [ErrorAndExit], Or.inl ⟨Cause.decodeError err, rfl⟩⟩
        | true =>
          simp only [Bool.not_true, Bool.false_eq_true, if_false]
          have hp0 : framePanics cx m = false := by simp [framePanics, hd]
          obtain ⟨e, he1, he2⟩ := ih _ _ hms (by
            intro hall
            apply h
            refine ⟨fun x _ hs => by simp at hs, fun x hx => ?_⟩
            rcases List.mem_cons.mp hx with rfl | hx
            · exact hp0
            · exact hall.2 x hx)
          exact ⟨e, he1, hlift e he2⟩
      | ok task =>
        cases hc : cx.toReplicationTask task with
        | none =>
          refine ⟨Halt.panic, by simp only [hc], Or.inr ⟨rfl, m, List.mem_cons_self _ _, ?_⟩⟩
          simp [framePanics, hd, hc]
        | some converted =>
          have hft : frameTask cx m ≠ none := by simp [frameTask, hd, hc]
          have hp0 : framePanics cx m = false := by simp [framePanics, hd, hc]
          simp only [hc]
          obtain ⟨e, he1, he2⟩ := ih _ _ hms (by
            intro hall
            apply h
            refine ⟨fun x hx => ?_, fun x hx => ?_⟩
            · rcases List.mem_cons.mp hx with rfl | hx
              · exact fun _ => hft
              · exact hall.1 x hx
            · rcases List.mem_cons.mp hx with rfl | hx
              · exact hp0
              · exact hall.2 x hx)
          exact ⟨e, he1, hlift e he2⟩

theorem deserializeVisibilityMessagesLoop_error (cx : Thrift E W R V T) (skipErrors : Bool)
    (ms : List (List Byte)) (msgs : List V) (sk : Int)
    (hne : ∀ m ∈ ms, m ≠ [])
    (h : ¬ ∀ m ∈ ms, skipErrors = false → frameMsg cx m ≠ none) :
    ∃ cause, deserializeVisibilityMessagesLoop cx skipErrors ms msgs sk
      = Except.error (Halt.exit malformedMessage cause) := by
  induction ms generalizing msgs sk with
  | nil => simp at h
  | cons m ms ih =>
    have hm := hne m (List.mem_cons_self _ _)
    have hms : ∀ x ∈ ms, x ≠ [] := fun x hx => hne x (List.mem_cons_of_mem _ hx)
    unfold deserializeVisibilityMessagesLoop
    cases hd : decodeVisibility cx m with
    | error e =>
      exfalso
      cases m with
      | nil => exact hm rfl
      | cons c p => simp [decodeVisibility] at hd
    | ok res =>
      cases res with
      | error err =>
        cases skipErrors with
        | false => exact ⟨Cause.decodeError err, by simp [ErrorAndExit]⟩
        | true =>
          simp only [Bool.not_true, Bool.false_eq_true, if_false]
          apply ih _ _ hms
          intro hall
          apply h
          intro x hx
          simp
      | ok msg =>
        have hft : frameMsg cx m ≠ none := by simp [frameMsg, hd]
        simp only []
        apply ih _ _ hms
        intro hall
        apply h
        intro x hx
        rcases List.mem_cons.mp hx with rfl | hx
        · exact fun _ => hft
        · exact hall x hx


theorem wrapInt32_sum (sk a b : Int) :
    wrapInt32 (sk + wrapInt32 (wrapInt32 a + wrapInt32 (0 + b))) = wrapInt32 (sk + (a + b)) := by
  unfold wrapInt32; omega

theorem groupTask_of_rawFrame (cx : Thrift E W R V T) (g m : List Byte)
    (h : rawFrame g = some m) : groupTask cx g = frameTask cx m := by
  simp [groupTask, h]

theorem groupMsg_of_rawFrame (cx : Thrift E W R V T) (g m : List Byte)
    (h : rawFrame g = some m) : groupMsg cx g = frameMsg cx m := by
  simp [groupMsg, h]

theorem groupPanics_of_rawFrame (cx : Thrift E W R V T) (g m : List Byte)
    (h : rawFrame g = some m) : groupPanics cx g = framePanics cx m := by
  simp [groupPanics, h]

theorem framePanics_of_groups (cx : Thrift E W R V T) (gs : List (List Byte))
    (h : ∀ g ∈ gs, groupPanics cx g = false) :
    ∀ m ∈ gs.filterMap rawFrame, framePanics cx m = false := by
  intro m hm
  obtain ⟨g, hg, hr⟩ := List.mem_filterMap.mp hm
  rw [← groupPanics_of_rawFrame cx g m hr]
  exact h g hg

theorem groupPanics_of_frames (cx : Thrift E W R V T) (gs : List (List Byte))
    (h : ∀ m ∈ gs.filterMap rawFrame, framePanics cx m = false) :
    ∀ g ∈ gs, groupPanics cx g = false := by
  intro g hg
  cases hr : rawFrame g with
  | none => simp [groupPanics, hr]
  | some m =>
    rw [groupPanics_of_rawFrame cx g m hr]
    exact h m (List.mem_filterMap.mpr ⟨g, hg, hr⟩)

theorem deserializeMessages_ok (cx : Thrift E W R V T) (skipErrors : Bool)
    (gs : List (List Byte)) (h : ∀ g ∈ gs, skipErrors = false → groupTask cx g ≠ none)
    (hnp : ∀ g ∈ gs, groupPanics cx g = false) :
    deserializeMessages cx (gs.filterMap rawFrame) skipErrors =
      Except.ok (gs.filterMap (groupTask cx),
        wrapInt32 (0 + (((gs.filterMap rawFrame).countP
          (fun m => (frameTask cx m).isNone) : Nat) : Int))) := by
  unfold deserializeMessages
  rw [deserializeMessagesLoop_ok cx skipErrors (gs.filterMap rawFrame) [] 0 (by decide)]
  · rw [List.nil_append, filterMap_bind]
    rfl
  · intro m hm
    refine ⟨rawFrame_ne_nil gs m hm, fun hs => ?_⟩
    rw [List.mem_filterMap] at hm
    obtain ⟨g, hg, hr⟩ := hm
    rw [← groupTask_of_rawFrame cx g m hr]
    exact h g hg hs
  · exact framePanics_of_groups cx gs hnp

theorem deserializeVisibilityMessages_ok (cx : Thrift E W R V T) (skipErrors : Bool)
    (gs : List (List Byte)) (h : ∀ g ∈ gs, skipErrors = false → groupMsg cx g ≠ none) :
    deserializeVisibilityMessages cx (gs.filterMap rawFrame) skipErrors =
      Except.ok (gs.filterMap (groupMsg cx),
        wrapInt32 (0 + (((gs.filterMap rawFrame).countP
          (fun m => (frameMsg cx m).isNone) : Nat) : Int))) := by
  unfold deserializeVisibilityMessages
  rw [deserializeVisibilityMessagesLoop_ok cx skipErrors (gs.filterMap rawFrame) [] 0 (by decide)]
  · rw [List.nil_append, filterMap_bind]
    rfl
  · intro m hm
    refine ⟨rawFrame_ne_nil gs m hm, fun hs => ?_⟩
    rw [List.mem_filterMap] at hm
    obtain ⟨g, hg, hr⟩ := hm
    rw [← groupMsg_of_rawFrame cx g m hr]
    exact h g hg hs

/-- When the conditions of `parseSucceeds` hold, `parse` returns and leaves `parseResult`. -/
theorem parse_of_succeeds (cx : Thrift E W R V T) (d : List Byte) (skipErrors : Bool)
    (sk : Int) (wc : writerChannel T V) (h : parseSucceeds cx skipErrors wc (Split r d)) :
    parse cx d skipErrors sk wc = parseResult cx sk wc (groups d) := by
  obtain ⟨h1, h2, h3, h4⟩ := h
  have hS := Split_eq_cons_groups d h1
  have hget := getMessages_ok (E := E) d skipErrors (groups d) hS h2
  unfold parse parseResult
  rw [hget]
  simp only []
  by_cases hty : wc.msgType = kafkaMessageTypeReplicationTask
  · obtain ⟨h5, h6, h7⟩ := h3 hty
    rw [if_pos hty, if_pos hty, deserializeMessages_ok cx skipErrors (groups d) h5 h7]
    simp only []
    have hc : (groups d).countP (fun g => (groupTask cx g).isNone)
        = (groups d).countP (fun x => (rawFrame x).isNone)
          + ((groups d).filterMap rawFrame).countP (fun y => (frameTask cx y).isNone) :=
      countP_bind_isNone rawFrame (frameTask cx) (groups d)
    rw [wrapInt32_sum, hc]
    cases hq : wc.ReplicationTaskChannel with
    | none =>
      have hnil : (groups d).filterMap (groupTask cx) = [] := h6 hq
      simp only [hnil, sendAll, Option.map_none']
      push_cast
      rfl
    | some q =>
      simp only [sendAll, Option.map_some']
      push_cast
      rfl
  · rw [if_neg hty, if_neg hty]
    by_cases hty2 : wc.msgType = kafkaMessageTypeVisibilityMsg
    · obtain ⟨h5, h6⟩ := h4 hty2
      rw [if_pos hty2, if_pos hty2, deserializeVisibilityMessages_ok cx skipErrors (groups d) h5]
      simp only []
      have hc : (groups d).countP (fun g => (groupMsg cx g).isNone)
          = (groups d).countP (fun x => (rawFrame x).isNone)
            + ((groups d).filterMap rawFrame).countP (fun y => (frameMsg cx y).isNone) :=
        countP_bind_isNone rawFrame (frameMsg cx) (groups d)
      rw [wrapInt32_sum, hc]
      cases hq : wc.VisibilityMsgChannel with
      | none =>
        have hnil : (groups d).filterMap (groupMsg cx) = [] := h6 hq
        simp only [hnil, sendAll, Option.map_none']
        push_cast
        rfl
      | some q =>
        simp only [sendAll, Option.map_some']
        push_cast
        rfl
    · rw [if_neg hty2, if_neg hty2]

/-- A call of `parse` that does not return has sent nothing. -/
theorem parse_halted_writerCh (cx : Thrift E W R V T) (d : List Byte) (skipErrors : Bool)
    (sk : Int) (wc : writerChannel T V)
    (h : (parse cx d skipErrors sk wc).halted ≠ none) :
    (parse cx d skipErrors sk wc).writerCh = wc := by
  unfold parse at h ⊢
  cases hg : getMessages (E := E) d skipErrors with
  | error e => rfl
  | ok res =>
    obtain ⟨raws, k⟩ := res
    rw [hg] at h
    simp only [] at h ⊢
    by_cases hty : wc.msgType = kafkaMessageTypeReplicationTask
    · rw [if_pos hty] at h ⊢
      cases hd : deserializeMessages cx raws skipErrors with
      | error e => rfl
      | ok res2 =>
        obtain ⟨msgs, k2⟩ := res2
        rw [hd] at h
        simp only [] at h ⊢
        cases hs : sendAll wc.ReplicationTaskChannel msgs with
        | none => rfl
        | some ch => rw [hs] at h; simp at h
    · rw [if_neg hty] at h ⊢
      by_cases hty2 : wc.msgType = kafkaMessageTypeVisibilityMsg
      · rw [if_pos hty2] at h ⊢
        cases hd : deserializeVisibilityMessages cx raws skipErrors with
        | error e => rfl
        | ok res2 =>
          obtain ⟨msgs, k2⟩ := res2
          rw [hd] at h
          simp only [] at h ⊢
          cases hs : sendAll wc.VisibilityMsgChannel msgs with
          | none => rfl
          | some ch => rw [hs] at h; simp at h
      · rw [if_neg hty2] at h
        simp at h


theorem getMessages_error_exit (d : List Byte) (skipErrors : Bool) (h : Halt E)
    (hg : getMessages (E := E) d skipErrors = Except.error h) :
    ∃ cause, h = Halt.exit malformedMessage cause := by
  by_cases hall : ∀ m ∈ groups d, m ≠ [] ∧ (skipErrors = false → rawFrame m ≠ none)
  · unfold getMessages at hg
    cases hS : Split r d with
    | nil => exact absurd hS (Split_ne_nil d)
    | cons first gs =>
      rw [hS] at hg
      simp only [] at hg
      have hgs : groups d = gs := by simp [groups, hS]
      by_cases hf : first.length ≠ 0
      · rw [if_pos hf] at hg
        simp only [ErrorAndExit] at hg
        injection hg with hg
        exact ⟨_, hg.symm⟩
      · rw [if_neg hf] at hg
        rw [getMessagesLoop_ok skipErrors gs [] 0 (by decide) (by rw [← hgs]; exact hall)] at hg
        cases hg
  · obtain ⟨cause, hc⟩ := getMessages_error (E := E) d skipErrors hall
    rw [hc] at hg
    injection hg with hg
    exact ⟨cause, hg.symm⟩

theorem deserializeMessages_error_exit (cx : Thrift E W R V T) (skipErrors : Bool)
    (raws : List (List Byte)) (h : Halt E) (hne : ∀ m ∈ raws, m ≠ [])
    (hd : deserializeMessages cx raws skipErrors = Except.error h) :
    (∃ cause, h = Halt.exit malformedMessage cause) ∨
      (h = Halt.panic ∧ ∃ m ∈ raws, framePanics cx m = true) := by
  unfold deserializeMessages at hd
  by_cases hall : (∀ m ∈ raws, skipErrors = false → frameTask cx m ≠ none) ∧
      ∀ m ∈ raws, framePanics cx m = false
  · rw [deserializeMessagesLoop_ok cx skipErrors raws [] 0 (by decide)
      (fun m hm => ⟨hne m hm, hall.1 m hm⟩) hall.2] at hd
    cases hd
  · obtain ⟨e, hc, he⟩ := deserializeMessagesLoop_error cx skipErrors raws [] 0 hne hall
    rw [hc] at hd
    injection hd with hd
    rw [← hd]
    exact he

theorem deserializeVisibilityMessages_error_exit (cx : Thrift E W R V T) (skipErrors : Bool)
    (raws : List (List Byte)) (h : Halt E) (hne : ∀ m ∈ raws, m ≠ [])
    (hd : deserializeVisibilityMessages cx raws skipErrors = Except.error h) :
    ∃ cause, h = Halt.exit malformedMessage cause := by
  unfold deserializeVisibilityMessages at hd
  by_cases hall : ∀ m ∈ raws, skipErrors = false → frameMsg cx m ≠ none
  · rw [deserializeVisibilityMessagesLoop_ok cx skipErrors raws [] 0 (by decide)
      (fun m hm => ⟨hne m hm, hall m hm⟩)] at hd
    cases hd
  · obtain ⟨cause, hc⟩ := deserializeVisibilityMessagesLoop_error cx skipErrors raws [] 0 hne hall
    rw [hc] at hd
    injection hd with hd
    exact ⟨cause, hd.symm⟩

/-- What a returning `getMessages` followed by a returning deserializer tells
about the groups. -/
theorem deserializeMessages_ok_elim (cx : Thrift E W R V T) (skipErrors : Bool)
    (gs : List (List Byte)) (msgs : List T) (k : Int)
    (hraw : ∀ g ∈ gs, skipErrors = false → rawFrame g ≠ none)
    (hd : deserializeMessages cx (gs.filterMap rawFrame) skipErrors = Except.ok (msgs, k)) :
    (∀ g ∈ gs, skipErrors = false → groupTask cx g ≠ none) ∧
    msgs = gs.filterMap (groupTask cx) ∧
    (∀ g ∈ gs, groupPanics cx g = false) := by
  have hall : (∀ m ∈ gs.filterMap rawFrame, skipErrors = false → frameTask cx m ≠ none) ∧
      ∀ m ∈ gs.filterMap rawFrame, framePanics cx m = false := by
    by_contra hnot
    obtain ⟨e, hc, -⟩ := deserializeMessagesLoop_error cx skipErrors (gs.filterMap rawFrame)
      [] 0 (rawFrame_ne_nil gs) hnot
    unfold deserializeMessages at hd
    rw [hc] at hd
    cases hd
  have hgt : ∀ g ∈ gs, skipErrors = false → groupTask cx g ≠ none := by
    intro g hg hs
    cases hr : rawFrame g with
    | none => exact absurd hr (hraw g hg hs)
    | some m =>
      rw [groupTask_of_rawFrame cx g m hr]
      exact hall.1 m (List.mem_filterMap.mpr ⟨g, hg, hr⟩) hs
  have hnp := groupPanics_of_frames cx gs hall.2
  refine ⟨hgt, ?_, hnp⟩
  rw [deserializeMessages_ok cx skipErrors gs hgt hnp] at hd
  exact (Prod.mk.inj (Except.ok.inj hd)).1.symm
theorem deserializeVisibilityMessages_ok_elim (cx : Thrift E W R V T) (skipErrors : Bool)
    (gs : List (List Byte)) (msgs : List V) (k : Int)
    (hraw : ∀ g ∈ gs, skipErrors = false → rawFrame g ≠ none)
    (hd : deserializeVisibilityMessages cx (gs.filterMap rawFrame) skipErrors
      = Except.ok (msgs, k)) :
    (∀ g ∈ gs, skipErrors = false → groupMsg cx g ≠ none) ∧
    msgs = gs.filterMap (groupMsg cx) := by
  have hall : ∀ m ∈ gs.filterMap rawFrame, skipErrors = false → frameMsg cx m ≠ none := by
    by_contra hnot
    obtain ⟨cause, hc⟩ := deserializeVisibilityMessagesLoop_error cx skipErrors
      (gs.filterMap rawFrame) [] 0 (rawFrame_ne_nil gs) hnot
    unfold deserializeVisibilityMessages at hd
    rw [hc] at hd
    cases hd
  have hgt : ∀ g ∈ gs, skipErrors = false → groupMsg cx g ≠ none := by
    intro g hg hs
    cases hr : rawFrame g with
    | none => exact absurd hr (hraw g hg hs)
    | some m =>
      rw [groupMsg_of_rawFrame cx g m hr]
      exact hall m (List.mem_filterMap.mpr ⟨g, hg, hr⟩) hs
  refine ⟨hgt, ?_⟩
  rw [deserializeVisibilityMessages_ok cx skipErrors gs hgt] at hd
  exact (Prod.mk.inj (Except.ok.inj hd)).1.symm

/-- A call of `parse` that returns was made on data that fulfils `parseSucceeds`. -/
theorem parse_returns_succeeds (cx : Thrift E W R V T) (d : List Byte) (skipErrors : Bool)
    (sk : Int) (wc : writerChannel T V)
    (h : (parse cx d skipErrors sk wc).halted = none) :
    parseSucceeds cx skipErrors wc (Split r d) := by
  unfold parse at h
  cases hg : getMessages (E := E) d skipErrors with
  | error e => rw [hg] at h; simp at h
  | ok res =>
    obtain ⟨raws, k⟩ := res
    rw [hg] at h
    simp only [] at h
    obtain ⟨f1, f2, f3⟩ := getMessages_frames d skipErrors raws k hg
    have hne01 : kafkaMessageTypeVisibilityMsg ≠ kafkaMessageTypeReplicationTask := by decide
    by_cases hty : wc.msgType = kafkaMessageTypeReplicationTask
    · rw [if_pos hty] at h
      cases hd : deserializeMessages cx raws skipErrors with
      | error e => rw [hd] at h; simp at h
      | ok res2 =>
        obtain ⟨msgs, k2⟩ := res2
        rw [hd] at h
        simp only [] at h
        rw [f3] at hd
        obtain ⟨g1, g2, g3⟩ := deserializeMessages_ok_elim cx skipErrors (groups d) msgs k2
          (fun g hg hs => (f2 g hg).2 hs) hd
        refine ⟨f1, f2, fun _ => ⟨g1, fun hq => ?_, g3⟩, fun h1 => ?_⟩
        · rw [hq] at h
          cases hm : msgs with
          | nil =>
            show (groups d).filterMap _ = []
            rw [← g2, hm]
          | cons x xs => rw [hm] at h; simp [sendAll] at h
        · rw [hty] at h1
          exact absurd h1.symm hne01
    · rw [if_neg hty] at h
      by_cases hty2 : wc.msgType = kafkaMessageTypeVisibilityMsg
      · rw [if_pos hty2] at h
        cases hd : deserializeVisibilityMessages cx raws skipErrors with
        | error e => rw [hd] at h; simp at h
        | ok res2 =>
          obtain ⟨msgs, k2⟩ := res2
          rw [hd] at h
          simp only [] at h
          rw [f3] at hd
          obtain ⟨g1, g2⟩ := deserializeVisibilityMessages_ok_elim cx skipErrors (groups d)
            msgs k2 (fun g hg hs => (f2 g hg).2 hs) hd
          refine ⟨f1, f2, fun h1 => absurd h1 hty, fun _ => ⟨g1, fun hq => ?_⟩⟩
          rw [hq] at h
          cases hm : msgs with
          | nil =>
            show (groups d).filterMap _ = []
            rw [← g2, hm]
          | cons x xs => rw [hm] at h; simp [sendAll] at h
      · exact ⟨f1, f2, fun h1 => absurd h1 hty, fun h1 => absurd h1 hty2⟩

/-- A call of `parse` that does not return ends the process with the
malformed-input message, or blocks on a nil channel, or panics in the
conversion of a decoded replication task. -/
theorem parse_halted_exit (cx : Thrift E W R V T) (d : List Byte) (skipErrors : Bool)
    (sk : Int) (wc : writerChannel T V) (h : Halt E)
    (hh : (parse cx d skipErrors sk wc).halted = some h) :
    (∃ cause, h = Halt.exit malformedMessage cause) ∨
    (h = Halt.blocked ∧
      ((wc.msgType = kafkaMessageTypeReplicationTask ∧ wc.ReplicationTaskChannel = none) ∨
       (wc.msgType = kafkaMessageTypeVisibilityMsg ∧ wc.VisibilityMsgChannel = none))) ∨
    (h = Halt.panic ∧ wc.msgType = kafkaMessageTypeReplicationTask ∧
      ∃ g ∈ groups d, groupPanics cx g = true) := by
  unfold parse at hh
  cases hg : getMessages (E := E) d skipErrors with
  | error e =>
    rw [hg] at hh
    simp only [Option.some.injEq] at hh
    subst hh
    exact Or.inl (getMessages_error_exit d skipErrors e hg)
  | ok res =>
    obtain ⟨raws, k⟩ := res
    rw [hg] at hh
    simp only [] at hh
    obtain ⟨_, _, f3⟩ := getMessages_frames d skipErrors raws k hg
    have hne : ∀ m ∈ raws, m ≠ [] := by rw [f3]; exact rawFrame_ne_nil _
    by_cases hty : wc.msgType = kafkaMessageTypeReplicationTask
    · rw [if_pos hty] at hh
      cases hd : deserializeMessages cx raws skipErrors with
      | error e =>
        rw [hd] at hh
        simp only [Option.some.injEq] at hh
        subst hh
        rcases deserializeMessages_error_exit cx skipErrors raws e hne hd with he | ⟨he, m, hm, hp⟩
        · exact Or.inl he
        · refine Or.inr (Or.inr ⟨he, hty, ?_⟩)
          rw [f3] at hm
          obtain ⟨g, hg, hr⟩ := List.mem_filterMap.mp hm
          exact ⟨g, hg, by rw [groupPanics_of_rawFrame cx g m hr]; exact hp⟩
      | ok res2 =>
        obtain ⟨msgs, k2⟩ := res2
        rw [hd] at hh
        simp only [] at hh
        cases hq : wc.ReplicationTaskChannel with
        | none =>
          rw [hq] at hh
          cases hm : msgs with
          | nil => rw [hm] at hh; simp [sendAll] at hh
          | cons x xs =>
            rw [hm] at hh
            simp only [sendAll, Option.some.injEq] at hh
            exact Or.inr (Or.inl ⟨hh.symm, Or.inl ⟨hty, rfl⟩⟩)
        | some q => rw [hq] at hh; simp [sendAll] at hh
    · rw [if_neg hty] at hh
      by_cases hty2 : wc.msgType = kafkaMessageTypeVisibilityMsg
      · rw [if_pos hty2] at hh
        cases hd : deserializeVisibilityMessages cx raws skipErrors with
        | error e =>
          rw [hd] at hh
          simp only [Option.some.injEq] at hh
          subst hh
          exact Or.inl (deserializeVisibilityMessages_error_exit cx skipErrors raws e hne hd)
        | ok res2 =>
          obtain ⟨msgs, k2⟩ := res2
          rw [hd] at hh
          simp only [] at hh
          cases hq : wc.VisibilityMsgChannel with
          | none =>
            rw [hq] at hh
            cases hm : msgs with
            | nil => rw [hm] at hh; simp [sendAll] at hh
            | cons x xs =>
              rw [hm] at hh
              simp only [sendAll, Option.some.injEq] at hh
              exact Or.inr (Or.inl ⟨hh.symm, Or.inr ⟨hty2, rfl⟩⟩)
          | some q => rw [hq] at hh; simp [sendAll] at hh
      · rw [if_neg hty2] at hh
        simp at hh

end ParseLemmas

/-! ## Lemmas: successive calls of `parse` -/

section ParseAllLemmas

variable {E W R V T : Type}

theorem parseSucceeds_congr (cx : Thrift E W R V T) (skipErrors : Bool)
    (wc wc1 : writerChannel T V) (pieces : List (List Byte))
    (h1 : wc1.msgType = wc.msgType)
    (h2 : wc1.ReplicationTaskChannel = none ↔ wc.ReplicationTaskChannel = none)
    (h3 : wc1.VisibilityMsgChannel = none ↔ wc.VisibilityMsgChannel = none) :
    parseSucceeds cx skipErrors wc1 pieces ↔ parseSucceeds cx skipErrors wc pieces := by
  unfold parseSucceeds
  rw [h1, h2, h3]

theorem parseResult_halted (cx : Thrift E W R V T) (sk : Int) (wc : writerChannel T V)
    (gs : List (List Byte)) : (parseResult cx sk wc gs).halted = none := by
  unfold parseResult
  split_ifs <;> rfl

theorem parseResult_shape (cx : Thrift E W R V T) (sk : Int) (wc : writerChannel T V)
    (gs : List (List Byte)) :
    (parseResult cx sk wc gs).writerCh.msgType = wc.msgType ∧
    ((parseResult cx sk wc gs).writerCh.ReplicationTaskChannel = none
      ↔ wc.ReplicationTaskChannel = none) ∧
    ((parseResult cx sk wc gs).writerCh.VisibilityMsgChannel = none
      ↔ wc.VisibilityMsgChannel = none) := by
  unfold parseResult
  split_ifs <;> simp

theorem parseSucceeds_parseResult (cx : Thrift E W R V T) (skipErrors : Bool) (sk : Int)
    (wc : writerChannel T V) (gs pieces : List (List Byte)) :
    parseSucceeds cx skipErrors (parseResult cx sk wc gs).writerCh pieces
      ↔ parseSucceeds cx skipErrors wc pieces := by
  obtain ⟨h1, h2, h3⟩ := parseResult_shape cx sk wc gs
  exact parseSucceeds_congr cx skipErrors wc _ pieces h1 h2 h3

theorem option_map_append_nil {α : Type} (q : Option (List α)) :
    q.map (· ++ ([] : List α)) = q := by
  cases q <;> simp

theorem option_map_append_append {α : Type} (q : Option (List α)) (a b : List α) :
    (q.map (· ++ a)).map (· ++ b) = q.map (· ++ (a ++ b)) := by
  cases q <;> simp

theorem parseResult_nil_writerCh (cx : Thrift E W R V T) (sk : Int) (wc : writerChannel T V) :
    (parseResult cx sk wc []).writerCh = wc := by
  unfold parseResult
  split_ifs <;> simp [option_map_append_nil]

theorem parseResult_parseResult (cx : Thrift E W R V T) (sk : Int) (wc : writerChannel T V)
    (g1 g2 : List (List Byte)) :
    parseResult cx (parseResult cx sk wc g1).skippedCount (parseResult cx sk wc g1).writerCh g2
      = parseResult cx sk wc (g1 ++ g2) := by
  have hne01 : kafkaMessageTypeVisibilityMsg ≠ kafkaMessageTypeReplicationTask := by decide
  unfold parseResult
  by_cases hty : wc.msgType = kafkaMessageTypeReplicationTask
  · simp only [hty, if_true, List.filterMap_append, List.countP_append,
      option_map_append_append, wrapInt32_add_left]
    congr 2
    push_cast
    ring
  · by_cases hty2 : wc.msgType = kafkaMessageTypeVisibilityMsg
    · simp only [hty2, hne01, if_true, if_false, List.filterMap_append, List.countP_append,
        option_map_append_append, wrapInt32_add_left]
      congr 2
      push_cast
      ring
    · simp only [hty, hty2, if_false]

theorem parseAll_cons_of_succeeds (cx : Thrift E W R V T) (skipErrors : Bool)
    (d : List Byte) (ds : List (List Byte)) (sk : Int) (wc : writerChannel T V)
    (h : parseSucceeds cx skipErrors wc (Split r d)) :
    parseAll cx skipErrors (d :: ds) sk wc
      = parseAll cx skipErrors ds (parseResult cx sk wc (groups d)).skippedCount
          (parseResult cx sk wc (groups d)).writerCh := by
  conv_lhs => rw [parseAll]
  rw [parse_of_succeeds cx d skipErrors sk wc h]
  have hh := parseResult_halted cx sk wc (groups d)
  cases hp : parseResult cx sk wc (groups d) with
  | mk w s hlt =>
    rw [hp] at hh
    simp only [] at hh
    subst hh
    rfl

theorem parseAll_cons_of_halted (cx : Thrift E W R V T) (skipErrors : Bool)
    (d : List Byte) (ds : List (List Byte)) (sk : Int) (wc : writerChannel T V)
    (h : (parse cx d skipErrors sk wc).halted ≠ none) :
    parseAll cx skipErrors (d :: ds) sk wc = parse cx d skipErrors sk wc := by
  unfold parseAll
  cases hp : parse cx d skipErrors sk wc with
  | mk w s hlt =>
    rw [hp] at h
    cases hlt with
    | none => exact absurd rfl h
    | some x => rfl

theorem parseAll_singleton (cx : Thrift E W R V T) (skipErrors : Bool)
    (d : List Byte) (sk : Int) (wc : writerChannel T V) :
    parseAll cx skipErrors [d] sk wc = parse cx d skipErrors sk wc := by
  unfold parseAll
  cases hp : parse cx d skipErrors sk wc with
  | mk w s hlt =>
    cases hlt with
    | none => rfl
    | some x => rfl

/-- When every slice fulfils `parseSucceeds`, the calls leave what one call on all
the groups would leave. -/
theorem parseAll_of_succeeds (cx : Thrift E W R V T) (skipErrors : Bool) :
    ∀ (ds : List (List Byte)) (d : List Byte) (sk : Int) (wc : writerChannel T V),
      (∀ x ∈ d :: ds, parseSucceeds cx skipErrors wc (Split r x)) →
      parseAll cx skipErrors (d :: ds) sk wc
        = parseResult cx sk wc ((d :: ds).flatMap groups) := by
  intro ds
  induction ds with
  | nil =>
    intro d sk wc h
    rw [parseAll_singleton, parse_of_succeeds cx d skipErrors sk wc (h d (by simp))]
    simp
  | cons d1 ds ih =>
    intro d sk wc h
    rw [parseAll_cons_of_succeeds cx skipErrors d (d1 :: ds) sk wc (h d (by simp))]
    rw [ih d1 _ _ (fun x hx =>
      (parseSucceeds_parseResult cx skipErrors sk wc (groups d) _).mpr
        (h x (List.mem_cons_of_mem _ hx)))]
    rw [parseResult_parseResult]
    simp

/-- When the calls all return, every slice fulfils `parseSucceeds`. -/
theorem parseAll_returns (cx : Thrift E W R V T) (skipErrors : Bool) :
    ∀ (ds : List (List Byte)) (sk : Int) (wc : writerChannel T V),
      (parseAll cx skipErrors ds sk wc).halted = none →
      ∀ x ∈ ds, parseSucceeds cx skipErrors wc (Split r x) := by
  intro ds
  induction ds with
  | nil => intro sk wc _ x hx; simp at hx
  | cons d ds ih =>
    intro sk wc h x hx
    by_cases hp : (parse cx d skipErrors sk wc).halted = none
    · have hd := parse_returns_succeeds cx d skipErrors sk wc hp
      rcases List.mem_cons.mp hx with rfl | hx
      · exact hd
      · rw [parseAll_cons_of_succeeds cx skipErrors d ds sk wc hd] at h
        exact (parseSucceeds_parseResult cx skipErrors sk wc (groups d) _).mp (ih _ _ h x hx)
    · rw [parseAll_cons_of_halted cx skipErrors d ds sk wc hp] at h
      exact absurd h hp

/-- Whatever happens, the channel holds the messages of the groups of the first
`n` slices, for some `n`: those of the slices on which `parse` returned. -/
theorem parseAll_writerCh (cx : Thrift E W R V T) (skipErrors : Bool) :
    ∀ (ds : List (List Byte)) (sk : Int) (wc : writerChannel T V),
      ∃ n, n ≤ ds.length ∧
        (∀ x ∈ ds.take n, parseSucceeds cx skipErrors wc (Split r x)) ∧
        ((parseAll cx skipErrors ds sk wc).halted = none → n = ds.length) ∧
        (parseAll cx skipErrors ds sk wc).writerCh
          = (parseResult cx sk wc ((ds.take n).flatMap groups)).writerCh := by
  intro ds
  induction ds with
  | nil =>
    intro sk wc
    exact ⟨0, le_refl _, by simp, fun _ => rfl, by simp [parseAll, parseResult_nil_writerCh]⟩
  | cons d ds ih =>
    intro sk wc
    by_cases hp : (parse cx d skipErrors sk wc).halted = none
    · have hd := parse_returns_succeeds cx d skipErrors sk wc hp
      rw [parseAll_cons_of_succeeds cx skipErrors d ds sk wc hd]
      obtain ⟨n, hn, hs, hh, hw⟩ := ih (parseResult cx sk wc (groups d)).skippedCount
        (parseResult cx sk wc (groups d)).writerCh
      refine ⟨n + 1, by simp only [List.length_cons]; omega, ?_, ?_, ?_⟩
      · intro x hx
        simp only [List.take_succ_cons] at hx
        rcases List.mem_cons.mp hx with rfl | hx
        · exact hd
        · exact (parseSucceeds_parseResult cx skipErrors sk wc (groups d) _).mp (hs x hx)
      · intro h
        simp only [List.length_cons]
        rw [hh h]
      · rw [hw, parseResult_parseResult]
        simp
    · rw [parseAll_cons_of_halted cx skipErrors d ds sk wc hp]
      refine ⟨0, by simp, by simp, fun h => absurd h hp, ?_⟩
      rw [parse_halted_writerCh cx d skipErrors sk wc hp]
      simp [parseResult_nil_writerCh]

end ParseAllLemmas

/-! ## Lemmas: the loop of `startParser` and its data slices -/

section StreamLemmas

variable {E W R V T : Type}

theorem splitBuffer_none (buffer : List Byte)
    (h : (FindAllIndex r buffer).getLast? = none) :
    splitBuffer (E := E) buffer
      = Except.error (Halt.exit malformedMessage Cause.headerNotFound) := by
  have hnil := List.getLast?_eq_none_iff.mp h
  unfold splitBuffer
  simp [hnil, ErrorAndExit]

theorem splitBuffer_some (buffer : List Byte) (i e : Nat)
    (h : (FindAllIndex r buffer).getLast? = some (i, e)) :
    splitBuffer (E := E) buffer = Except.ok (buffer.take i, buffer.drop i) := by
  have hne : (FindAllIndex r buffer).length ≠ 0 := by
    intro h0
    rw [List.length_eq_zero.mp h0] at h
    simp at h
  unfold splitBuffer
  simp only [hne, if_false, h]

/-- The loop of `startParser` is the sequence of the calls of `parse` on the data
slices, but for the run that `splitBuffer` ends for want of a header. -/
theorem startParserLoop_eq (cx : Thrift E W R V T) (skipErrors : Bool) :
    ∀ (chunks : List (List Byte)) (buffer : List Byte) (sk : Int) (wc : writerChannel T V),
      startParserLoop cx skipErrors chunks buffer sk wc
          = parseAll cx skipErrors (dataSlices chunks buffer) sk wc ∨
        ((parseAll cx skipErrors (dataSlices chunks buffer) sk wc).halted = none ∧
          ¬ splitsOk chunks buffer ∧
          startParserLoop cx skipErrors chunks buffer sk wc
            = ⟨(parseAll cx skipErrors (dataSlices chunks buffer) sk wc).writerCh,
                (parseAll cx skipErrors (dataSlices chunks buffer) sk wc).skippedCount,
                some (Halt.exit malformedMessage Cause.headerNotFound)⟩) := by
  intro chunks
  induction chunks with
  | nil =>
    intro buffer sk wc
    left
    simp only [startParserLoop, dataSlices]
    rw [parseAll_singleton]
  | cons c cs ih =>
    intro buffer sk wc
    cases hl : (FindAllIndex r (buffer ++ c)).getLast? with
    | none =>
      right
      simp only [startParserLoop, dataSlices, hl, splitBuffer_none _ hl, parseAll]
      refine ⟨trivial, ?_, trivial⟩
      intro hs
      obtain ⟨i, e, h1, _⟩ := hs
      rw [hl] at h1
      cases h1
    | some m =>
      obtain ⟨i, e⟩ := m
      simp only [startParserLoop, dataSlices, hl, splitBuffer_some _ i e hl]
      by_cases hp : (parse cx ((buffer ++ c).take i) skipErrors sk wc).halted = none
      · have hd := parse_returns_succeeds cx _ skipErrors sk wc hp
        rw [parseAll_cons_of_succeeds cx skipErrors _ _ sk wc hd]
        rw [parse_of_succeeds cx _ skipErrors sk wc hd]
        have hh := parseResult_halted cx sk wc (groups ((buffer ++ c).take i))
        cases hpr : parseResult cx sk wc (groups ((buffer ++ c).take i)) with
        | mk w s hlt =>
          rw [hpr] at hh
          simp only [] at hh
          subst hh
          simp only []
          rcases ih ((buffer ++ c).drop i) s w with h1 | ⟨h1, h2, h3⟩
          · left; exact h1
          · right
            refine ⟨h1, ?_, h3⟩
            intro hs
            obtain ⟨i1, e1, g1, g2⟩ := hs
            rw [hl] at g1
            injection g1 with g1
            injection g1 with g1 _
            subst g1
            exact h2 g2
      · left
        rw [parseAll_cons_of_halted cx skipErrors _ _ sk wc hp]
        cases hpr : parse cx ((buffer ++ c).take i) skipErrors sk wc with
        | mk w s hlt =>
          rw [hpr] at hp
          cases hlt with
          | none => exact absurd rfl hp
          | some x => rfl

theorem startParserLoop_of_splitsOk (cx : Thrift E W R V T) (skipErrors : Bool)
    (chunks : List (List Byte)) (buffer : List Byte) (sk : Int) (wc : writerChannel T V)
    (h : splitsOk chunks buffer) :
    startParserLoop cx skipErrors chunks buffer sk wc
      = parseAll cx skipErrors (dataSlices chunks buffer) sk wc := by
  rcases startParserLoop_eq cx skipErrors chunks buffer sk wc with h1 | ⟨_, h2, _⟩
  · exact h1
  · exact absurd h h2

/-- The data slices are consecutive parts of the input, from its start. -/
theorem dataSlices_flatten_initial :
    ∀ (chunks : List (List Byte)) (buffer : List Byte),
      (dataSlices chunks buffer).flatten <+: buffer ++ chunks.flatten := by
  intro chunks
  induction chunks with
  | nil => intro buffer; simp [dataSlices]
  | cons c cs ih =>
    intro buffer
    cases hl : (FindAllIndex r (buffer ++ c)).getLast? with
    | none => simp [dataSlices, hl]
    | some m =>
      obtain ⟨i, e⟩ := m
      simp only [dataSlices, hl, List.flatten_cons]
      have h1 := ih ((buffer ++ c).drop i)
      have h2 : buffer ++ (c ++ cs.flatten)
          = (buffer ++ c).take i ++ ((buffer ++ c).drop i ++ cs.flatten) := by
        rw [← List.append_assoc ((buffer ++ c).take i), List.take_append_drop,
          List.append_assoc]
      rw [h2]
      exact (List.prefix_append_right_inj _).mpr h1

/-- The matches of a text are still found, in the same places, after more text
is appended. -/
theorem FindAllIndex_append_extends :
    ∀ (n : Nat) (s : List Byte), s.length ≤ n →
      ∀ x, FindAllIndex r s <+: FindAllIndex r (s ++ x) := by
  intro n
  induction n with
  | zero =>
    intro s hs x
    have hnil : s = [] := List.length_eq_zero.mp (by omega)
    subst hnil
    rw [FindAllIndex_nil]
    exact List.nil_prefix
  | succ n ih =>
    intro s hs x
    cases hf : FindAllIndex r s with
    | nil => exact List.nil_prefix
    | cons m rest =>
      obtain ⟨a, b⟩ := m
      obtain ⟨hab, hb, hm, hno, hrest⟩ := FindAllIndex_cons_elim s a b rest hf
      have h1 : matchItems r ((s ++ x).drop a) = some (b - a) := by
        rw [List.drop_append_of_le_length (by omega)]
        exact matchItems_r_append _ _ x hm
      have h2 : ∀ j, j < a → matchItems r ((s ++ x).drop j) = none := by
        intro j hj
        rw [List.drop_append_of_le_length (by omega)]
        apply r_tail_dominated.2.2 (s.drop j) x (a - j) (hno j hj)
        rw [List.drop_drop, show j + (a - j) = a by omega, hm]
        rfl
      rw [FindAllIndex_cons_intro (s ++ x) a b h1 hab h2, hrest,
        List.drop_append_of_le_length hb]
      have h3 := ih (s.drop b) (by simp only [List.length_drop]; omega) x
      obtain ⟨t, ht⟩ := h3
      refine ⟨shift b t, ?_⟩
      rw [← ht, shift_append]
      simp

theorem FindAllIndex_mem_append (s x : List Byte) (a b : Nat)
    (h : (a, b) ∈ FindAllIndex r s) : (a, b) ∈ FindAllIndex r (s ++ x) :=
  (FindAllIndex_append_extends s.length s (le_refl _) x).subset h

theorem FindAllIndex_ne_nil_of_match (s : List Byte) (j : Nat)
    (h : (matchItems r (s.drop j)).isSome) : FindAllIndex r s ≠ [] := by
  intro h0
  rw [FindAllIndex_eq_nil_iff] at h0
  rw [h0 j] at h
  simp at h

theorem splitsOk_of_match :
    ∀ (chunks : List (List Byte)) (buffer : List Byte),
      (matchItems r buffer).isSome → splitsOk chunks buffer := by
  intro chunks
  induction chunks with
  | nil => intro _ _; trivial
  | cons c cs ih =>
    intro buffer h
    have hne : FindAllIndex r (buffer ++ c) ≠ [] :=
      FindAllIndex_ne_nil_of_match _ 0 (by simpa using matchItems_append_isSome r c buffer h)
    cases hl : (FindAllIndex r (buffer ++ c)).getLast? with
    | none => exact absurd (List.getLast?_eq_none_iff.mp hl) hne
    | some m =>
      obtain ⟨i, e⟩ := m
      have hspec := FindAllIndex_spec r _ i e (List.mem_of_getLast?_eq_some hl)
      exact ⟨i, e, hl, ih _ (by rw [hspec.2.2]; rfl)⟩

theorem splitsOk_of_first_chunk (c : List Byte) (cs : List (List Byte)) (buffer : List Byte)
    (hne : FindAllIndex r (buffer ++ c) ≠ []) : splitsOk (c :: cs) buffer := by
  cases hl : (FindAllIndex r (buffer ++ c)).getLast? with
  | none => exact absurd (List.getLast?_eq_none_iff.mp hl) hne
  | some m =>
    obtain ⟨i, e⟩ := m
    have hspec := FindAllIndex_spec r _ i e (List.mem_of_getLast?_eq_some hl)
    exact ⟨i, e, hl, splitsOk_of_match cs _ (by rw [hspec.2.2]; rfl)⟩


/-- When `splitBuffer` always finds a header, the pieces of the whole input are
the pieces of the first data slice followed by the groups of the other slices,
each of which starts with a header. -/
theorem dataSlices_spec :
    ∀ (chunks : List (List Byte)) (buffer : List Byte), splitsOk chunks buffer →
      ∃ d0 rest, dataSlices chunks buffer = d0 :: rest ∧
        Split r (buffer ++ chunks.flatten) = Split r d0 ++ rest.flatMap groups ∧
        (∀ d ∈ rest, (Split r d).head? = some []) := by
  intro chunks
  induction chunks with
  | nil =>
    intro buffer _
    exact ⟨buffer, [], rfl, by simp, by simp⟩
  | cons c cs ih =>
    intro buffer hs
    obtain ⟨i, e, hl, hs1⟩ := hs
    obtain ⟨d1, rest1, g1, g2, g3⟩ := ih _ hs1
    have hmem := List.mem_of_getLast?_eq_some hl
    have hspec := FindAllIndex_spec r _ i e hmem
    have hmemX := FindAllIndex_mem_append (buffer ++ c) cs.flatten i e hmem
    obtain ⟨_, _, c3, c4⟩ := FindAllIndex_cut _ _ (le_refl _) i e hmemX
    rw [List.take_append_of_le_length (by omega),
      List.drop_append_of_le_length (by omega)] at c3
    rw [List.drop_append_of_le_length (by omega)] at c4
    rw [g2] at c3 c4
    rw [List.tail_append_of_ne_nil (Split_ne_nil d1)] at c3
    rw [List.head?_append_of_ne_nil _ (Split_ne_nil d1)] at c4
    refine ⟨(buffer ++ c).take i, d1 :: rest1, ?_, ?_, ?_⟩
    · simp only [dataSlices, hl, g1]
    · rw [List.flatten_cons, ← List.append_assoc, c3]
      simp [groups]
    · intro d hd
      rcases List.mem_cons.mp hd with rfl | hd
      · exact c4
      · exact g3 d hd

theorem slices_groups (d0 W : List Byte) (rest : List (List Byte))
    (h : Split r W = Split r d0 ++ rest.flatMap groups) :
    groups W = (d0 :: rest).flatMap groups ∧ (Split r W).head? = (Split r d0).head? := by
  constructor
  · show (Split r W).tail = (d0 :: rest).flatMap groups
    rw [h, List.tail_append_of_ne_nil (Split_ne_nil d0)]
    simp [groups]
  · rw [h, List.head?_append_of_ne_nil _ (Split_ne_nil d0)]

/-- The calls of `parse` on the slices all return exactly when a single call on
the whole input would. -/
theorem slices_succeed_iff (cx : Thrift E W R V T) (skipErrors : Bool)
    (wc : writerChannel T V) (d0 X : List Byte) (rest : List (List Byte))
    (h1 : Split r X = Split r d0 ++ rest.flatMap groups)
    (h2 : ∀ d ∈ rest, (Split r d).head? = some []) :
    (∀ x ∈ d0 :: rest, parseSucceeds cx skipErrors wc (Split r x))
      ↔ parseSucceeds cx skipErrors wc (Split r X) := by
  obtain ⟨hg, hh⟩ := slices_groups d0 X rest h1
  have htail : (Split r X).tail = (d0 :: rest).flatMap groups := hg
  constructor
  · intro hall
    have h0 := hall d0 (List.mem_cons_self _ _)
    unfold parseSucceeds
    rw [htail, hh]
    refine ⟨h0.1, ?_, ?_, ?_⟩
    · intro g hgm
      obtain ⟨x, hx, hgx⟩ := List.mem_flatMap.mp hgm
      exact (hall x hx).2.1 g hgx
    · intro hty
      refine ⟨?_, ?_, ?_⟩
      · intro g hgm
        obtain ⟨x, hx, hgx⟩ := List.mem_flatMap.mp hgm
        exact ((hall x hx).2.2.1 hty).1 g hgx
      · intro hq
        rw [List.filterMap_eq_nil_iff]
        intro g hgm
        obtain ⟨x, hx, hgx⟩ := List.mem_flatMap.mp hgm
        exact List.filterMap_eq_nil_iff.mp (((hall x hx).2.2.1 hty).2.1 hq) g hgx
      · intro g hgm
        obtain ⟨x, hx, hgx⟩ := List.mem_flatMap.mp hgm
        exact ((hall x hx).2.2.1 hty).2.2 g hgx
    · intro hty
      refine ⟨?_, ?_⟩
      · intro g hgm
        obtain ⟨x, hx, hgx⟩ := List.mem_flatMap.mp hgm
        exact ((hall x hx).2.2.2 hty).1 g hgx
      · intro hq
        rw [List.filterMap_eq_nil_iff]
        intro g hgm
        obtain ⟨x, hx, hgx⟩ := List.mem_flatMap.mp hgm
        exact List.filterMap_eq_nil_iff.mp (((hall x hx).2.2.2 hty).2 hq) g hgx
  · intro hX x hx
    unfold parseSucceeds at hX
    rw [htail, hh] at hX
    obtain ⟨k1, k2, k3, k4⟩ := hX
    have hsub : ∀ g ∈ (Split r x).tail, g ∈ (d0 :: rest).flatMap groups :=
      fun g hgm => List.mem_flatMap.mpr ⟨x, hx, hgm⟩
    refine ⟨?_, fun g hgm => k2 g (hsub g hgm), ?_, ?_⟩
    · rcases List.mem_cons.mp hx with rfl | hx
      · exact k1
      · exact h2 x hx
    · intro hty
      refine ⟨fun g hgm => (k3 hty).1 g (hsub g hgm), fun hq => ?_,
        fun g hgm => (k3 hty).2.2 g (hsub g hgm)⟩
      rw [List.filterMap_eq_nil_iff]
      intro g hgm
      exact List.filterMap_eq_nil_iff.mp ((k3 hty).2.1 hq) g (hsub g hgm)
    · intro hty
      refine ⟨fun g hgm => (k4 hty).1 g (hsub g hgm), fun hq => ?_⟩
      rw [List.filterMap_eq_nil_iff]
      intro g hgm
      exact List.filterMap_eq_nil_iff.mp ((k4 hty).2 hq) g (hsub g hgm)

/-- When the first chunk holds a header, how the run ends depends on the whole
input only: `startParser` returns exactly when one call of `parse` on the
whole input would, and then leaves what that call would leave. -/
theorem startParser_of_header (cx : Thrift E W R V T) (c : List Byte)
    (cs : List (List Byte)) (wc : writerChannel T V) (skipErrors : Bool) (sk : Int)
    (h : FindAllIndex r c ≠ []) :
    ((startParser cx (c :: cs) wc skipErrors sk).halted = none
      ↔ parseSucceeds cx skipErrors wc (Split r (c :: cs).flatten)) ∧
    (parseSucceeds cx skipErrors wc (Split r (c :: cs).flatten) →
      startParser cx (c :: cs) wc skipErrors sk
        = parseResult cx sk wc (groups (c :: cs).flatten)) := by
  have hs : splitsOk (c :: cs) [] := splitsOk_of_first_chunk c cs [] (by simpa using h)
  obtain ⟨d0, rest, g1, g2, g3⟩ := dataSlices_spec (c :: cs) [] hs
  rw [List.nil_append] at g2
  have hrun : startParser cx (c :: cs) wc skipErrors sk
      = parseAll cx skipErrors (d0 :: rest) sk wc := by
    unfold startParser
    rw [startParserLoop_of_splitsOk cx skipErrors _ _ sk wc hs, g1]
  have hiff := slices_succeed_iff cx skipErrors wc d0 _ rest g2 g3
  have hok : parseSucceeds cx skipErrors wc (Split r (c :: cs).flatten) →
      startParser cx (c :: cs) wc skipErrors sk
        = parseResult cx sk wc (groups (c :: cs).flatten) := by
    intro hX
    rw [hrun, parseAll_of_succeeds cx skipErrors rest d0 sk wc (hiff.mpr hX),
      (slices_groups d0 _ rest g2).1]
  refine ⟨⟨fun hh => ?_, fun hX => ?_⟩, hok⟩
  · rw [hrun] at hh
    exact hiff.mp (parseAll_returns cx skipErrors _ sk wc hh)
  · rw [hok hX]
    exact parseResult_halted cx sk wc _


theorem parseAll_append_fail (cx : Thrift E W R V T) (skipErrors : Bool) :
    ∀ (pre : List (List Byte)) (d : List Byte) (post : List (List Byte)) (sk : Int)
      (wc : writerChannel T V),
      (∀ x ∈ pre, parseSucceeds cx skipErrors wc (Split r x)) →
      ¬ parseSucceeds cx skipErrors wc (Split r d) →
      (parseAll cx skipErrors (pre ++ d :: post) sk wc).writerCh
          = (parseResult cx sk wc (pre.flatMap groups)).writerCh ∧
      ∃ sk1 h, (parseAll cx skipErrors (pre ++ d :: post) sk wc).halted = some h ∧
        (parse cx d skipErrors sk1 (parseResult cx sk wc (pre.flatMap groups)).writerCh).halted
          = some h := by
  intro pre
  induction pre with
  | nil =>
    intro d post sk wc _ hd
    have hp : (parse cx d skipErrors sk wc).halted ≠ none :=
      fun h0 => hd (parse_returns_succeeds cx d skipErrors sk wc h0)
    simp only [List.nil_append, List.flatMap_nil]
    rw [parseAll_cons_of_halted cx skipErrors d post sk wc hp, parseResult_nil_writerCh]
    refine ⟨parse_halted_writerCh cx d skipErrors sk wc hp, sk, ?_⟩
    cases hh : (parse cx d skipErrors sk wc).halted with
    | none => exact absurd hh hp
    | some h => exact ⟨h, rfl, rfl⟩
  | cons p pre ih =>
    intro d post sk wc hpre hd
    have hp := hpre p (List.mem_cons_self _ _)
    simp only [List.cons_append]
    rw [parseAll_cons_of_succeeds cx skipErrors p _ sk wc hp]
    obtain ⟨h1, sk1, h, h2, h3⟩ := ih d post (parseResult cx sk wc (groups p)).skippedCount
      (parseResult cx sk wc (groups p)).writerCh
      (fun x hx => (parseSucceeds_parseResult cx skipErrors sk wc (groups p) _).mpr
        (hpre x (List.mem_cons_of_mem _ hx)))
      (fun h0 => hd ((parseSucceeds_parseResult cx skipErrors sk wc (groups p) _).mp h0))
    rw [parseResult_parseResult] at h1 h3
    refine ⟨by simpa using h1, sk1, h, h2, by simpa using h3⟩

theorem filterMap_map_some_sublist {α β : Type} (f : α → Option β) (l : List α) :
    List.Sublist ((l.filterMap f).map some) (l.map f) := by
  induction l with
  | nil => simp
  | cons a l ih =>
    cases h : f a with
    | none =>
      simp only [List.filterMap_cons, h, List.map_cons]
      exact List.Sublist.cons _ ih
    | some b =>
      simp only [List.filterMap_cons, h, List.map_cons]
      exact List.Sublist.cons₂ _ ih

theorem filterMap_map_some_of_ne_none {α β : Type} (f : α → Option β) (l : List α)
    (h : ∀ a ∈ l, f a ≠ none) : (l.filterMap f).map some = l.map f := by
  induction l with
  | nil => simp
  | cons a l ih =>
    have ha := h a (List.mem_cons_self _ _)
    cases hf : f a with
    | none => exact absurd hf ha
    | some b =>
      simp only [List.filterMap_cons, hf, List.map_cons]
      rw [ih (fun x hx => h x (List.mem_cons_of_mem _ hx))]

theorem flatMap_initial {α β : Type} (f : α → List β) (l1 l2 : List α) (h : l1 <+: l2) :
    l1.flatMap f <+: l2.flatMap f := by
  obtain ⟨t, rfl⟩ := h
  rw [List.flatMap_append]
  exact List.prefix_append _ _

/-- The groups of the data slices on which `parse` was called are the first
groups of the whole input. -/
theorem dataSlices_groups_initial (chunks : List (List Byte)) :
    (dataSlices chunks []).flatMap groups <+: groups chunks.flatten := by
  cases chunks with
  | nil => simp [dataSlices, groups, Split]
  | cons c cs =>
    by_cases h : FindAllIndex r c = []
    · have hl : (FindAllIndex r ([] ++ c)).getLast? = none := by simp [h]
      simp only [dataSlices, hl, List.flatMap_nil]
      exact List.nil_prefix
    · have hs : splitsOk (c :: cs) [] := splitsOk_of_first_chunk c cs [] (by simpa using h)
      obtain ⟨d0, rest, g1, g2, _⟩ := dataSlices_spec (c :: cs) [] hs
      rw [List.nil_append] at g2
      rw [g1, (slices_groups d0 _ rest g2).1]

/-- In every run the channel holds, after what it held, the messages of the first
frames of the whole input, in their order. -/
theorem startParser_writerCh (cx : Thrift E W R V T) (chunks : List (List Byte))
    (wc : writerChannel T V) (skipErrors : Bool) (sk : Int) :
    ∃ frames, frames <+: groups chunks.flatten ∧
      (startParser cx chunks wc skipErrors sk).writerCh
        = (parseResult cx sk wc frames).writerCh := by
  have hw : (startParser cx chunks wc skipErrors sk).writerCh
      = (parseAll cx skipErrors (dataSlices chunks []) sk wc).writerCh := by
    unfold startParser
    rcases startParserLoop_eq cx skipErrors chunks [] sk wc with h1 | ⟨_, _, h3⟩
    · rw [h1]
    · rw [h3]
  obtain ⟨n, _, _, _, h4⟩ := parseAll_writerCh cx skipErrors (dataSlices chunks []) sk wc
  refine ⟨((dataSlices chunks []).take n).flatMap groups, ?_, by rw [hw, h4]⟩
  exact (flatMap_initial groups _ _ ( List.take_prefix n _)).trans
    (dataSlices_groups_initial chunks)

end StreamLemmas

/-! ## Lemmas: filters -/

section FilterLemmas
variable {Blob : Type}

theorem buildFilterFn_of_attributes (workflowID runID : List Byte) (task : ReplicationTask Blob)
    (a : HistoryTaskV2Attributes Blob) (h : task.HistoryTaskV2Attributes = some a) :
    buildFilterFn workflowID runID task =
      some (decide ((workflowID = [] ∨ a.WorkflowID = workflowID) ∧
        (runID = [] ∨ a.RunID = runID))) := by
  unfold buildFilterFn ReplicationTask.GetHistoryTaskV2Attributes
  rw [h]
  by_cases hw : workflowID = [] <;> by_cases hr : runID = [] <;>
    by_cases h1 : a.WorkflowID = workflowID <;> by_cases h2 : a.RunID = runID <;>
    simp [hw, hr, h1, h2, List.length_eq_zero]

theorem buildFilterFn_of_nil (workflowID runID : List Byte) (task : ReplicationTask Blob)
    (h : task.HistoryTaskV2Attributes = none) :
    buildFilterFn workflowID runID task =
      some (decide (workflowID = [] ∧ runID = [])) := by
  unfold buildFilterFn ReplicationTask.GetHistoryTaskV2Attributes
  rw [h]
  by_cases hw : workflowID = [] <;> by_cases hr : runID = [] <;>
    simp [hw, hr, List.length_eq_zero]

theorem buildFilterFnForVisibility_eq (workflowID runID : List Byte) (msg : Message) :
    buildFilterFnForVisibility workflowID runID msg =
      decide ((workflowID = [] ∨ msg.GetWorkflowID = workflowID) ∧
        (runID = [] ∨ msg.GetRunID = runID)) := by
  unfold buildFilterFnForVisibility
  by_cases hw : workflowID = [] <;> by_cases hr : runID = [] <;>
    by_cases h1 : msg.GetWorkflowID = workflowID <;> by_cases h2 : msg.GetRunID = runID <;>
    simp [hw, hr, h1, h2, List.length_eq_zero]

theorem ids_of_map_some (task : ReplicationTask Blob) (w x : List Byte)
    (h : task.HistoryTaskV2Attributes.map (fun a => (a.WorkflowID, a.RunID)) = some (w, x)) :
    ∃ a, task.HistoryTaskV2Attributes = some a ∧ a.WorkflowID = w ∧ a.RunID = x := by
  cases ha : task.HistoryTaskV2Attributes with
  | none => rw [ha] at h; simp at h
  | some a =>
    rw [ha] at h
    simp only [Option.map_some', Option.some.injEq, Prod.mk.injEq] at h
    exact ⟨a, rfl, h.1, h.2⟩

end FilterLemmas

/-! ## Lemmas: serialisation and the writers -/

section WriterLemmas

variable {E Blob H : Type}

theorem wrapInt32_of_range (x : Int) (h1 : -2147483648 ≤ x) (h2 : x < 2147483648) :
    wrapInt32 x = x := by
  unfold wrapInt32; omega

theorem decodeReplicationTask_returns_ids (cd : Codec E Blob H) (task task1 : ReplicationTask Blob)
    (res : Except E (List Byte)) (h : decodeReplicationTask cd task = some (res, task1)) :
    task1.TaskType = task.TaskType ∧
    task1.HistoryTaskV2Attributes.map (fun a => (a.DomainID, a.WorkflowID, a.RunID)) =
      task.HistoryTaskV2Attributes.map (fun a => (a.DomainID, a.WorkflowID, a.RunID)) := by
  unfold decodeReplicationTask ReplicationTask.GetHistoryTaskV2Attributes at h
  split at h
  · cases ha : task.HistoryTaskV2Attributes with
    | none => rw [ha] at h; simp at h
    | some a =>
      rw [ha] at h
      simp only [] at h
      cases hb : a.Events with
      | none => rw [hb] at h; simp at h
      | some blob =>
        rw [hb] at h
        simp only [] at h
        cases hev : cd.DeserializeBatchEvents blob with
        | none => rw [hev] at h; simp at h
        | some res1 =>
          rw [hev] at h
          cases res1 with
          | error err =>
            simp only [Option.some.injEq, Prod.mk.injEq] at h
            rw [← h.2, ha]; exact ⟨rfl, rfl⟩
          | ok events =>
            simp only [] at h
            split at h
            · simp at h
            · simp only [Option.some.injEq, Prod.mk.injEq] at h
              rw [← h.2, ha]; exact ⟨rfl, rfl⟩
            · simp only [Option.some.injEq, Prod.mk.injEq] at h
              rw [← h.2]; exact ⟨rfl, rfl⟩
  · simp only [Option.some.injEq, Prod.mk.injEq] at h
    rw [← h.2]; exact ⟨rfl, rfl⟩

/-- A history v2 task whose events blob is `nil` makes `decodeReplicationTask`
panic, whatever its new-run blob is. -/
theorem decodeReplicationTask_nil_events (cd : Codec E Blob H) (task : ReplicationTask Blob)
    (a : HistoryTaskV2Attributes Blob)
    (htype : task.GetTaskType = ReplicationTaskTypeHistoryV2)
    (ha : task.HistoryTaskV2Attributes = some a) (hb : a.Events = none) :
    decodeReplicationTask cd task = none := by
  unfold decodeReplicationTask ReplicationTask.GetHistoryTaskV2Attributes
  rw [if_pos htype, ha]
  simp only []
  rw [hb]

theorem writeReplicationTaskLoop_reject (cd : Codec E Blob H) (workflowID runID : List Byte)
    (skipErrMode headerMode : Bool) (task : ReplicationTask Blob)
    (rest : List (ReplicationTask Blob)) (outputFile : OutputFile E) (skippedCount : Int)
    (hf : buildFilterFn workflowID runID task = some false) :
    writeReplicationTaskLoop cd workflowID runID skipErrMode headerMode (task :: rest) outputFile
        skippedCount =
      writeReplicationTaskLoop cd workflowID runID skipErrMode headerMode rest outputFile
        skippedCount := by
  conv_lhs => rw [writeReplicationTaskLoop]
  rw [hf]

theorem writeReplicationTaskLoop_encode_fail (cd : Codec E Blob H) (workflowID runID : List Byte)
    (skipErrMode headerMode : Bool) (task task1 : ReplicationTask Blob) (err : E)
    (rest : List (ReplicationTask Blob)) (outputFile : OutputFile E) (skippedCount : Int)
    (hf : buildFilterFn workflowID runID task = some true)
    (hd : decodeReplicationTask cd task = some (Except.error err, task1)) :
    writeReplicationTaskLoop cd workflowID runID skipErrMode headerMode (task :: rest) outputFile
        skippedCount =
      if skipErrMode = false then
        ⟨outputFile, skippedCount, some (Halt.exit malformedMessage (Cause.encodeError err))⟩
      else
        writeReplicationTaskLoop cd workflowID runID skipErrMode headerMode rest outputFile
          (wrapInt32 (skippedCount + 1)) := by
  conv_lhs => rw [writeReplicationTaskLoop]
  rw [hf]
  simp only []
  rw [hd]
  cases skipErrMode <;> rfl

theorem writeReplicationTaskLoop_header (cd : Codec E Blob H) (workflowID runID : List Byte)
    (skipErrMode : Bool) (task task1 : ReplicationTask Blob) (jsonStr : List Byte)
    (a : HistoryTaskV2Attributes Blob)
    (rest : List (ReplicationTask Blob)) (outputFile : OutputFile E) (skippedCount : Int)
    (hf : buildFilterFn workflowID runID task = some true)
    (hd : decodeReplicationTask cd task = some (Except.ok jsonStr, task1))
    (ha : task.HistoryTaskV2Attributes = some a)
    (hw : outputFile.failure outputFile.written
      (a.DomainID ++ ascii ", " ++ a.WorkflowID ++ ascii ", " ++ a.RunID ++ ascii "\n") = none) :
    writeReplicationTaskLoop cd workflowID runID skipErrMode true (task :: rest) outputFile
        skippedCount =
      writeReplicationTaskLoop cd workflowID runID skipErrMode true rest
        ⟨outputFile.written ++
          [a.DomainID ++ ascii ", " ++ a.WorkflowID ++ ascii ", " ++ a.RunID ++ ascii "\n"],
          outputFile.failure⟩ skippedCount := by
  obtain ⟨-, hids⟩ := decodeReplicationTask_returns_ids cd task task1 _ hd
  rw [ha] at hids
  cases h1 : task1.HistoryTaskV2Attributes with
  | none => rw [h1] at hids; simp at hids
  | some a1 =>
    rw [h1] at hids
    simp only [Option.map_some', Option.some.injEq, Prod.mk.injEq] at hids
    obtain ⟨e1, e2, e3⟩ := hids
    conv_lhs => rw [writeReplicationTaskLoop]
    rw [hf]
    simp only []
    rw [hd]
    simp only [Bool.not_true, Bool.false_eq_true, if_false,
      ReplicationTask.GetHistoryTaskV2Attributes, h1, e1, e2, e3, OutputFile.WriteString, hw]

theorem writeVisibilityMessageLoop_reject (cd : Codec E Blob H) (workflowID runID : List Byte)
    (skipErrMode headerMode : Bool) (msg : Message) (rest : List Message)
    (outputFile : OutputFile E) (skippedCount : Int)
    (hf : buildFilterFnForVisibility workflowID runID msg = false) :
    writeVisibilityMessageLoop cd workflowID runID skipErrMode headerMode (msg :: rest) outputFile
        skippedCount =
      writeVisibilityMessageLoop cd workflowID runID skipErrMode headerMode rest outputFile
        skippedCount := by
  conv_lhs => rw [writeVisibilityMessageLoop]
  rw [hf]; rfl

theorem writeVisibilityMessageLoop_encode_fail (cd : Codec E Blob H)
    (workflowID runID : List Byte) (skipErrMode headerMode : Bool) (msg : Message) (err : E)
    (rest : List Message) (outputFile : OutputFile E) (skippedCount : Int)
    (hf : buildFilterFnForVisibility workflowID runID msg = true)
    (hd : cd.marshalMessage msg = Except.error err) :
    writeVisibilityMessageLoop cd workflowID runID skipErrMode headerMode (msg :: rest) outputFile
        skippedCount =
      if skipErrMode = false then
        ⟨outputFile, skippedCount, some (Halt.exit malformedMessage (Cause.encodeError err))⟩
      else
        writeVisibilityMessageLoop cd workflowID runID skipErrMode headerMode rest outputFile
          (wrapInt32 (skippedCount + 1)) := by
  conv_lhs => rw [writeVisibilityMessageLoop]
  rw [hf, if_pos rfl]
  simp only []
  rw [hd]
  cases skipErrMode <;> rfl

theorem writeVisibilityMessageLoop_header (cd : Codec E Blob H) (workflowID runID : List Byte)
    (skipErrMode : Bool) (msg : Message) (jsonStr : List Byte) (rest : List Message)
    (outputFile : OutputFile E) (skippedCount : Int)
    (hf : buildFilterFnForVisibility workflowID runID msg = true)
    (hd : cd.marshalMessage msg = Except.ok jsonStr)
    (hw : outputFile.failure outputFile.written
      (msg.GetDomainID ++ ascii ", " ++ msg.GetWorkflowID ++ ascii ", " ++ msg.GetRunID
        ++ ascii ", " ++ cd.messageTypeString msg.GetMessageType ++ ascii ", "
        ++ formatInt msg.GetVersion ++ ascii "\n") = none) :
    writeVisibilityMessageLoop cd workflowID runID skipErrMode true (msg :: rest) outputFile
        skippedCount =
      writeVisibilityMessageLoop cd workflowID runID skipErrMode true rest
        ⟨outputFile.written ++
          [msg.GetDomainID ++ ascii ", " ++ msg.GetWorkflowID ++ ascii ", " ++ msg.GetRunID
            ++ ascii ", " ++ cd.messageTypeString msg.GetMessageType ++ ascii ", "
            ++ formatInt msg.GetVersion ++ ascii "\n"],
          outputFile.failure⟩ skippedCount := by
  conv_lhs => rw [writeVisibilityMessageLoop]
  rw [hf, if_pos rfl]
  simp only []
  rw [hd]
  simp only [Bool.not_true, Bool.false_eq_true, if_false, OutputFile.WriteString, hw]

theorem writeReplicationTaskLoop_skippedCount (cd : Codec E Blob H)
    (workflowID runID : List Byte) (skipErrMode headerMode : Bool)
    (tasks : List (ReplicationTask Blob)) (outputFile : OutputFile E) (skippedCount : Int)
    (h1 : -2147483648 ≤ skippedCount) (h2 : skippedCount + tasks.length < 2147483648) :
    skippedCount ≤ (writeReplicationTaskLoop cd workflowID runID skipErrMode headerMode tasks
      outputFile skippedCount).skippedCount ∧
    (writeReplicationTaskLoop cd workflowID runID skipErrMode headerMode tasks
      outputFile skippedCount).skippedCount ≤ skippedCount + tasks.length := by
  induction tasks generalizing outputFile skippedCount with
  | nil => simp [writeReplicationTaskLoop]
  | cons task rest ih =>
    rw [List.length_cons] at h2
    push_cast at h2
    have hsame : ∀ f : OutputFile E,
        skippedCount ≤ (writeReplicationTaskLoop cd workflowID runID skipErrMode headerMode rest
          f skippedCount).skippedCount ∧
        (writeReplicationTaskLoop cd workflowID runID skipErrMode headerMode rest
          f skippedCount).skippedCount ≤ skippedCount + ((rest.length + 1 : Nat) : Int) := by
      intro f
      have := ih f skippedCount h1 (by omega)
      push_cast
      omega
    have hstop : ∀ (f : OutputFile E) (h : Option (Halt E)),
        skippedCount ≤ (WriterRun.mk f skippedCount h).skippedCount ∧
        (WriterRun.mk f skippedCount h).skippedCount
          ≤ skippedCount + ((rest.length + 1 : Nat) : Int) := by
      intro f h
      show skippedCount ≤ skippedCount ∧ skippedCount ≤ _
      push_cast
      omega
    rw [List.length_cons, writeReplicationTaskLoop]
    cases hf : buildFilterFn workflowID runID task with
    | none => exact hstop _ _
    | some b =>
      cases b with
      | false => exact hsame _
      | true =>
        simp only []
        cases hd : decodeReplicationTask cd task with
        | none => exact hstop _ _
        | some p =>
          obtain ⟨res, task1⟩ := p
          cases res with
          | error err =>
            simp only []
            cases skipErrMode with
            | false => exact hstop _ _
            | true =>
              simp only [Bool.not_true, Bool.false_eq_true, if_false]
              have hw : wrapInt32 (skippedCount + 1) = skippedCount + 1 :=
                wrapInt32_of_range _ (by omega) (by omega)
              rw [hw]
              have := ih outputFile (skippedCount + 1) (by omega) (by omega)
              push_cast
              omega
          | ok jsonStr =>
            simp only []
            split
            · exact hstop _ _
            · split
              · exact hstop _ _
              · exact hsame _

theorem writeVisibilityMessageLoop_skippedCount (cd : Codec E Blob H)
    (workflowID runID : List Byte) (skipErrMode headerMode : Bool)
    (msgs : List Message) (outputFile : OutputFile E) (skippedCount : Int)
    (h1 : -2147483648 ≤ skippedCount) (h2 : skippedCount + msgs.length < 2147483648) :
    skippedCount ≤ (writeVisibilityMessageLoop cd workflowID runID skipErrMode headerMode msgs
      outputFile skippedCount).skippedCount ∧
    (writeVisibilityMessageLoop cd workflowID runID skipErrMode headerMode msgs
      outputFile skippedCount).skippedCount ≤ skippedCount + msgs.length := by
  induction msgs generalizing outputFile skippedCount with
  | nil => simp [writeVisibilityMessageLoop]
  | cons msg rest ih =>
    rw [List.length_cons] at h2
    push_cast at h2
    have hsame : ∀ f : OutputFile E,
        skippedCount ≤ (writeVisibilityMessageLoop cd workflowID runID skipErrMode headerMode rest
          f skippedCount).skippedCount ∧
        (writeVisibilityMessageLoop cd workflowID runID skipErrMode headerMode rest
          f skippedCount).skippedCount ≤ skippedCount + ((rest.length + 1 : Nat) : Int) := by
      intro f
      have := ih f skippedCount h1 (by omega)
      push_cast
      omega
    have hstop : ∀ (f : OutputFile E) (h : Option (Halt E)),
        skippedCount ≤ (WriterRun.mk f skippedCount h).skippedCount ∧
        (WriterRun.mk f skippedCount h).skippedCount
          ≤ skippedCount + ((rest.length + 1 : Nat) : Int) := by
      intro f h
      show skippedCount ≤ skippedCount ∧ skippedCount ≤ _
      push_cast
      omega
    rw [List.length_cons, writeVisibilityMessageLoop]
    split
    · cases hd : cd.marshalMessage msg with
      | error err =>
        simp only []
        cases skipErrMode with
        | false => exact hstop _ _
        | true =>
          simp only [Bool.not_true, Bool.false_eq_true, if_false]
          have hw : wrapInt32 (skippedCount + 1) = skippedCount + 1 :=
            wrapInt32_of_range _ (by omega) (by omega)
          rw [hw]
          have := ih outputFile (skippedCount + 1) (by omega) (by omega)
          push_cast
          omega
      | ok jsonStr =>
        simp only []
        split
        · exact hstop _ _
        · exact hsame _
    · exact hsame _

end WriterLemmas

/-! ## Lemmas: the skip counter -/

section CounterLemmas

variable {E W R V T Blob H : Type}

theorem wrapInt32_congr_add (a a1 b : Int) (h : wrapInt32 a = wrapInt32 a1) :
    wrapInt32 (a + b) = wrapInt32 (a1 + b) := by
  rw [← wrapInt32_add_left a b, h, wrapInt32_add_left]

theorem Split_length_le (n : Nat) : ∀ s : List Byte, s.length ≤ n →
    (Split r s).length ≤ s.length + 1 := by
  induction n with
  | zero =>
    intro s hs
    have : s = [] := List.length_eq_zero.mp (Nat.le_zero.mp hs)
    subst this
    rw [Split_of_no_match [] (FindAllIndex_nil r)]
    simp
  | succ n ih =>
    intro s hs
    cases hF : FindAllIndex r s with
    | nil => rw [Split_of_no_match s hF]; simp
    | cons m rest =>
      obtain ⟨a, b⟩ := m
      obtain ⟨hab, hb, -, -, -⟩ := FindAllIndex_cons_elim s a b rest hF
      rw [Split_of_first_match s a b rest hF, List.length_cons]
      have hd : (s.drop b).length = s.length - b := List.length_drop b s
      have := ih (s.drop b) (by rw [hd]; omega)
      rw [hd] at this
      omega

theorem getMessagesLoop_count (skipErrors : Bool) (ms rawMessages out : List (List Byte))
    (sk s : Int)
    (h : getMessagesLoop (E := E) skipErrors ms rawMessages sk = Except.ok (out, s)) :
    ∃ k : Nat, k + out.length = rawMessages.length + ms.length ∧
      wrapInt32 s = wrapInt32 (sk + (k : Int)) := by
  induction ms generalizing rawMessages sk with
  | nil =>
    simp only [getMessagesLoop, Except.ok.injEq, Prod.mk.injEq] at h
    refine ⟨0, ?_, ?_⟩
    · rw [← h.1]; simp
    · rw [← h.2]; simp
  | cons m ms ih =>
    unfold getMessagesLoop at h
    by_cases hlen : m.length = 0
    · rw [if_pos hlen] at h; simp [ErrorAndExit] at h
    · rw [if_neg hlen] at h
      simp only [] at h
      by_cases hi : bytesIndex m preambleVersion0 = -1
      · rw [if_pos hi] at h
        cases skipErrors with
        | false => simp [ErrorAndExit] at h
        | true =>
          simp only [Bool.not_true, Bool.false_eq_true, if_false] at h
          obtain ⟨k, hk1, hk2⟩ := ih _ _ h
          refine ⟨k + 1, ?_, ?_⟩
          · rw [List.length_cons]; omega
          · rw [hk2, wrapInt32_add_left]
            congr 1; push_cast; ring
      · rw [if_neg hi] at h
        obtain ⟨k, hk1, hk2⟩ := ih _ _ h
        refine ⟨k, ?_, hk2⟩
        rw [List.length_append, List.length_singleton] at hk1
        rw [List.length_cons]; omega

theorem deserializeMessagesLoop_count (cx : Thrift E W R V T) (skipErrors : Bool)
    (ms : List (List Byte)) (acc out : List T) (sk s : Int)
    (h : deserializeMessagesLoop cx skipErrors ms acc sk = Except.ok (out, s)) :
    ∃ k : Nat, k ≤ ms.length ∧ wrapInt32 s = wrapInt32 (sk + (k : Int)) := by
  induction ms generalizing acc sk with
  | nil =>
    simp only [deserializeMessagesLoop, Except.ok.injEq, Prod.mk.injEq] at h
    exact ⟨0, le_refl _, by rw [← h.2]; simp⟩
  | cons m ms ih =>
    unfold deserializeMessagesLoop at h
    cases hd : decode cx m with
    | error e => rw [hd] at h; simp at h
    | ok res =>
      rw [hd] at h
      cases res with
      | error err =>
        simp only [] at h
        cases skipErrors with
        | false => simp [ErrorAndExit] at h
        | true =>
          simp only [Bool.not_true, Bool.false_eq_true, if_false] at h
          obtain ⟨k, hk1, hk2⟩ := ih _ _ h
          refine ⟨k + 1, by rw [List.length_cons]; omega, ?_⟩
          rw [hk2, wrapInt32_add_left]
          congr 1; push_cast; ring
      | ok task =>
        simp only [] at h
        cases hc : cx.toReplicationTask task with
        | none => rw [hc] at h; simp at h
        | some converted =>
          rw [hc] at h
          simp only [] at h
          obtain ⟨k, hk1, hk2⟩ := ih _ _ h
          exact ⟨k, by rw [List.length_cons]; omega, hk2⟩

theorem deserializeVisibilityMessagesLoop_count (cx : Thrift E W R V T) (skipErrors : Bool)
    (ms : List (List Byte)) (acc out : List V) (sk s : Int)
    (h : deserializeVisibilityMessagesLoop cx skipErrors ms acc sk = Except.ok (out, s)) :
    ∃ k : Nat, k ≤ ms.length ∧ wrapInt32 s = wrapInt32 (sk + (k : Int)) := by
  induction ms generalizing acc sk with
  | nil =>
    simp only [deserializeVisibilityMessagesLoop, Except.ok.injEq, Prod.mk.injEq] at h
    exact ⟨0, le_refl _, by rw [← h.2]; simp⟩
  | cons m ms ih =>
    unfold deserializeVisibilityMessagesLoop at h
    cases hd : decodeVisibility cx m with
    | error e => rw [hd] at h; simp at h
    | ok res =>
      rw [hd] at h
      cases res with
      | error err =>
        simp only [] at h
        cases skipErrors with
        | false => simp [ErrorAndExit] at h
        | true =>
          simp only [Bool.not_true, Bool.false_eq_true, if_false] at h
          obtain ⟨k, hk1, hk2⟩ := ih _ _ h
          refine ⟨k + 1, by rw [List.length_cons]; omega, ?_⟩
          rw [hk2, wrapInt32_add_left]
          congr 1; push_cast; ring
      | ok task =>
        simp only [] at h
        obtain ⟨k, hk1, hk2⟩ := ih _ _ h
        exact ⟨k, by rw [List.length_cons]; omega, hk2⟩

theorem getMessages_count (bytes : List Byte) (skipErrors : Bool) (messages : List (List Byte))
    (s : Int) (h : getMessages (E := E) bytes skipErrors = Except.ok (messages, s)) :
    ∃ k : Nat, k + messages.length ≤ bytes.length ∧ wrapInt32 s = wrapInt32 (k : Int) := by
  unfold getMessages at h
  have hlen := Split_length_le bytes.length bytes (le_refl _)
  cases hS : Split r bytes with
  | nil => rw [hS] at h; simp at h
  | cons first mwh =>
    rw [hS] at h hlen
    simp only [] at h
    by_cases hf : first.length ≠ 0
    · rw [if_pos hf] at h; simp [ErrorAndExit] at h
    · rw [if_neg hf] at h
      obtain ⟨k, hk1, hk2⟩ := getMessagesLoop_count skipErrors mwh [] messages 0 s h
      refine ⟨k, ?_, by rw [hk2, zero_add]⟩
      rw [List.length_cons] at hlen
      rw [List.length_nil] at hk1
      omega

theorem added_eq (sk s1 s2 : Int) (k1 k2 : Nat) (h1 : wrapInt32 s1 = wrapInt32 (k1 : Int))
    (h2 : wrapInt32 s2 = wrapInt32 (0 + (k2 : Int))) :
    wrapInt32 (sk + wrapInt32 (s1 + s2)) = wrapInt32 (sk + ((k1 + k2 : Nat) : Int)) := by
  rw [zero_add] at h2
  rw [wrapInt32_add_right]
  have e1 : sk + (s1 + s2) = s1 + (s2 + sk) := by ring
  rw [e1, wrapInt32_congr_add s1 k1 _ h1]
  have e2 : (k1 : Int) + (s2 + sk) = s2 + ((k1 : Int) + sk) := by ring
  rw [e2, wrapInt32_congr_add s2 k2 _ h2]
  congr 1; push_cast; ring

theorem parse_skippedCount (cx : Thrift E W R V T) (bytes : List Byte) (skipErrors : Bool)
    (skippedCount : Int) (writerCh : writerChannel T V) :
    (parse cx bytes skipErrors skippedCount writerCh).skippedCount = skippedCount ∨
    ∃ k : Nat, k ≤ bytes.length ∧
      (parse cx bytes skipErrors skippedCount writerCh).skippedCount
        = wrapInt32 (skippedCount + (k : Int)) := by
  unfold parse
  cases hg : getMessages (E := E) bytes skipErrors with
  | error h => exact Or.inl rfl
  | ok p =>
    obtain ⟨messages, s1⟩ := p
    obtain ⟨k1, hk1, hs1⟩ := getMessages_count bytes skipErrors messages s1 hg
    simp only []
    split
    · cases hd : deserializeMessages cx messages skipErrors with
      | error h => exact Or.inl rfl
      | ok q =>
        obtain ⟨msgs, s2⟩ := q
        obtain ⟨k2, hk2, hs2⟩ := deserializeMessagesLoop_count cx skipErrors messages [] msgs 0 s2 hd
        simp only []
        refine Or.inr ⟨k1 + k2, by omega, ?_⟩
        rw [← added_eq skippedCount s1 s2 k1 k2 hs1 hs2]
        split <;> rfl
    · split
      · cases hd : deserializeVisibilityMessages cx messages skipErrors with
        | error h => exact Or.inl rfl
        | ok q =>
          obtain ⟨msgs, s2⟩ := q
          obtain ⟨k2, hk2, hs2⟩ :=
            deserializeVisibilityMessagesLoop_count cx skipErrors messages [] msgs 0 s2 hd
          simp only []
          refine Or.inr ⟨k1 + k2, by omega, ?_⟩
          rw [← added_eq skippedCount s1 s2 k1 k2 hs1 hs2]
          split <;> rfl
      · exact Or.inl rfl

theorem parse_skippedCount_range (cx : Thrift E W R V T) (bytes : List Byte) (skipErrors : Bool)
    (skippedCount : Int) (writerCh : writerChannel T V)
    (h1 : -2147483648 ≤ skippedCount) (h2 : skippedCount + bytes.length < 2147483648) :
    skippedCount ≤ (parse cx bytes skipErrors skippedCount writerCh).skippedCount ∧
    (parse cx bytes skipErrors skippedCount writerCh).skippedCount
      ≤ skippedCount + bytes.length := by
  rcases parse_skippedCount cx bytes skipErrors skippedCount writerCh with h | ⟨k, hk, h⟩
  · rw [h]; omega
  · rw [h, wrapInt32_of_range _ (by omega) (by omega)]; omega

theorem startParserLoop_skippedCount_range (cx : Thrift E W R V T) (skipErrors : Bool)
    (chunks : List (List Byte)) (buffer : List Byte) (skippedCount : Int)
    (writerCh : writerChannel T V)
    (h1 : -2147483648 ≤ skippedCount)
    (h2 : skippedCount + (buffer.length + chunks.flatten.length : Nat) < 2147483648) :
    skippedCount ≤ (startParserLoop cx skipErrors chunks buffer skippedCount writerCh).skippedCount ∧
    (startParserLoop cx skipErrors chunks buffer skippedCount writerCh).skippedCount
      ≤ skippedCount + (buffer.length + chunks.flatten.length : Nat) := by
  induction chunks generalizing buffer skippedCount writerCh with
  | nil =>
    simp only [List.flatten_nil, List.length_nil, Nat.add_zero] at h2 ⊢
    rw [startParserLoop]
    exact parse_skippedCount_range cx buffer skipErrors skippedCount writerCh h1 h2
  | cons data rest ih =>
    rw [List.flatten_cons, List.length_append] at h2 ⊢
    push_cast at h2 ⊢
    rw [startParserLoop]
    cases hs : splitBuffer (E := E) (buffer ++ data) with
    | error h => simp only []; omega
    | ok p =>
      obtain ⟨data1, nextBuffer⟩ := p
      simp only []
      have hsplit : data1.length + nextBuffer.length = buffer.length + data.length := by
        unfold splitBuffer at hs
        simp only [] at hs
        split at hs
        · simp [ErrorAndExit] at hs
        · split at hs
          · simp at hs
          · simp only [Except.ok.injEq, Prod.mk.injEq] at hs
            rw [← hs.1, ← hs.2, ← List.length_append, List.take_append_drop,
              List.length_append]
      have hp := parse_skippedCount_range cx data1 skipErrors skippedCount writerCh h1
        (by omega)
      cases hr : parse cx data1 skipErrors skippedCount writerCh with
      | mk writerCh1 skippedCount1 halted =>
        rw [hr] at hp
        simp only [] at hp
        cases halted with
        | some h => simp only []; omega
        | none =>
          simp only []
          have := ih nextBuffer skippedCount1 writerCh1 (by omega)
            (by push_cast; omega)
          push_cast at this
          omega

theorem getMessagesLoop_wrapped (skipErrors : Bool) (ms rawMessages out : List (List Byte))
    (sk s : Int) (hsk : wrapInt32 sk = sk)
    (h : getMessagesLoop (E := E) skipErrors ms rawMessages sk = Except.ok (out, s)) :
    wrapInt32 s = s := by
  induction ms generalizing rawMessages sk with
  | nil =>
    simp only [getMessagesLoop, Except.ok.injEq, Prod.mk.injEq] at h
    rw [← h.2]; exact hsk
  | cons m ms ih =>
    unfold getMessagesLoop at h
    by_cases hlen : m.length = 0
    · rw [if_pos hlen] at h; simp [ErrorAndExit] at h
    · rw [if_neg hlen] at h
      simp only [] at h
      by_cases hi : bytesIndex m preambleVersion0 = -1
      · rw [if_pos hi] at h
        cases skipErrors with
        | false => simp [ErrorAndExit] at h
        | true =>
          simp only [Bool.not_true, Bool.false_eq_true, if_false] at h
          exact ih _ _ (wrapInt32_idem _) h
      · rw [if_neg hi] at h
        exact ih _ _ hsk h

theorem deserializeMessagesLoop_wrapped (cx : Thrift E W R V T) (skipErrors : Bool)
    (ms : List (List Byte)) (acc out : List T) (sk s : Int) (hsk : wrapInt32 sk = sk)
    (h : deserializeMessagesLoop cx skipErrors ms acc sk = Except.ok (out, s)) :
    wrapInt32 s = s := by
  induction ms generalizing acc sk with
  | nil =>
    simp only [deserializeMessagesLoop, Except.ok.injEq, Prod.mk.injEq] at h
    rw [← h.2]; exact hsk
  | cons m ms ih =>
    unfold deserializeMessagesLoop at h
    cases hd : decode cx m with
    | error e => rw [hd] at h; simp at h
    | ok res =>
      rw [hd] at h
      cases res with
      | error err =>
        simp only [] at h
        cases skipErrors with
        | false => simp [ErrorAndExit] at h
        | true =>
          simp only [Bool.not_true, Bool.false_eq_true, if_false] at h
          exact ih _ _ (wrapInt32_idem _) h
      | ok task =>
        simp only [] at h
        cases hc : cx.toReplicationTask task with
        | none => rw [hc] at h; simp at h
        | some converted =>
          rw [hc] at h
          simp only [] at h
          exact ih _ _ hsk h

theorem deserializeVisibilityMessagesLoop_wrapped (cx : Thrift E W R V T) (skipErrors : Bool)
    (ms : List (List Byte)) (acc out : List V) (sk s : Int) (hsk : wrapInt32 sk = sk)
    (h : deserializeVisibilityMessagesLoop cx skipErrors ms acc sk = Except.ok (out, s)) :
    wrapInt32 s = s := by
  induction ms generalizing acc sk with
  | nil =>
    simp only [deserializeVisibilityMessagesLoop, Except.ok.injEq, Prod.mk.injEq] at h
    rw [← h.2]; exact hsk
  | cons m ms ih =>
    unfold deserializeVisibilityMessagesLoop at h
    cases hd : decodeVisibility cx m with
    | error e => rw [hd] at h; simp at h
    | ok res =>
      rw [hd] at h
      cases res with
      | error err =>
        simp only [] at h
        cases skipErrors with
        | false => simp [ErrorAndExit] at h
        | true =>
          simp only [Bool.not_true, Bool.false_eq_true, if_false] at h
          exact ih _ _ (wrapInt32_idem _) h
      | ok task =>
        simp only [] at h
        exact ih _ _ hsk h

theorem wrapInt32_zero : wrapInt32 0 = 0 := by decide

/-- The two counts that `parse` adds up are non-negative and their sum does not
overflow, for a slice of fewer than `2^31` bytes. -/
theorem parse_amounts_nonneg (cx : Thrift E W R V T) (bytes : List Byte) (skipErrors : Bool)
    (messages : List (List Byte)) (s1 : Int) (hb : bytes.length < 2147483648)
    (hg : getMessages (E := E) bytes skipErrors = Except.ok (messages, s1)) :
    0 ≤ s1 ∧
    (∀ msgs s2, deserializeMessages cx messages skipErrors = Except.ok (msgs, s2) →
      0 ≤ s2 ∧ s1 + s2 < 2147483648) ∧
    (∀ msgs s2, deserializeVisibilityMessages cx messages skipErrors = Except.ok (msgs, s2) →
      0 ≤ s2 ∧ s1 + s2 < 2147483648) := by
  obtain ⟨k1, hk1, hs1⟩ := getMessages_count bytes skipErrors messages s1 hg
  have hw1 : wrapInt32 s1 = s1 := by
    unfold getMessages at hg
    cases hS : Split r bytes with
    | nil => rw [hS] at hg; simp at hg
    | cons first mwh =>
      rw [hS] at hg
      simp only [] at hg
      by_cases hf : first.length ≠ 0
      · rw [if_pos hf] at hg; simp [ErrorAndExit] at hg
      · rw [if_neg hf] at hg
        exact getMessagesLoop_wrapped skipErrors mwh [] messages 0 s1 wrapInt32_zero hg
  have e1 : s1 = (k1 : Int) := by
    rw [← hw1, hs1]; exact wrapInt32_natCast k1 (by omega)
  refine ⟨by rw [e1]; exact Int.natCast_nonneg _, ?_, ?_⟩
  · intro msgs s2 hd
    obtain ⟨k2, hk2, hs2⟩ := deserializeMessagesLoop_count cx skipErrors messages [] msgs 0 s2 hd
    have hw2 := deserializeMessagesLoop_wrapped cx skipErrors messages [] msgs 0 s2
      wrapInt32_zero hd
    have e2 : s2 = (k2 : Int) := by
      rw [← hw2, hs2, zero_add]; exact wrapInt32_natCast k2 (by omega)
    rw [e1, e2]
    constructor
    · exact Int.natCast_nonneg _
    · omega
  · intro msgs s2 hd
    obtain ⟨k2, hk2, hs2⟩ :=
      deserializeVisibilityMessagesLoop_count cx skipErrors messages [] msgs 0 s2 hd
    have hw2 := deserializeVisibilityMessagesLoop_wrapped cx skipErrors messages [] msgs 0 s2
      wrapInt32_zero hd
    have e2 : s2 = (k2 : Int) := by
      rw [← hw2, hs2, zero_add]; exact wrapInt32_natCast k2 (by omega)
    rw [e1, e2]
    constructor
    · exact Int.natCast_nonneg _
    · omega

end CounterLemmas

/-! ## Lemmas: rereplication -/

section ResendLemmas

variable {E : Type}

theorem wrapInt64_of_range (x : Int) (h1 : -9223372036854775808 ≤ x)
    (h2 : x < 9223372036854775808) : wrapInt64 x = x := by
  unfold wrapInt64; omega

/-- Every call that `AdminRereplicate` makes carries the bounds computed from
the command line. -/
theorem AdminRereplicate_calls (c : RereplicateContext E)
    (adminClient : Int → ResendReplicationTasksRequest → Option E) :
    (AdminRereplicate c adminClient).calls = [] ∨
    ∃ (ctx : Int) (domainID wid rid sourceCluster : List Byte),
      0 < c.NumberOfShards ∧
      c.SourceCluster = Except.ok sourceCluster ∧ c.DomainID = Except.ok domainID ∧
      c.WorkflowID = Except.ok wid ∧ c.RunID = Except.ok rid ∧
      (AdminRereplicate c adminClient).calls =
        [(ctx, ⟨domainID, wid, rid, sourceCluster,
          c.MaxEventID.map (fun n => wrapInt64 (n + 1)), c.EndEventVersion⟩)] := by
  unfold AdminRereplicate
  by_cases hn : c.NumberOfShards ≤ 0
  · rw [if_pos hn]; exact Or.inl rfl
  · rw [if_neg hn]
    cases hs : c.SourceCluster with
    | error h => exact Or.inl rfl
    | ok sourceCluster =>
      cases hd : c.DomainID with
      | error h => exact Or.inl rfl
      | ok domainID =>
        cases hw : c.WorkflowID with
        | error h => exact Or.inl rfl
        | ok wid =>
          cases hr : c.RunID with
          | error h => exact Or.inl rfl
          | ok rid =>
            refine Or.inr ⟨(match c.ContextTimeout with
              | some n => wrapInt64 (n * 1000000000)
              | none => defaultResendContextTimeout),
              domainID, wid, rid, sourceCluster, by omega, rfl, rfl, rfl, rfl, ?_⟩
            simp only [doRereplicate]
            cases hm : c.MaxEventID <;> cases hv : c.EndEventVersion <;> split <;> rfl

end ResendLemmas

/-! ## Lemmas: access control -/

section AccessLemmas

variable {E Ctx Req Resp : Type}

theorem AdminMethod.APIName_eq_name (method : AdminMethod) : method.APIName = method.name := by
  cases method <;> rfl

theorem AdminMethod.wrapped_eq (method : AdminMethod) : method.wrapped = method := by
  cases method <;> rfl

theorem call_of_authorize (a : AccessControlledWorkflowAdminHandler E Ctx Req Resp)
    (errUnauthorized : E) (method : AdminMethod) (ctx : Ctx) (request : Req) :
    a.call errUnauthorized method ctx request =
      match a.authorizer ctx ⟨method.name, Permission.PermissionAdmin⟩ with
      | (_, some err) => ⟨[], (none, some err)⟩
      | (result, none) =>
        if result.Decision = Decision.DecisionAllow then
          ⟨[(method, ctx, request)], a.adminHandler method ctx request⟩
        else ⟨[], (none, some errUnauthorized)⟩ := by
  unfold AccessControlledWorkflowAdminHandler.call isAuthorized
  rw [AdminMethod.APIName_eq_name, AdminMethod.wrapped_eq]
  dsimp only
  generalize a.authorizer ctx ⟨method.name, Permission.PermissionAdmin⟩ = p
  obtain ⟨result, err⟩ := p
  cases err with
  | some err => rfl
  | none =>
    by_cases hd : result.Decision = Decision.DecisionAllow
    · simp [hd]
    · simp [hd]

end AccessLemmas

/-! ## Lemmas: cluster metadata -/

section ClusterLemmas

theorem GoMap.length_set_le {κ α : Type} [DecidableEq κ] (m : GoMap κ α) (k : κ) (v : α) :
    (GoMap.set m k v).length ≤ m.length + 1 := by
  induction m with
  | nil => simp [GoMap.set]
  | cons e m ih =>
    unfold GoMap.set
    split
    · simp
    · simp only [List.length_cons]; omega

theorem GoMap.keys_subset_set {κ α : Type} [DecidableEq κ] (m : GoMap κ α) (k : κ) (v : α)
    (x : κ) (hx : x ∈ m.map Prod.fst) : x ∈ (GoMap.set m k v).map Prod.fst := by
  induction m with
  | nil => simp at hx
  | cons e m ih =>
    unfold GoMap.set
    split
    · rename_i he
      simp only [List.map_cons, List.mem_cons] at hx ⊢
      rcases hx with hx | hx
      · left; rw [hx, he]
      · right; exact hx
    · simp only [List.map_cons, List.mem_cons] at hx ⊢
      rcases hx with hx | hx
      · left; exact hx
      · right; exact ih hx

theorem GoMap.key_mem_set {κ α : Type} [DecidableEq κ] (m : GoMap κ α) (k : κ) (v : α) :
    k ∈ (GoMap.set m k v).map Prod.fst := by
  induction m with
  | nil => simp [GoMap.set]
  | cons e m ih =>
    unfold GoMap.set
    split
    · simp
    · simp only [List.map_cons, List.mem_cons]; right; exact ih

theorem GoMap.length_set_of_mem {κ α : Type} [DecidableEq κ] (m : GoMap κ α) (k : κ) (v : α)
    (hk : k ∈ m.map Prod.fst) : (GoMap.set m k v).length = m.length := by
  induction m with
  | nil => simp at hk
  | cons e m ih =>
    unfold GoMap.set
    split
    · simp
    · rename_i he
      simp only [List.map_cons, List.mem_cons] at hk
      rcases hk with hk | hk
      · exact absurd hk.symm he
      · simp only [List.length_cons]; rw [ih hk]

/-- The map from versions to names that the loop of `validate` builds. -/
theorem validateLoop_snd (increment : Int) (entries : List (List Byte × ClusterInformation))
    (errs : List ValidationError) (acc : GoMap Int (List Byte)) :
    (validateLoop increment entries errs acc).2 =
      entries.foldl (fun acc e => GoMap.set acc e.2.InitialFailoverVersion e.1) acc := by
  induction entries generalizing errs acc with
  | nil => rfl
  | cons e rest ih =>
    obtain ⟨clusterName, info⟩ := e
    rw [validateLoop]
    rw [ih]
    rfl

theorem foldl_set_length_le (entries : List (List Byte × ClusterInformation))
    (acc : GoMap Int (List Byte)) :
    (entries.foldl (fun acc e => GoMap.set acc e.2.InitialFailoverVersion e.1) acc).length
      ≤ acc.length + entries.length := by
  induction entries generalizing acc with
  | nil => simp
  | cons e rest ih =>
    rw [List.foldl_cons, List.length_cons]
    have h1 := ih (GoMap.set acc e.2.InitialFailoverVersion e.1)
    have h2 := GoMap.length_set_le acc e.2.InitialFailoverVersion e.1
    omega

theorem foldl_set_length_eq (entries : List (List Byte × ClusterInformation))
    (acc : GoMap Int (List Byte))
    (h : (entries.foldl (fun acc e => GoMap.set acc e.2.InitialFailoverVersion e.1) acc).length
      = acc.length + entries.length) :
    (entries.map (fun e => e.2.InitialFailoverVersion)).Nodup ∧
    ∀ e ∈ entries, e.2.InitialFailoverVersion ∉ acc.map Prod.fst := by
  induction entries generalizing acc with
  | nil => simp
  | cons e rest ih =>
    rw [List.foldl_cons, List.length_cons] at h
    have h1 := foldl_set_length_le rest (GoMap.set acc e.2.InitialFailoverVersion e.1)
    have h2 := GoMap.length_set_le acc e.2.InitialFailoverVersion e.1
    have hnot : e.2.InitialFailoverVersion ∉ acc.map Prod.fst := by
      intro hk
      have := GoMap.length_set_of_mem acc e.2.InitialFailoverVersion e.1 hk
      omega
    obtain ⟨hnd, hrest⟩ := ih (GoMap.set acc e.2.InitialFailoverVersion e.1) (by omega)
    refine ⟨?_, ?_⟩
    · rw [List.map_cons, List.nodup_cons]
      refine ⟨?_, hnd⟩
      intro hmem
      obtain ⟨e1, he1, hv⟩ := List.mem_map.mp hmem
      apply hrest e1 he1
      rw [hv]
      exact GoMap.key_mem_set _ _ _
    · intro e1 he1
      rcases List.mem_cons.mp he1 with h0 | h0
      · rw [h0]; exact hnot
      · intro hk
        exact hrest e1 h0 (GoMap.keys_subset_set _ _ _ _ hk)

theorem validateLoop_fst_nil_iff (increment : Int)
    (entries : List (List Byte × ClusterInformation))
    (errs : List ValidationError) (acc : GoMap Int (List Byte)) :
    (validateLoop increment entries errs acc).1 = [] ↔
      errs = [] ∧ ∀ e ∈ entries, e.1.length ≠ 0 ∧
        ¬ (increment ≤ e.2.InitialFailoverVersion ∨ e.2.InitialFailoverVersion < 0) ∧
        ¬ (e.2.Enabled = true ∧ (e.2.RPCName.length = 0 ∨ e.2.RPCAddress.length = 0)) := by
  induction entries generalizing errs acc with
  | nil => simp [validateLoop]
  | cons e rest ih =>
    obtain ⟨clusterName, info⟩ := e
    rw [validateLoop]
    rw [ih]
    simp only [List.mem_cons, forall_eq_or_imp]
    by_cases h1 : clusterName.length = 0 <;>
      by_cases h2 : increment ≤ info.InitialFailoverVersion ∨ info.InitialFailoverVersion < 0 <;>
      by_cases h3 : info.Enabled = true ∧ (info.RPCName.length = 0 ∨ info.RPCAddress.length = 0)
    all_goals simp only [h1, h2, h3, if_true, if_false, List.append_eq_nil, List.cons_ne_nil,
      and_false, false_and, not_true_eq_false, not_false_eq_true, true_and, ne_eq]

theorem nodup_length_le_of_range (l : List Int) (n : Int) (hn : 0 ≤ n) (hnd : l.Nodup)
    (hr : ∀ x ∈ l, 0 ≤ x ∧ x < n) : (l.length : Int) ≤ n := by
  have hnd2 : (l.map Int.toNat).Nodup := by
    apply List.Nodup.map_on _ hnd
    intro x hx y hy hxy
    have h1 := (hr x hx).1
    have h2 := (hr y hy).1
    omega
  have hsub : (l.map Int.toNat).toFinset ⊆ Finset.range n.toNat := by
    intro y hy
    rw [List.mem_toFinset, List.mem_map] at hy
    obtain ⟨x, hx, rfl⟩ := hy
    rw [Finset.mem_range]
    have := hr x hx
    omega
  have hcard := Finset.card_le_card hsub
  rw [List.toFinset_card_of_nodup hnd2, List.length_map, Finset.card_range] at hcard
  omega

theorem ite_append_eq_nil {α : Type} (c : Prop) [Decidable c] (xs : List α) (e : α) :
    (if c then xs ++ [e] else xs) = [] ↔ ¬ c ∧ xs = [] := by
  by_cases h : c <;> simp [h]

theorem validate_nil_elim (m : ClusterMetadata) (h : validate (some m) = []) :
    m.PrimaryClusterName.length ≠ 0 ∧ m.CurrentClusterName.length ≠ 0 ∧
    m.FailoverVersionIncrement ≠ 0 ∧ m.ClusterInformation.length ≠ 0 ∧
    (∀ e ∈ m.ClusterInformation, e.1.length ≠ 0 ∧
      ¬ (m.FailoverVersionIncrement ≤ e.2.InitialFailoverVersion ∨
        e.2.InitialFailoverVersion < 0) ∧
      ¬ (e.2.Enabled = true ∧ (e.2.RPCName.length = 0 ∨ e.2.RPCAddress.length = 0))) ∧
    (m.ClusterInformation.map (fun e => e.2.InitialFailoverVersion)).Nodup := by
  unfold validate at h
  simp only [] at h
  generalize hp : validateLoop m.FailoverVersionIncrement m.ClusterInformation _ [] = p at h
  obtain ⟨errs, v2c⟩ := p
  simp only [] at h
  have hlen : v2c.length = m.ClusterInformation.length := by
    by_contra hne
    rw [if_pos hne] at h
    simp at h
  rw [if_neg (by rw [hlen]; exact fun hh => hh rfl)] at h
  have h1 := congrArg Prod.fst hp
  have h2 := congrArg Prod.snd hp
  simp only [] at h1 h2
  rw [h] at h1
  rw [validateLoop_snd] at h2
  rw [validateLoop_fst_nil_iff] at h1
  obtain ⟨he, hall⟩ := h1
  have hnd := (foldl_set_length_eq m.ClusterInformation [] (by rw [h2, hlen]; simp)).1
  simp only [ite_append_eq_nil] at he
  obtain ⟨-, -, h4, h3, h2, h1, -⟩ := he
  exact ⟨h1, h2, h3, h4, hall, hnd⟩

theorem GoMap.set_append_of_not_mem {κ α : Type} [DecidableEq κ] (pre post : GoMap κ α)
    (k : κ) (v v1 : α) (hk : k ∉ pre.map Prod.fst) :
    GoMap.set (pre ++ (k, v) :: post) k v1 = pre ++ (k, v1) :: post := by
  induction pre with
  | nil => simp [GoMap.set]
  | cons e pre ih =>
    simp only [List.map_cons, List.mem_cons, not_or] at hk
    rw [List.cons_append, GoMap.set, if_neg (fun h => hk.1 h.symm), ih hk.2]
    rfl

theorem fillDefaultsLoop_eq (todo : List (List Byte × ClusterInformation)) :
    ∀ pre : GoMap (List Byte) ClusterInformation,
      (∀ e ∈ todo, e.1 ∉ pre.map Prod.fst) → (todo.map Prod.fst).Nodup →
      fillDefaultsLoop todo (pre ++ todo) =
        pre ++ todo.map (fun e =>
          (e.1, if e.2.RPCName = [] then { e.2 with RPCName := ascii "cadence-frontend" }
            else e.2)) := by
  induction todo with
  | nil => intro pre _ _; rfl
  | cons e rest ih =>
    intro pre hpre hnd
    obtain ⟨name, cluster⟩ := e
    rw [List.map_cons, List.nodup_cons] at hnd
    have hk : name ∉ pre.map Prod.fst := hpre (name, cluster) (List.mem_cons_self _ _)
    have hrest : ∀ (c1 : ClusterInformation), ∀ e ∈ rest,
        e.1 ∉ (pre ++ [(name, c1)]).map Prod.fst := by
      intro c1 e he
      rw [List.map_append, List.mem_append, not_or]
      refine ⟨hpre e (List.mem_cons_of_mem _ he), ?_⟩
      simp only [List.map_cons, List.map_nil, List.mem_singleton]
      intro h1
      have hm : e.1 ∈ rest.map Prod.fst := List.mem_map_of_mem Prod.fst he
      rw [h1] at hm
      exact hnd.1 hm
    rw [fillDefaultsLoop]
    by_cases hc : cluster.RPCName = []
    · rw [if_pos hc, GoMap.set_append_of_not_mem pre rest name _ _ hk]
      have := ih (pre ++ [(name, { cluster with RPCName := ascii "cadence-frontend" })])
        (hrest _) hnd.2
      rw [List.append_assoc, List.singleton_append] at this
      rw [this, List.map_cons, if_pos hc, List.append_assoc, List.singleton_append]
    · rw [if_neg hc]
      have := ih (pre ++ [(name, cluster)]) (hrest _) hnd.2
      rw [List.append_assoc, List.singleton_append] at this
      rw [this, List.map_cons, if_neg hc, List.append_assoc, List.singleton_append]

theorem fillDefaultsLoop_self (ci : GoMap (List Byte) ClusterInformation)
    (hk : (ci.map Prod.fst).Nodup) :
    fillDefaultsLoop ci ci =
      ci.map (fun e =>
        (e.1, if e.2.RPCName = [] then { e.2 with RPCName := ascii "cadence-frontend" }
          else e.2)) := by
  have := fillDefaultsLoop_eq ci [] (by simp) hk
  simpa using this

end ClusterLemmas

/-! ## Lemmas: the writer channel -/

section ChannelLemmas

variable {E W R V T : Type}

theorem parse_forwards (cx : Thrift E W R V T) (bytes : List Byte) (skipErrors : Bool)
    (skippedCount : Int) (writerCh : writerChannel T V)
    (h : (parse cx bytes skipErrors skippedCount writerCh).halted = none) :
    (∀ q, writerCh.msgType = kafkaMessageTypeReplicationTask →
      writerCh.ReplicationTaskChannel = some q →
      parse cx bytes skipErrors skippedCount writerCh =
        ⟨{ writerCh with
            ReplicationTaskChannel := some (q ++ (groups bytes).filterMap (groupTask cx)) },
          wrapInt32 (skippedCount +
            (((groups bytes).countP (fun g => (groupTask cx g).isNone) : Nat) : Int)), none⟩) ∧
    (∀ q, writerCh.msgType = kafkaMessageTypeVisibilityMsg →
      writerCh.VisibilityMsgChannel = some q →
      parse cx bytes skipErrors skippedCount writerCh =
        ⟨{ writerCh with
            VisibilityMsgChannel := some (q ++ (groups bytes).filterMap (groupMsg cx)) },
          wrapInt32 (skippedCount +
            (((groups bytes).countP (fun g => (groupMsg cx g).isNone) : Nat) : Int)), none⟩) := by
  have hs := parse_returns_succeeds cx bytes skipErrors skippedCount writerCh h
  rw [parse_of_succeeds cx bytes skipErrors skippedCount writerCh hs]
  constructor
  · intro q ht hq
    unfold parseResult
    rw [if_pos ht, hq]; rfl
  · intro q ht hq
    have hne : ¬ writerCh.msgType = kafkaMessageTypeReplicationTask := by
      rw [ht]; decide
    unfold parseResult
    rw [if_neg hne, if_pos ht, hq]; rfl

theorem parse_other_type (cx : Thrift E W R V T) (bytes : List Byte) (skipErrors : Bool)
    (skippedCount : Int) (writerCh : writerChannel T V)
    (h0 : writerCh.msgType ≠ kafkaMessageTypeReplicationTask)
    (h1 : writerCh.msgType ≠ kafkaMessageTypeVisibilityMsg) :
    (parse cx bytes skipErrors skippedCount writerCh).writerCh = writerCh ∧
    (parse cx bytes skipErrors skippedCount writerCh).skippedCount = skippedCount := by
  unfold parse
  cases getMessages (E := E) bytes skipErrors with
  | error h => exact ⟨rfl, rfl⟩
  | ok p =>
    obtain ⟨messages, s1⟩ := p
    simp only []
    rw [if_neg h0, if_neg h1]
    exact ⟨rfl, rfl⟩

end ChannelLemmas

/-! ## Lemmas: the buffer of the splitter -/

section BufferLemmas

variable {E W R V T : Type}

theorem getMessagesLoop_error_cause (skipErrors : Bool) (ms rawMessages : List (List Byte))
    (sk : Int) (h : Halt E)
    (hg : getMessagesLoop (E := E) skipErrors ms rawMessages sk = Except.error h) :
    h = Halt.exit malformedMessage Cause.emptyMessage ∨
    h = Halt.exit malformedMessage Cause.noPreamble := by
  induction ms generalizing rawMessages sk with
  | nil => simp [getMessagesLoop] at hg
  | cons m ms ih =>
    unfold getMessagesLoop at hg
    by_cases hlen : m.length = 0
    · rw [if_pos hlen] at hg
      simp only [ErrorAndExit, Except.error.injEq] at hg
      exact Or.inl hg.symm
    · rw [if_neg hlen] at hg
      simp only [] at hg
      by_cases hi : bytesIndex m preambleVersion0 = -1
      · rw [if_pos hi] at hg
        cases skipErrors with
        | false =>
          simp only [Bool.not_false, if_true, ErrorAndExit, Except.error.injEq] at hg
          exact Or.inr hg.symm
        | true =>
          simp only [Bool.not_true, Bool.false_eq_true, if_false] at hg
          exact ih _ _ hg
      · rw [if_neg hi] at hg
        exact ih _ _ hg

theorem deserializeMessagesLoop_error_cause (cx : Thrift E W R V T) (skipErrors : Bool)
    (ms : List (List Byte)) (acc : List T) (sk : Int) (h : Halt E)
    (hd : deserializeMessagesLoop cx skipErrors ms acc sk = Except.error h) :
    h = Halt.panic ∨ ∃ err, h = Halt.exit malformedMessage (Cause.decodeError err) := by
  induction ms generalizing acc sk with
  | nil => simp [deserializeMessagesLoop] at hd
  | cons m ms ih =>
    unfold deserializeMessagesLoop at hd
    cases hdec : decode cx m with
    | error e =>
      rw [hdec] at hd
      simp only [Except.error.injEq] at hd
      cases m with
      | nil =>
        simp only [decode, Except.error.injEq] at hdec
        left; rw [← hd, ← hdec]
      | cons b rest => simp [decode] at hdec
    | ok res =>
      rw [hdec] at hd
      cases res with
      | error err =>
        simp only [] at hd
        cases skipErrors with
        | false =>
          simp only [Bool.not_false, if_true, ErrorAndExit, Except.error.injEq] at hd
          exact Or.inr ⟨err, hd.symm⟩
        | true =>
          simp only [Bool.not_true, Bool.false_eq_true, if_false] at hd
          exact ih _ _ hd
      | ok task =>
        simp only [] at hd
        cases hc : cx.toReplicationTask task with
        | none =>
          rw [hc] at hd
          simp only [Except.error.injEq] at hd
          exact Or.inl hd.symm
        | some converted =>
          rw [hc] at hd
          simp only [] at hd
          exact ih _ _ hd

theorem deserializeVisibilityMessagesLoop_error_cause (cx : Thrift E W R V T)
    (skipErrors : Bool) (ms : List (List Byte)) (acc : List V) (sk : Int) (h : Halt E)
    (hd : deserializeVisibilityMessagesLoop cx skipErrors ms acc sk = Except.error h) :
    h = Halt.panic ∨ ∃ err, h = Halt.exit malformedMessage (Cause.decodeError err) := by
  induction ms generalizing acc sk with
  | nil => simp [deserializeVisibilityMessagesLoop] at hd
  | cons m ms ih =>
    unfold deserializeVisibilityMessagesLoop at hd
    cases hdec : decodeVisibility cx m with
    | error e =>
      rw [hdec] at hd
      simp only [Except.error.injEq] at hd
      cases m with
      | nil =>
        simp only [decodeVisibility, Except.error.injEq] at hdec
        left; rw [← hd, ← hdec]
      | cons b rest => simp [decodeVisibility] at hdec
    | ok res =>
      rw [hdec] at hd
      cases res with
      | error err =>
        simp only [] at hd
        cases skipErrors with
        | false =>
          simp only [Bool.not_false, if_true, ErrorAndExit, Except.error.injEq] at hd
          exact Or.inr ⟨err, hd.symm⟩
        | true =>
          simp only [Bool.not_true, Bool.false_eq_true, if_false] at hd
          exact ih _ _ hd
      | ok task =>
        simp only [] at hd
        exact ih _ _ hd

/-- The exit for a missing leading header comes from the first piece of the split. -/
theorem parse_noLeadingHeader (cx : Thrift E W R V T) (d : List Byte) (skipErrors : Bool)
    (sk : Int) (wc : writerChannel T V)
    (h : (parse cx d skipErrors sk wc).halted
      = some (Halt.exit malformedMessage Cause.noLeadingHeader)) :
    (Split r d).head? ≠ some [] := by
  intro hhead
  unfold parse at h
  cases hg : getMessages (E := E) d skipErrors with
  | error e =>
    rw [hg] at h
    simp only [Option.some.injEq] at h
    unfold getMessages at hg
    cases hS : Split r d with
    | nil => rw [hS] at hg; simp at hg; rw [← hg] at h; cases h
    | cons first rest =>
      rw [hS] at hg hhead
      simp only [List.head?_cons, Option.some.injEq] at hhead
      simp only [] at hg
      rw [if_neg (by rw [hhead]; simp)] at hg
      rcases getMessagesLoop_error_cause skipErrors rest [] 0 e hg with h1 | h1
      · rw [h1] at h; cases h
      · rw [h1] at h; cases h
  | ok p =>
    obtain ⟨messages, s1⟩ := p
    rw [hg] at h
    simp only [] at h
    split at h
    · cases hd : deserializeMessages cx messages skipErrors with
      | error e =>
        rw [hd] at h
        simp only [Option.some.injEq] at h
        rcases deserializeMessagesLoop_error_cause cx skipErrors messages [] 0 e hd with
          h1 | ⟨err, h1⟩
        · rw [h1] at h; cases h
        · rw [h1] at h; cases h
      | ok q =>
        rw [hd] at h
        simp only [] at h
        split at h <;> simp at h
    · split at h
      · cases hd : deserializeVisibilityMessages cx messages skipErrors with
        | error e =>
          rw [hd] at h
          simp only [Option.some.injEq] at h
          rcases deserializeVisibilityMessagesLoop_error_cause cx skipErrors messages [] 0 e hd
            with h1 | ⟨err, h1⟩
          · rw [h1] at h; cases h
          · rw [h1] at h; cases h
        | ok q =>
          rw [hd] at h
          simp only [] at h
          split at h <;> simp at h
      · simp at h

theorem Split_head_of_begins (d : List Byte) (h : d = [] ∨ (matchItems r d).isSome) :
    (Split r d).head? = some [] := by
  rcases h with h | h
  · subst h
    rw [Split_of_no_match [] (FindAllIndex_nil r)]; rfl
  · obtain ⟨n, hn⟩ := Option.isSome_iff_exists.mp h
    have hpos := matchItems_r_pos d n hn
    have hF := FindAllIndex_cons_intro d 0 n (by simpa using hn) hpos
      (fun j hj => absurd hj (Nat.not_lt_zero j))
    rw [Split_of_first_match d 0 n _ hF]
    rfl

/-- One step of the splitter on an accumulation that begins with a header match. -/
theorem splitBuffer_begins (s : List Byte) (h : (matchItems r s).isSome) :
    ∃ i e, (FindAllIndex r s).getLast? = some (i, e) ∧
      (matchItems r (s.drop i)).isSome ∧
      (s.take i = [] ∨ (matchItems r (s.take i)).isSome) := by
  obtain ⟨n, hn⟩ := Option.isSome_iff_exists.mp h
  have hpos := matchItems_r_pos s n hn
  have hF := FindAllIndex_cons_intro s 0 n (by simpa using hn) hpos
    (fun j hj => absurd hj (Nat.not_lt_zero j))
  cases hl : (FindAllIndex r s).getLast? with
  | none =>
    have := List.getLast?_eq_none_iff.mp hl
    rw [hF] at this; cases this
  | some p =>
    obtain ⟨i, e⟩ := p
    have hmem := List.mem_of_getLast?_eq_some hl
    have hspec := FindAllIndex_spec r s i e hmem
    refine ⟨i, e, rfl, by rw [hspec.2.2]; rfl, ?_⟩
    rw [hF, List.mem_cons] at hmem
    rcases hmem with h0 | h0
    · left
      have : i = 0 := (Prod.mk.inj h0).1
      rw [this]; rfl
    · right
      obtain ⟨a0, b0, -, ha, -⟩ := (mem_shift n i e _).mp h0
      have hle : n ≤ (s.take i).length := by
        rw [List.length_take]
        have := hspec.1
        have := hspec.2.1
        omega
      have hsplit : matchItems r (s.take i ++ s.drop i) = some n := by
        rw [List.take_append_drop]; exact hn
      rw [matchItems_truncate r (s.drop i) (s.take i) n hsplit hle]
      rfl

theorem startParserLoop_no_leading_header_error (cx : Thrift E W R V T) (skipErrors : Bool) :
    ∀ (chunks : List (List Byte)) (buffer : List Byte) (sk : Int) (wc : writerChannel T V),
      (chunks = [] → buffer = [] ∨ (matchItems r buffer).isSome) →
      (∀ c rest, chunks = c :: rest → (matchItems r (buffer ++ c)).isSome) →
      (startParserLoop cx skipErrors chunks buffer sk wc).halted
        ≠ some (Halt.exit malformedMessage Cause.noLeadingHeader) := by
  intro chunks
  induction chunks with
  | nil =>
    intro buffer sk wc h1 _ hh
    rw [startParserLoop] at hh
    exact parse_noLeadingHeader cx buffer skipErrors sk wc hh (Split_head_of_begins buffer (h1 rfl))
  | cons c rest ih =>
    intro buffer sk wc _ h2 hh
    obtain ⟨i, e, hl, hnb, hd⟩ := splitBuffer_begins (buffer ++ c) (h2 c rest rfl)
    rw [startParserLoop, splitBuffer_some (buffer ++ c) i e hl] at hh
    simp only [] at hh
    cases hp : parse cx ((buffer ++ c).take i) skipErrors sk wc with
    | mk wc1 sk1 halted =>
      have hno := fun hx => parse_noLeadingHeader cx ((buffer ++ c).take i) skipErrors sk wc hx
        (Split_head_of_begins _ hd)
      rw [hp] at hh hno
      cases halted with
      | some h =>
        simp only [] at hh hno
        exact hno hh
      | none =>
        simp only [] at hh
        refine ih ((buffer ++ c).drop i) sk1 wc1 (fun _ => Or.inr hnb) ?_ hh
        intro c1 rest1 _
        exact matchItems_append_isSome r c1 _ hnb

theorem slices_begin (chunks : List (List Byte)) :
    ∀ buffer : List Byte,
      (chunks = [] → buffer = [] ∨ (matchItems r buffer).isSome) →
      (∀ c rest, chunks = c :: rest → (matchItems r (buffer ++ c)).isSome) →
      (∀ d ∈ dataSlices chunks buffer, d = [] ∨ (matchItems r d).isSome) ∧
      (∀ b ∈ retainedBuffers chunks buffer, (matchItems r b).isSome) ∧
      (dataSlices chunks buffer).length = chunks.length + 1 ∧
      (retainedBuffers chunks buffer).length = chunks.length := by
  induction chunks with
  | nil =>
    intro buffer h1 _
    refine ⟨?_, ?_, rfl, rfl⟩
    · intro d hd
      rw [dataSlices, List.mem_singleton] at hd
      rw [hd]; exact h1 rfl
    · intro b hb
      rw [retainedBuffers] at hb
      exact absurd hb (List.not_mem_nil _)
  | cons c rest ih =>
    intro buffer _ h2
    obtain ⟨i, e, hl, hnb, hd⟩ := splitBuffer_begins (buffer ++ c) (h2 c rest rfl)
    obtain ⟨ih1, ih2, ih3, ih4⟩ := ih ((buffer ++ c).drop i) (fun _ => Or.inr hnb)
      (fun c1 rest1 _ => matchItems_append_isSome r c1 _ hnb)
    rw [dataSlices, retainedBuffers, hl]
    simp only []
    refine ⟨?_, ?_, ?_, ?_⟩
    · intro d hmem
      rcases List.mem_cons.mp hmem with h0 | h0
      · rw [h0]; exact hd
      · exact ih1 d h0
    · intro b hmem
      rcases List.mem_cons.mp hmem with h0 | h0
      · rw [h0]; exact hnb
      · exact ih2 b h0
    · rw [List.length_cons, ih3, List.length_cons]
    · rw [List.length_cons, ih4, List.length_cons]

theorem getMessages_noLeadingHeader (d : List Byte) (skipErrors : Bool)
    (h : getMessages (E := E) d skipErrors
      = Except.error (Halt.exit malformedMessage Cause.noLeadingHeader)) :
    (Split r d).head? ≠ some [] := by
  intro hhead
  unfold getMessages at h
  cases hS : Split r d with
  | nil => rw [hS] at h; simp at h
  | cons first rest =>
    rw [hS] at h hhead
    simp only [List.head?_cons, Option.some.injEq] at hhead
    simp only [] at h
    rw [if_neg (by rw [hhead]; simp)] at h
    rcases getMessagesLoop_error_cause skipErrors rest [] 0 _ h with h1 | h1
    · cases h1
    · cases h1

end BufferLemmas

/-! ## Lemmas: a panic of the conversion -/

section PanicLemmas

variable {E W R V T : Type}

/-- In permissive mode, a frame on which the conversion panics makes the loop of
`deserializeMessages` panic, whatever the other frames are. -/
theorem deserializeMessagesLoop_permissive_panic (cx : Thrift E W R V T)
    (ms : List (List Byte)) (tasks : List T) (sk : Int)
    (hne : ∀ m ∈ ms, m ≠ [])
    (h : ∃ m ∈ ms, framePanics cx m = true) :
    deserializeMessagesLoop cx true ms tasks sk = Except.error Halt.panic := by
  induction ms generalizing tasks sk with
  | nil => simp at h
  | cons m ms ih =>
    have hm := hne m (List.mem_cons_self _ _)
    have hms : ∀ x ∈ ms, x ≠ [] := fun x hx => hne x (List.mem_cons_of_mem _ hx)
    unfold deserializeMessagesLoop
    cases hd : decode cx m with
    | error e =>
      exfalso
      cases m with
      | nil => exact hm rfl
      | cons c p => simp [decode] at hd
    | ok res =>
      cases res with
      | error err =>
        simp only [Bool.not_true, Bool.false_eq_true, if_false]
        apply ih _ _ hms
        obtain ⟨x, hx, hp⟩ := h
        rcases List.mem_cons.mp hx with rfl | hx
        · simp [framePanics, hd] at hp
        · exact ⟨x, hx, hp⟩
      | ok task =>
        cases hc : cx.toReplicationTask task with
        | none => simp only [hc]
        | some converted =>
          simp only [hc]
          apply ih _ _ hms
          obtain ⟨x, hx, hp⟩ := h
          rcases List.mem_cons.mp hx with rfl | hx
          · simp [framePanics, hd, hc] at hp
          · exact ⟨x, hx, hp⟩

end PanicLemmas

/-! ## Lemmas: the order of the output lines -/

section LineLemmas

variable {E Blob H : Type}

/-- A prefix of the results kept by `filterMap` is what `filterMap` keeps of a
prefix of the list. -/
theorem prefix_filterMap {α β : Type} (f : α → Option β) (l : List α) (p : List β)
    (h : p <+: l.filterMap f) : ∃ l1, l1 <+: l ∧ l1.filterMap f = p := by
  induction l generalizing p with
  | nil =>
    simp only [List.filterMap_nil, List.prefix_nil] at h
    exact ⟨[], List.prefix_refl _, by rw [h]; rfl⟩
  | cons a l ih =>
    cases hf : f a with
    | none =>
      rw [List.filterMap_cons_none hf] at h
      obtain ⟨l1, h1, h2⟩ := ih p h
      exact ⟨a :: l1, (List.prefix_cons_inj a).mpr h1, by rw [List.filterMap_cons_none hf, h2]⟩
    | some b =>
      rw [List.filterMap_cons_some hf] at h
      cases p with
      | nil => exact ⟨[], List.nil_prefix, rfl⟩
      | cons c p =>
        obtain ⟨hcb, hp⟩ := List.cons_prefix_cons.mp h
        obtain ⟨l1, h1, h2⟩ := ih p hp
        exact ⟨a :: l1, (List.prefix_cons_inj a).mpr h1,
          by rw [List.filterMap_cons_some hf, h2, hcb]⟩

/-- Whatever way the loop of `writeReplicationTask` ends, it has written, after
what the file held, the lines of the first tasks it received, in the order in
which it received them; when it returns, those are all the tasks. -/
theorem writeReplicationTaskLoop_written (cd : Codec E Blob H) (workflowID runID : List Byte)
    (skipErrMode headerMode : Bool) (tasks : List (ReplicationTask Blob))
    (outputFile : OutputFile E) (skippedCount : Int) :
    ∃ handled, handled <+: tasks ∧
      (writeReplicationTaskLoop cd workflowID runID skipErrMode headerMode tasks outputFile
          skippedCount).outputFile.written
        = outputFile.written
          ++ handled.filterMap (replicationTaskLine cd workflowID runID headerMode) ∧
      ((writeReplicationTaskLoop cd workflowID runID skipErrMode headerMode tasks outputFile
          skippedCount).halted = none → handled = tasks) := by
  induction tasks generalizing outputFile skippedCount with
  | nil => exact ⟨[], List.prefix_refl _, by simp [writeReplicationTaskLoop], fun _ => rfl⟩
  | cons task rest ih =>
    have hstop : ∀ (h : Halt E),
        ∃ handled, handled <+: task :: rest ∧
          (WriterRun.mk outputFile skippedCount (some h)).outputFile.written
            = outputFile.written
              ++ handled.filterMap (replicationTaskLine cd workflowID runID headerMode) ∧
          ((WriterRun.mk outputFile skippedCount (some h)).halted = none
            → handled = task :: rest) :=
      fun h => ⟨[], List.nil_prefix, by simp, fun hh => by simp at hh⟩
    have hskip : ∀ (sk : Int),
        replicationTaskLine cd workflowID runID headerMode task = none →
        ∃ handled, handled <+: task :: rest ∧
          (writeReplicationTaskLoop cd workflowID runID skipErrMode headerMode rest outputFile
              sk).outputFile.written
            = outputFile.written
              ++ handled.filterMap (replicationTaskLine cd workflowID runID headerMode) ∧
          ((writeReplicationTaskLoop cd workflowID runID skipErrMode headerMode rest outputFile
              sk).halted = none → handled = task :: rest) := by
      intro sk hl
      obtain ⟨handled, h1, h2, h3⟩ := ih outputFile sk
      exact ⟨task :: handled, (List.prefix_cons_inj task).mpr h1,
        by rw [h2, List.filterMap_cons_none hl], fun hh => by rw [h3 hh]⟩
    rw [writeReplicationTaskLoop]
    cases hf : buildFilterFn workflowID runID task with
    | none => exact hstop _
    | some b =>
      cases b with
      | false =>
        exact hskip _ (by simp [replicationTaskLine, hf])
      | true =>
        simp only []
        cases hd : decodeReplicationTask cd task with
        | none => exact hstop _
        | some res =>
          obtain ⟨res1, task1⟩ := res
          cases res1 with
          | error err =>
            simp only []
            cases skipErrMode with
            | false => exact hstop _
            | true => exact hskip _ (by simp [replicationTaskLine, hf, hd])
          | ok jsonStr =>
            simp only []
            cases hline : replicationTaskLine cd workflowID runID headerMode task with
            | none =>
              have hout : (if (!headerMode) = true then some jsonStr
                  else
                    match task1.GetHistoryTaskV2Attributes with
                    | none => none
                    | some attributes =>
                      some (attributes.DomainID ++ ascii ", " ++ attributes.WorkflowID
                        ++ ascii ", " ++ attributes.RunID)) = none := by
                simp only [replicationTaskLine, hf, hd] at hline
                cases headerMode with
                | false => simp at hline
                | true =>
                  simp only [Bool.not_true, Bool.false_eq_true, if_false] at hline ⊢
                  cases ha : task1.GetHistoryTaskV2Attributes with
                  | none => rfl
                  | some a => rw [ha] at hline; simp at hline
              rw [hout]
              exact hstop _
            | some line =>
              have hout : ∃ body, (if (!headerMode) = true then some jsonStr
                  else
                    match task1.GetHistoryTaskV2Attributes with
                    | none => none
                    | some attributes =>
                      some (attributes.DomainID ++ ascii ", " ++ attributes.WorkflowID
                        ++ ascii ", " ++ attributes.RunID)) = some body ∧
                  body ++ ascii "\n" = line := by
                simp only [replicationTaskLine, hf, hd] at hline
                cases headerMode with
                | false =>
                  simp only [Bool.not_false, if_true, Option.some.injEq] at hline ⊢
                  exact ⟨jsonStr, rfl, hline⟩
                | true =>
                  simp only [Bool.not_true, Bool.false_eq_true, if_false] at hline ⊢
                  cases ha : task1.GetHistoryTaskV2Attributes with
                  | none => rw [ha] at hline; simp at hline
                  | some a =>
                    rw [ha] at hline
                    simp only [Option.some.injEq] at hline ⊢
                    exact ⟨_, rfl, hline⟩
              obtain ⟨body, hb1, hb2⟩ := hout
              rw [hb1]
              simp only [hb2, OutputFile.WriteString]
              cases hw : outputFile.failure outputFile.written line with
              | some err => exact hstop _
              | none =>
                simp only []
                obtain ⟨handled, h1, h2, h3⟩ :=
                  ih ⟨outputFile.written ++ [line], outputFile.failure⟩ skippedCount
                refine ⟨task :: handled, (List.prefix_cons_inj task).mpr h1, ?_,
                  fun hh => by rw [h3 hh]⟩
                rw [h2, List.filterMap_cons_some hline]
                simp

/-- Whatever way the loop of `writeVisibilityMessage` ends, it has written,
after what the file held, the lines of the first messages it received, in the
order in which it received them; when it returns, those are all the messages. -/
theorem writeVisibilityMessageLoop_written (cd : Codec E Blob H) (workflowID runID : List Byte)
    (skipErrMode headerMode : Bool) (msgs : List Message)
    (outputFile : OutputFile E) (skippedCount : Int) :
    ∃ handled, handled <+: msgs ∧
      (writeVisibilityMessageLoop cd workflowID runID skipErrMode headerMode msgs outputFile
          skippedCount).outputFile.written
        = outputFile.written
          ++ handled.filterMap (visibilityMessageLine cd workflowID runID headerMode) ∧
      ((writeVisibilityMessageLoop cd workflowID runID skipErrMode headerMode msgs outputFile
          skippedCount).halted = none → handled = msgs) := by
  induction msgs generalizing outputFile skippedCount with
  | nil => exact ⟨[], List.prefix_refl _, by simp [writeVisibilityMessageLoop], fun _ => rfl⟩
  | cons msg rest ih =>
    have hstop : ∀ (h : Halt E),
        ∃ handled, handled <+: msg :: rest ∧
          (WriterRun.mk outputFile skippedCount (some h)).outputFile.written
            = outputFile.written
              ++ handled.filterMap (visibilityMessageLine cd workflowID runID headerMode) ∧
          ((WriterRun.mk outputFile skippedCount (some h)).halted = none
            → handled = msg :: rest) :=
      fun h => ⟨[], List.nil_prefix, by simp, fun hh => by simp at hh⟩
    have hskip : ∀ (sk : Int),
        visibilityMessageLine cd workflowID runID headerMode msg = none →
        ∃ handled, handled <+: msg :: rest ∧
          (writeVisibilityMessageLoop cd workflowID runID skipErrMode headerMode rest outputFile
              sk).outputFile.written
            = outputFile.written
              ++ handled.filterMap (visibilityMessageLine cd workflowID runID headerMode) ∧
          ((writeVisibilityMessageLoop cd workflowID runID skipErrMode headerMode rest outputFile
              sk).halted = none → handled = msg :: rest) := by
      intro sk hl
      obtain ⟨handled, h1, h2, h3⟩ := ih outputFile sk
      exact ⟨msg :: handled, (List.prefix_cons_inj msg).mpr h1,
        by rw [h2, List.filterMap_cons_none hl], fun hh => by rw [h3 hh]⟩
    rw [writeVisibilityMessageLoop]
    cases hf : buildFilterFnForVisibility workflowID runID msg with
    | false =>
      simp only [Bool.false_eq_true, if_false]
      exact hskip _ (by simp [visibilityMessageLine, hf])
    | true =>
      simp only [if_true]
      cases hd : cd.marshalMessage msg with
      | error err =>
        simp only []
        cases skipErrMode with
        | false => exact hstop _
        | true => exact hskip _ (by simp [visibilityMessageLine, hf, hd])
      | ok jsonStr =>
        simp only [OutputFile.WriteString]
        have hline : visibilityMessageLine cd workflowID runID headerMode msg
            = some ((if (!headerMode) = true then jsonStr
                else
                  msg.GetDomainID ++ ascii ", " ++ msg.GetWorkflowID ++ ascii ", "
                    ++ msg.GetRunID ++ ascii ", " ++ cd.messageTypeString msg.GetMessageType
                    ++ ascii ", " ++ formatInt msg.GetVersion) ++ ascii "\n") := by
          simp only [visibilityMessageLine, hf, hd, if_true]
          cases headerMode with
          | false => rfl
          | true => rfl
        generalize (if (!headerMode) = true then jsonStr
                else
                  msg.GetDomainID ++ ascii ", " ++ msg.GetWorkflowID ++ ascii ", "
                    ++ msg.GetRunID ++ ascii ", " ++ cd.messageTypeString msg.GetMessageType
                    ++ ascii ", " ++ formatInt msg.GetVersion) = body at hline ⊢
        cases hw : outputFile.failure outputFile.written (body ++ ascii "\n") with
        | some err => exact hstop _
        | none =>
          simp only []
          obtain ⟨handled, h1, h2, h3⟩ :=
            ih ⟨outputFile.written ++ [body ++ ascii "\n"], outputFile.failure⟩ skippedCount
          refine ⟨msg :: handled, (List.prefix_cons_inj msg).mpr h1, ?_,
            fun hh => by rw [h3 hh]⟩
          rw [h2, List.filterMap_cons_some hline]
          simp

end LineLemmas

/-! # The claims -/

section Claims

variable {E W R V T Blob H Ctx Req Resp : Type}

/-- C1, counterexample: in permissive mode, on a data slice of two groups with
non-empty payloads of which the first decodes to the task `7` and the second
decodes to a value on which the conversion `thrift.ToReplicationTask` panics,
`deserializeMessages` does not return: it panics, and `parse` has then sent
nothing, not even the task `7`, and has counted nothing. -/
theorem permissive_parse_panics_on_unconvertible_task :
    Split r demoPanicData = [[], [107, 0x59, 1, 7], [107, 0x59, 1, 200]] ∧
    getMessages (E := Unit) demoPanicData true
      = Except.ok ([[0x59, 1, 7], [0x59, 1, 200]], 0) ∧
    decode demoThrift [0x59, 1, 7] = Except.ok (Except.ok 7) ∧
    decode demoThrift [0x59, 1, 200] = Except.ok (Except.ok 200) ∧
    demoThrift.toReplicationTask 7 = some 7 ∧
    demoThrift.toReplicationTask 200 = none ∧
    deserializeMessages demoThrift [[0x59, 1, 7], [0x59, 1, 200]] true
      = Except.error Halt.panic ∧
    parse demoThrift demoPanicData true 0 demoChannel
      = ⟨demoChannel, 0, some Halt.panic⟩ := by
  refine ⟨by decide, by rfl, by rfl, by rfl, by rfl, by rfl, by rfl, by rfl⟩

/-- C1, amended: in permissive mode, for a data slice that splits into an empty
lead and `N` non-empty groups (`N < 2^31`, the range of the `int32` counters),
`getMessages` returns the frames of the groups that have a marker byte. On
visibility messages `deserializeVisibilityMessages` returns: the messages are
those of the groups that have a marker byte and whose bytes after it decode,
the two skip counts add up to the number of the other groups, messages plus
skips make `N`, and `parse` sends the messages and adds that number to the skip
counter. On replication tasks the same holds of `deserializeMessages` provided
that the conversion panics on no decoded task; when it panics on one,
`deserializeMessages` panics and `parse` sends and counts nothing. -/
theorem parse_permissive_counts (cx : Thrift E W R V T) (data : List Byte)
    (gs : List (List Byte))
    (hS : Split r data = [] :: gs) (hne : ∀ g ∈ gs, g ≠ []) (hN : gs.length < 2147483648) :
    ∃ messages s1 s3,
      getMessages (E := E) data true = Except.ok (messages, s1) ∧
      deserializeVisibilityMessages cx messages true
        = Except.ok (gs.filterMap (groupMsg cx), s3) ∧
      s1 + s3 = ((gs.countP (fun g => (groupMsg cx g).isNone) : Nat) : Int) ∧
      (((gs.filterMap (groupMsg cx)).length : Nat) : Int) + (s1 + s3) = (gs.length : Int) ∧
      (∀ (skippedCount : Int) (writerCh : writerChannel T V) (q : List V),
        writerCh.msgType = kafkaMessageTypeVisibilityMsg →
        writerCh.VisibilityMsgChannel = some q →
        parse cx data true skippedCount writerCh =
          ⟨{ writerCh with VisibilityMsgChannel := some (q ++ gs.filterMap (groupMsg cx)) },
            wrapInt32 (skippedCount + ((gs.countP (fun g => (groupMsg cx g).isNone) : Nat) : Int)),
            none⟩) ∧
      ((∀ g ∈ gs, groupPanics cx g = false) →
        ∃ s2,
          deserializeMessages cx messages true = Except.ok (gs.filterMap (groupTask cx), s2) ∧
          s1 + s2 = ((gs.countP (fun g => (groupTask cx g).isNone) : Nat) : Int) ∧
          (((gs.filterMap (groupTask cx)).length : Nat) : Int) + (s1 + s2) = (gs.length : Int) ∧
          (∀ (skippedCount : Int) (writerCh : writerChannel T V) (q : List T),
            writerCh.msgType = kafkaMessageTypeReplicationTask →
            writerCh.ReplicationTaskChannel = some q →
            parse cx data true skippedCount writerCh =
              ⟨{ writerCh with
                  ReplicationTaskChannel := some (q ++ gs.filterMap (groupTask cx)) },
                wrapInt32 (skippedCount
                  + ((gs.countP (fun g => (groupTask cx g).isNone) : Nat) : Int)),
                none⟩)) ∧
      ((∃ g ∈ gs, groupPanics cx g = true) →
        deserializeMessages cx messages true = Except.error Halt.panic ∧
        (∀ (skippedCount : Int) (writerCh : writerChannel T V),
          writerCh.msgType = kafkaMessageTypeReplicationTask →
          parse cx data true skippedCount writerCh
            = ⟨writerCh, skippedCount, some Halt.panic⟩)) := by
  have hget := getMessages_ok (E := E) data true gs hS (fun m hm => ⟨hne m hm, by simp⟩)
  have hraw := rawFrame_ne_nil gs
  have hvis := deserializeVisibilityMessagesLoop_ok cx true (gs.filterMap rawFrame) [] 0
    (by decide) (fun m hm => ⟨hraw m hm, by simp⟩)
  have hlen1 := List.countP_le_length (fun m => (rawFrame m).isNone) (l := gs)
  have hlenf := List.length_filterMap_le rawFrame gs
  have hlen2 := List.countP_le_length (fun m => (frameTask cx m).isNone)
    (l := gs.filterMap rawFrame)
  have hlen3 := List.countP_le_length (fun m => (frameMsg cx m).isNone)
    (l := gs.filterMap rawFrame)
  have hc2 := countP_bind_isNone rawFrame (frameTask cx) gs
  have hc3 := countP_bind_isNone rawFrame (frameMsg cx) gs
  have hl2 := length_filterMap_add_countP (groupTask cx) gs
  have hl3 := length_filterMap_add_countP (groupMsg cx) gs
  have hw1 := wrapInt32_natCast (gs.countP (fun m => (rawFrame m).isNone))
    (lt_of_le_of_lt hlen1 hN)
  have hw2 := wrapInt32_natCast ((gs.filterMap rawFrame).countP (fun m => (frameTask cx m).isNone))
    (lt_of_le_of_lt (hlen2.trans hlenf) hN)
  have hw3 := wrapInt32_natCast ((gs.filterMap rawFrame).countP (fun m => (frameMsg cx m).isNone))
    (lt_of_le_of_lt (hlen3.trans hlenf) hN)
  have hg2 : (fun g => (groupTask cx g).isNone) = (fun x => ((rawFrame x).bind (frameTask cx)).isNone) := rfl
  have hg3 : (fun g => (groupMsg cx g).isNone) = (fun x => ((rawFrame x).bind (frameMsg cx)).isNone) := rfl
  have hf2 : (gs.filterMap rawFrame).filterMap (frameTask cx) = gs.filterMap (groupTask cx) :=
    filterMap_bind rawFrame (frameTask cx) gs
  have hf3 : (gs.filterMap rawFrame).filterMap (frameMsg cx) = gs.filterMap (groupMsg cx) :=
    filterMap_bind rawFrame (frameMsg cx) gs
  simp only [List.nil_append, zero_add] at hvis
  rw [hw3, hf3] at hvis
  rw [hw1] at hget
  refine ⟨_, _, _, hget, hvis, ?_, ?_, ?_, ?_, ?_⟩
  · rw [hg3, hc3]; push_cast; ring
  · rw [← hl3, hg3, hc3]; push_cast; ring
  · intro skippedCount writerCh q ht hq
    have hne01 : kafkaMessageTypeVisibilityMsg ≠ kafkaMessageTypeReplicationTask := by decide
    unfold parse
    rw [hget]
    simp only [ht, hne01, if_true, if_false]
    unfold deserializeVisibilityMessages
    rw [hvis]
    simp only [hq, sendAll]
    rw [wrapInt32_add_right, hg3, hc3]
    push_cast
    rfl
  · intro hnp
    have hdes := deserializeMessagesLoop_ok cx true (gs.filterMap rawFrame) [] 0 (by decide)
      (fun m hm => ⟨hraw m hm, by simp⟩) (framePanics_of_groups cx gs hnp)
    simp only [List.nil_append, zero_add] at hdes
    rw [hw2, hf2] at hdes
    refine ⟨_, hdes, ?_, ?_, ?_⟩
    · rw [hg2, hc2]; push_cast; ring
    · rw [← hl2, hg2, hc2]; push_cast; ring
    · intro skippedCount writerCh q ht hq
      unfold parse
      rw [hget]
      simp only [ht, if_true]
      unfold deserializeMessages
      rw [hdes]
      simp only [hq, sendAll]
      rw [wrapInt32_add_right, hg2, hc2]
      push_cast
      rfl
  · intro hp
    have hpm : ∃ m ∈ gs.filterMap rawFrame, framePanics cx m = true := by
      obtain ⟨g, hg, hgp⟩ := hp
      cases hr : rawFrame g with
      | none => simp [groupPanics, hr] at hgp
      | some m =>
        rw [groupPanics_of_rawFrame cx g m hr] at hgp
        exact ⟨m, List.mem_filterMap.mpr ⟨g, hg, hr⟩, hgp⟩
    have hdes := deserializeMessagesLoop_permissive_panic cx (gs.filterMap rawFrame) [] 0
      hraw hpm
    refine ⟨hdes, ?_⟩
    intro skippedCount writerCh ht
    unfold parse
    rw [hget]
    simp only [ht, if_true]
    unfold deserializeMessages
    rw [hdes]

/-- Witness of C1 (amended): three groups, two of them corrupted, and no panic
of the conversion. -/
theorem parse_permissive_counts_witness :
    Split r demoData = [] :: demoGroups ∧ (∀ g ∈ demoGroups, g ≠ []) ∧
    demoGroups.length < 2147483648 ∧
    (∀ g ∈ demoGroups, groupPanics demoThrift g = false) ∧
    demoGroups.filterMap (groupTask demoThrift) = [7] ∧
    ∃ messages s1 s3,
      getMessages (E := Unit) demoData true = Except.ok (messages, s1) ∧
      deserializeVisibilityMessages demoThrift messages true
        = Except.ok (demoGroups.filterMap (groupMsg demoThrift), s3) ∧
      s1 + s3 = ((demoGroups.countP (fun g => (groupMsg demoThrift g).isNone) : Nat) : Int) ∧
      (((demoGroups.filterMap (groupMsg demoThrift)).length : Nat) : Int) + (s1 + s3)
        = (demoGroups.length : Int) ∧
      (∀ (skippedCount : Int) (writerCh : writerChannel Nat Nat) (q : List Nat),
        writerCh.msgType = kafkaMessageTypeVisibilityMsg →
        writerCh.VisibilityMsgChannel = some q →
        parse demoThrift demoData true skippedCount writerCh =
          ⟨{ writerCh with
              VisibilityMsgChannel := some (q ++ demoGroups.filterMap (groupMsg demoThrift)) },
            wrapInt32 (skippedCount
              + ((demoGroups.countP (fun g => (groupMsg demoThrift g).isNone) : Nat) : Int)),
            none⟩) ∧
      ((∀ g ∈ demoGroups, groupPanics demoThrift g = false) →
        ∃ s2,
          deserializeMessages demoThrift messages true
            = Except.ok (demoGroups.filterMap (groupTask demoThrift), s2) ∧
          s1 + s2
            = ((demoGroups.countP (fun g => (groupTask demoThrift g).isNone) : Nat) : Int) ∧
          (((demoGroups.filterMap (groupTask demoThrift)).length : Nat) : Int) + (s1 + s2)
            = (demoGroups.length : Int) ∧
          (∀ (skippedCount : Int) (writerCh : writerChannel Nat Nat) (q : List Nat),
            writerCh.msgType = kafkaMessageTypeReplicationTask →
            writerCh.ReplicationTaskChannel = some q →
            parse demoThrift demoData true skippedCount writerCh =
              ⟨{ writerCh with
                  ReplicationTaskChannel
                    := some (q ++ demoGroups.filterMap (groupTask demoThrift)) },
                wrapInt32 (skippedCount
                  + ((demoGroups.countP (fun g => (groupTask demoThrift g).isNone) : Nat) : Int)),
                none⟩)) ∧
      ((∃ g ∈ demoGroups, groupPanics demoThrift g = true) →
        deserializeMessages demoThrift messages true = Except.error Halt.panic ∧
        (∀ (skippedCount : Int) (writerCh : writerChannel Nat Nat),
          writerCh.msgType = kafkaMessageTypeReplicationTask →
          parse demoThrift demoData true skippedCount writerCh
            = ⟨writerCh, skippedCount, some Halt.panic⟩)) :=
  ⟨by decide, by decide, by decide, by decide, by decide,
    parse_permissive_counts demoThrift demoData demoGroups (by decide) (by decide) (by decide)⟩


/-- C2, counterexample: in strict mode, on one chunk with three frames of which
the second is the first that does not decode, the parser ends the process
without having sent the message `7` of the first frame: `parse` decodes all the
frames of a data slice before it sends any of them. And on one chunk with two
frames of which the second is the first that does not decode, while the first
decodes to a value on which the conversion panics, the run ends with that
panic, not with the malformed-input error. -/
theorem startParser_strict_sends_nothing_of_failing_slice :
    groups demoStream = [[107, 0x59, 1, 7], [0x59, 2], [0x59, 1, 9]] ∧
    groupTask demoThrift [107, 0x59, 1, 7] = some 7 ∧
    groupTask demoThrift [0x59, 2] = none ∧
    startParser demoThrift [demoStream] demoChannel false 0
      = ⟨⟨kafkaMessageTypeReplicationTask, some [], none⟩, 0,
          some (Halt.exit malformedMessage (Cause.decodeError ()))⟩ ∧
    groups demoPanicStream = [[0x59, 1, 200], [0x59, 2]] ∧
    decode demoThrift [0x59, 1, 200] = Except.ok (Except.ok 200) ∧
    demoThrift.toReplicationTask 200 = none ∧
    decode demoThrift [0x59, 2] = Except.ok (Except.error ()) ∧
    startParser demoThrift [demoPanicStream] demoChannel false 0
      = ⟨⟨kafkaMessageTypeReplicationTask, some [], none⟩, 0, some Halt.panic⟩ := by
  refine ⟨by decide, by decide, by decide, by rfl, by decide, by rfl, by rfl, by rfl, by rfl⟩

/-- C2, amended: in strict mode, when `parse` returns on the data slices `pre`
and does not on the next slice `d` (the slice of the first corrupted frame),
the run stops there; the channel of the configured kind then holds, after what
it held, exactly the messages of all the frames of the slices `pre`, in order,
and nothing of the slice `d`; when that channel is not nil the run has ended
with the malformed-input error, or, on replication tasks, with the panic of the
conversion on a decoded task of the slice `d`. -/
theorem startParser_strict_abort (cx : Thrift E W R V T) (chunks : List (List Byte))
    (wc : writerChannel T V) (sk : Int) (pre : List (List Byte)) (d : List Byte)
    (post : List (List Byte))
    (hds : dataSlices chunks [] = pre ++ d :: post)
    (hpre : ∀ x ∈ pre, parseSucceeds cx false wc (Split r x))
    (hd : ¬ parseSucceeds cx false wc (Split r d)) :
    ∃ h, (startParser cx chunks wc false sk).halted = some h ∧
      (wc.msgType = kafkaMessageTypeReplicationTask →
        (startParser cx chunks wc false sk).writerCh.ReplicationTaskChannel
          = wc.ReplicationTaskChannel.map (· ++ (pre.flatMap groups).filterMap (groupTask cx)) ∧
        ((pre.flatMap groups).filterMap (groupTask cx)).map some
          = (pre.flatMap groups).map (groupTask cx) ∧
        (wc.ReplicationTaskChannel ≠ none →
          (∃ cause, h = Halt.exit malformedMessage cause) ∨
          (h = Halt.panic ∧ ∃ g ∈ groups d, groupPanics cx g = true))) ∧
      (wc.msgType = kafkaMessageTypeVisibilityMsg →
        (startParser cx chunks wc false sk).writerCh.VisibilityMsgChannel
          = wc.VisibilityMsgChannel.map (· ++ (pre.flatMap groups).filterMap (groupMsg cx)) ∧
        ((pre.flatMap groups).filterMap (groupMsg cx)).map some
          = (pre.flatMap groups).map (groupMsg cx) ∧
        (wc.VisibilityMsgChannel ≠ none → ∃ cause, h = Halt.exit malformedMessage cause)) := by
  have hne01 : kafkaMessageTypeVisibilityMsg ≠ kafkaMessageTypeReplicationTask := by decide
  obtain ⟨h1, sk1, h, h2, h3⟩ := parseAll_append_fail cx false pre d post sk wc hpre hd
  have hrun : startParser cx chunks wc false sk
      = parseAll cx false (pre ++ d :: post) sk wc := by
    unfold startParser
    rcases startParserLoop_eq cx false chunks [] sk wc with g1 | ⟨g1, _, _⟩
    · rw [g1, hds]
    · rw [hds, h2] at g1
      cases g1
  obtain ⟨s1, s2, s3⟩ := parseResult_shape cx sk wc (pre.flatMap groups)
  have hkind := parse_halted_exit cx d false sk1 _ h h3
  rw [s1, s2, s3] at hkind
  refine ⟨h, by rw [hrun, h2], ?_, ?_⟩
  · intro hty
    refine ⟨?_, ?_, ?_⟩
    · rw [hrun, h1]
      unfold parseResult
      rw [if_pos hty]
    · apply filterMap_map_some_of_ne_none
      intro g hg
      obtain ⟨x, hx, hgx⟩ := List.mem_flatMap.mp hg
      exact ((hpre x hx).2.2.1 hty).1 g hgx rfl
    · intro hq
      rcases hkind with hk | ⟨_, ⟨_, hk⟩ | ⟨hk, _⟩⟩ | ⟨hk, _, hg⟩
      · exact Or.inl hk
      · exact absurd hk hq
      · rw [hty] at hk
        exact absurd hk.symm hne01
      · exact Or.inr ⟨hk, hg⟩
  · intro hty
    have hty0 : wc.msgType ≠ kafkaMessageTypeReplicationTask := by
      rw [hty]; exact hne01
    refine ⟨?_, ?_, ?_⟩
    · rw [hrun, h1]
      unfold parseResult
      rw [if_neg hty0, if_pos hty]
    · apply filterMap_map_some_of_ne_none
      intro g hg
      obtain ⟨x, hx, hgx⟩ := List.mem_flatMap.mp hg
      exact ((hpre x hx).2.2.2 hty).1 g hgx rfl
    · intro hq
      rcases hkind with hk | ⟨_, ⟨hk, _⟩ | ⟨_, hk⟩⟩ | ⟨_, hk, _⟩
      · exact hk
      · exact absurd hk hty0
      · exact absurd hk hq
      · exact absurd hk hty0

/-- Witness of C2 (amended): the first frame arrives in a chunk of its own, so
its message `7` is sent before the second frame ends the run. -/
theorem startParser_strict_abort_witness :
    dataSlices demoChunks []
      = [demoHeader ++ [107, 0x59, 1, 7]] ++ (demoHeader ++ [0x59, 2])
          :: [demoHeader ++ [0x59, 1, 9]] ∧
    parseSucceeds demoThrift false demoChannel (Split r (demoHeader ++ [107, 0x59, 1, 7])) ∧
    ¬ parseSucceeds demoThrift false demoChannel (Split r (demoHeader ++ [0x59, 2])) ∧
    startParser demoThrift demoChunks demoChannel false 0
      = ⟨⟨kafkaMessageTypeReplicationTask, some [7], none⟩, 0,
          some (Halt.exit malformedMessage (Cause.decodeError ()))⟩ ∧
    ∃ h, (startParser demoThrift demoChunks demoChannel false 0).halted = some h ∧
      (demoChannel.msgType = kafkaMessageTypeReplicationTask →
        (startParser demoThrift demoChunks demoChannel false 0).writerCh.ReplicationTaskChannel
          = demoChannel.ReplicationTaskChannel.map
              (· ++ ([demoHeader ++ [107, 0x59, 1, 7]].flatMap groups).filterMap
                (groupTask demoThrift)) ∧
        (([demoHeader ++ [107, 0x59, 1, 7]].flatMap groups).filterMap
            (groupTask demoThrift)).map some
          = ([demoHeader ++ [107, 0x59, 1, 7]].flatMap groups).map (groupTask demoThrift) ∧
        (demoChannel.ReplicationTaskChannel ≠ none →
          (∃ cause, h = Halt.exit malformedMessage cause) ∨
          (h = Halt.panic ∧ ∃ g ∈ groups (demoHeader ++ [0x59, 2]),
            groupPanics demoThrift g = true))) ∧
      (demoChannel.msgType = kafkaMessageTypeVisibilityMsg →
        (startParser demoThrift demoChunks demoChannel false 0).writerCh.VisibilityMsgChannel
          = demoChannel.VisibilityMsgChannel.map
              (· ++ ([demoHeader ++ [107, 0x59, 1, 7]].flatMap groups).filterMap
                (groupMsg demoThrift)) ∧
        (([demoHeader ++ [107, 0x59, 1, 7]].flatMap groups).filterMap
            (groupMsg demoThrift)).map some
          = ([demoHeader ++ [107, 0x59, 1, 7]].flatMap groups).map (groupMsg demoThrift) ∧
        (demoChannel.VisibilityMsgChannel ≠ none →
          ∃ cause, h = Halt.exit malformedMessage cause)) :=
  ⟨by decide, by unfold parseSucceeds; decide, by unfold parseSucceeds; decide, by rfl,
    startParser_strict_abort demoThrift demoChunks demoChannel 0
      [demoHeader ++ [107, 0x59, 1, 7]] (demoHeader ++ [0x59, 2])
      [demoHeader ++ [0x59, 1, 9]] (by decide)
      (fun x hx => by
        rw [List.mem_singleton] at hx
        subst hx
        unfold parseSucceeds
        decide)
      (by unfold parseSucceeds; decide)⟩

/-- C3: in every run, whatever the mode, the chunking and the way the run ends,
the messages the parser has sent are the messages of the first frames of the
input, taken in the order of the frames and leaving out the frames that give
no message: the channel of the configured kind holds, after what it held, the
messages of a prefix `frames` of the groups of the whole input, and as a
sequence they are a sublist of the per-frame results; the other channel is
untouched. And whatever part `received` of the sent messages the writer has
received, in JSON mode and in header mode, and however it ends, the lines it
has written are, after what the file held, the lines of a prefix `written` of
those frames, in the order of the frames and leaving out the frames that give
no line; when the writer has received all the messages and returns, they are
the lines of all of `frames`. -/
theorem startParser_preserves_order (cx : Thrift E W R Message (ReplicationTask Blob))
    (cd : Codec E Blob H) (chunks : List (List Byte))
    (wc : writerChannel (ReplicationTask Blob) Message) (skipErrors : Bool) (sk : Int) :
    ∃ frames, frames <+: groups chunks.flatten ∧
      (wc.msgType = kafkaMessageTypeReplicationTask →
        (startParser cx chunks wc skipErrors sk).writerCh.ReplicationTaskChannel
          = wc.ReplicationTaskChannel.map (· ++ frames.filterMap (groupTask cx)) ∧
        (startParser cx chunks wc skipErrors sk).writerCh.VisibilityMsgChannel
          = wc.VisibilityMsgChannel) ∧
      (wc.msgType = kafkaMessageTypeVisibilityMsg →
        (startParser cx chunks wc skipErrors sk).writerCh.VisibilityMsgChannel
          = wc.VisibilityMsgChannel.map (· ++ frames.filterMap (groupMsg cx)) ∧
        (startParser cx chunks wc skipErrors sk).writerCh.ReplicationTaskChannel
          = wc.ReplicationTaskChannel) ∧
      (wc.msgType ≠ kafkaMessageTypeReplicationTask →
        wc.msgType ≠ kafkaMessageTypeVisibilityMsg →
        (startParser cx chunks wc skipErrors sk).writerCh = wc) ∧
      List.Sublist ((frames.filterMap (groupTask cx)).map some) (frames.map (groupTask cx)) ∧
      List.Sublist ((frames.filterMap (groupMsg cx)).map some) (frames.map (groupMsg cx)) ∧
      (∀ (received : List (ReplicationTask Blob)) (outputFile : OutputFile E) (count : Int)
          (skipErrMode headerMode : Bool) (workflowID runID : List Byte),
        received <+: frames.filterMap (groupTask cx) →
        (∃ written, written <+: frames ∧
          (writeReplicationTaskLoop cd workflowID runID skipErrMode headerMode received
              outputFile count).outputFile.written
            = outputFile.written
              ++ written.filterMap (groupTaskLine cx cd workflowID runID headerMode) ∧
          List.Sublist
            ((written.filterMap (groupTaskLine cx cd workflowID runID headerMode)).map some)
            (written.map (groupTaskLine cx cd workflowID runID headerMode))) ∧
        (received = frames.filterMap (groupTask cx) →
          (writeReplicationTaskLoop cd workflowID runID skipErrMode headerMode received
              outputFile count).halted = none →
          (writeReplicationTaskLoop cd workflowID runID skipErrMode headerMode received
              outputFile count).outputFile.written
            = outputFile.written
              ++ frames.filterMap (groupTaskLine cx cd workflowID runID headerMode))) ∧
      (∀ (received : List Message) (outputFile : OutputFile E) (count : Int)
          (skipErrMode headerMode : Bool) (workflowID runID : List Byte),
        received <+: frames.filterMap (groupMsg cx) →
        (∃ written, written <+: frames ∧
          (writeVisibilityMessageLoop cd workflowID runID skipErrMode headerMode received
              outputFile count).outputFile.written
            = outputFile.written
              ++ written.filterMap (groupMsgLine cx cd workflowID runID headerMode) ∧
          List.Sublist
            ((written.filterMap (groupMsgLine cx cd workflowID runID headerMode)).map some)
            (written.map (groupMsgLine cx cd workflowID runID headerMode))) ∧
        (received = frames.filterMap (groupMsg cx) →
          (writeVisibilityMessageLoop cd workflowID runID skipErrMode headerMode received
              outputFile count).halted = none →
          (writeVisibilityMessageLoop cd workflowID runID skipErrMode headerMode received
              outputFile count).outputFile.written
            = outputFile.written
              ++ frames.filterMap (groupMsgLine cx cd workflowID runID headerMode))) := by
  have hne01 : kafkaMessageTypeVisibilityMsg ≠ kafkaMessageTypeReplicationTask := by decide
  obtain ⟨frames, hpre, hw⟩ := startParser_writerCh cx chunks wc skipErrors sk
  refine ⟨frames, hpre, ?_, ?_, ?_, filterMap_map_some_sublist _ _,
    filterMap_map_some_sublist _ _, ?_, ?_⟩
  · intro hty
    rw [hw]
    unfold parseResult
    rw [if_pos hty]
    exact ⟨rfl, rfl⟩
  · intro hty
    have hty0 : wc.msgType ≠ kafkaMessageTypeReplicationTask := by
      rw [hty]; exact hne01
    rw [hw]
    unfold parseResult
    rw [if_neg hty0, if_pos hty]
    exact ⟨rfl, rfl⟩
  · intro hty0 hty1
    rw [hw]
    unfold parseResult
    rw [if_neg hty0, if_neg hty1]
  · intro received outputFile count skipErrMode headerMode workflowID runID hrec
    obtain ⟨handled, h1, h2, h3⟩ := writeReplicationTaskLoop_written cd workflowID runID
      skipErrMode headerMode received outputFile count
    refine ⟨?_, fun hall hh => ?_⟩
    · obtain ⟨written, g1, g2⟩ := prefix_filterMap (groupTask cx) frames handled
        (List.IsPrefix.trans h1 hrec)
      refine ⟨written, g1, ?_, filterMap_map_some_sublist _ _⟩
      rw [h2, ← g2, filterMap_bind]
      rfl
    · rw [h2, h3 hh, hall, filterMap_bind]
      rfl
  · intro received outputFile count skipErrMode headerMode workflowID runID hrec
    obtain ⟨handled, h1, h2, h3⟩ := writeVisibilityMessageLoop_written cd workflowID runID
      skipErrMode headerMode received outputFile count
    refine ⟨?_, fun hall hh => ?_⟩
    · obtain ⟨written, g1, g2⟩ := prefix_filterMap (groupMsg cx) frames handled
        (List.IsPrefix.trans h1 hrec)
      refine ⟨written, g1, ?_, filterMap_map_some_sublist _ _⟩
      rw [h2, ← g2, filterMap_bind]
      rfl
    · rw [h2, h3 hh, hall, filterMap_bind]
      rfl

/-- Witness of C3: three frames of which the second does not decode, in
permissive mode. The parser sends the tasks of the workflows `A` and `B` in
that order, and the writer writes their lines in that order, in header mode
and in JSON mode. -/
theorem startParser_preserves_order_witness :
    (startParser demoPipelineThrift [demoPipelineStream]
        (newWriterChannel kafkaMessageTypeReplicationTask) true 0).writerCh.ReplicationTaskChannel
      = some [⟨some 5, some ⟨ascii "d1", ascii "A", ascii "X", some 65, none⟩⟩,
          ⟨some 5, some ⟨ascii "d1", ascii "B", ascii "X", some 66, none⟩⟩] ∧
    (startParser demoPipelineThrift [demoPipelineStream]
        (newWriterChannel kafkaMessageTypeReplicationTask) true 0).skippedCount = 1 ∧
    (startWriter demoCodec demoFile
        (startParser demoPipelineThrift [demoPipelineStream]
          (newWriterChannel kafkaMessageTypeReplicationTask) true 0).writerCh
        0 true true [] []).outputFile.written = [ascii "d1, A, X\n", ascii "d1, B, X\n"] ∧
    (startWriter demoCodec demoFile
        (startParser demoPipelineThrift [demoPipelineStream]
          (newWriterChannel kafkaMessageTypeReplicationTask) true 0).writerCh
        0 true false [] []).outputFile.written = [ascii "v2 p\n", ascii "v2 q\n"] ∧
    ∃ frames, frames <+: groups [demoPipelineStream].flatten ∧
      (startParser demoPipelineThrift [demoPipelineStream]
        (newWriterChannel kafkaMessageTypeReplicationTask) true 0).writerCh.ReplicationTaskChannel
        = some ([] ++ frames.filterMap (groupTask demoPipelineThrift)) ∧
      ∃ written, written <+: frames ∧
        (writeReplicationTaskLoop demoCodec [] [] true true
            (frames.filterMap (groupTask demoPipelineThrift)) demoFile 0).outputFile.written
          = demoFile.written
            ++ written.filterMap (groupTaskLine demoPipelineThrift demoCodec [] [] true) := by
  refine ⟨by rfl, by rfl, by rfl, by rfl, ?_⟩
  obtain ⟨frames, h1, h2, _, _, _, _, h3, _⟩ :=
    startParser_preserves_order demoPipelineThrift demoCodec [demoPipelineStream]
      (newWriterChannel kafkaMessageTypeReplicationTask) true 0
  obtain ⟨written, g1, g2, _⟩ := (h3 (frames.filterMap (groupTask demoPipelineThrift)) demoFile 0
    true true [] [] (List.prefix_refl _)).1
  exact ⟨frames, h1, (h2 rfl).1, written, g1, g2⟩

/-- C4, counterexample: the payload `Y 1 <header text> 7` lies between two real
headers of one buffer; `splitBuffer` cuts at the last header, and `getMessages`
then cuts the payload at the match it contains: the raw frame is `Y 1` only, and
the rest of the payload is a group of its own (skipped in permissive mode, fatal
in strict mode). -/
theorem split_payload_with_header_text_is_cut :
    splitBuffer (E := Unit) demoNestedBuffer
      = Except.ok (demoHeader ++ ([0x59, 1] ++ ascii "Partition: 9, Offset: 9, Key: " ++ [7]),
          demoHeader ++ [0x59, 1, 9]) ∧
    getMessages (E := Unit)
        (demoHeader ++ ([0x59, 1] ++ ascii "Partition: 9, Offset: 9, Key: " ++ [7])) true
      = Except.ok ([[0x59, 1]], 1) ∧
    getMessages (E := Unit)
        (demoHeader ++ ([0x59, 1] ++ ascii "Partition: 9, Offset: 9, Key: " ++ [7])) false
      = Except.error (Halt.exit malformedMessage Cause.noPreamble) ∧
    ([0x59, 1] ++ ascii "Partition: 9, Offset: 9, Key: " ++ [7]) ∉ [[(0x59 : Byte), 1]] := by
  refine ⟨by rfl, by rfl, by rfl, by decide⟩

/-- C4, amended: `splitBuffer` cuts the buffer at its last match only, but
`getMessages` cuts the data before it at every match of the header expression,
those inside a payload included: no raw frame it returns contains a match, so a
payload that contains one comes out cut at that match and not as one frame. -/
theorem split_then_getMessages_frames_no_match (buffer data nextBuffer : List Byte)
    (skipErrors : Bool) (raws : List (List Byte)) (k : Int)
    (hs : splitBuffer (E := E) buffer = Except.ok (data, nextBuffer))
    (hg : getMessages (E := E) data skipErrors = Except.ok (raws, k)) :
    (∃ i e, (FindAllIndex r buffer).getLast? = some (i, e) ∧
      data = buffer.take i ∧ nextBuffer = buffer.drop i) ∧
    (∀ g ∈ Split r data, FindAllIndex r g = []) ∧
    (∀ m ∈ raws, FindAllIndex r m = []) := by
  refine ⟨?_, Split_pieces_no_match data.length data (le_refl _), ?_⟩
  · unfold splitBuffer at hs
    by_cases hlen : (FindAllIndex r buffer).length = 0
    · simp [hlen, ErrorAndExit] at hs
    · cases hl : (FindAllIndex r buffer).getLast? with
      | none => simp [hlen, hl] at hs
      | some m =>
        obtain ⟨i, e⟩ := m
        simp only [hlen, if_false, hl] at hs
        injection hs with hs
        injection hs with h1 h2
        exact ⟨i, e, rfl, h1.symm, h2.symm⟩
  · intro m hm
    obtain ⟨_, _, hraws⟩ := getMessages_frames data skipErrors raws k hg
    rw [hraws, List.mem_filterMap] at hm
    obtain ⟨g, hgm, hr⟩ := hm
    obtain ⟨pre, rest, h1, _, _⟩ := rawFrame_some g m hr
    have hg0 := Split_pieces_no_match data.length data (le_refl _) g
      (List.mem_of_mem_tail hgm)
    rw [h1] at hg0
    exact FindAllIndex_nil_of_suffix pre m hg0

/-- Witness of C4 (amended), on the buffer of the counterexample. -/
theorem split_then_getMessages_frames_no_match_witness :
    splitBuffer (E := Unit) demoNestedBuffer
      = Except.ok (demoHeader ++ ([0x59, 1] ++ ascii "Partition: 9, Offset: 9, Key: " ++ [7]),
          demoHeader ++ [0x59, 1, 9]) ∧
    getMessages (E := Unit)
        (demoHeader ++ ([0x59, 1] ++ ascii "Partition: 9, Offset: 9, Key: " ++ [7])) true
      = Except.ok ([[0x59, 1]], 1) ∧
    (∃ i e, (FindAllIndex r demoNestedBuffer).getLast? = some (i, e) ∧
      demoHeader ++ ([0x59, 1] ++ ascii "Partition: 9, Offset: 9, Key: " ++ [7])
        = demoNestedBuffer.take i ∧
      demoHeader ++ [0x59, 1, 9] = demoNestedBuffer.drop i) ∧
    (∀ g ∈ Split r (demoHeader ++ ([0x59, 1] ++ ascii "Partition: 9, Offset: 9, Key: " ++ [7])),
      FindAllIndex r g = []) ∧
    (∀ m ∈ [[(0x59 : Byte), 1]], FindAllIndex r m = []) :=
  ⟨by rfl, by rfl,
    split_then_getMessages_frames_no_match (E := Unit) demoNestedBuffer _ _ true _ 1
      (by rfl) (by rfl)⟩

/-- C5, counterexample: a header cut by the first chunk boundary. In two chunks
the first one holds no complete header and `splitBuffer` ends the process; in
one chunk the same input is parsed and its message `9` sent. (And when the run
fails in both cases, as in strict mode on `demoStream`, the messages sent before
the failure differ: `7` was sent when the first frame came in a chunk of its
own, nothing when all came in one chunk.) -/
theorem chunk_boundary_changes_outcome :
    List.flatten [demoHeader.take 10, demoHeader.drop 10 ++ [0x59, 1, 9]]
      = demoHeader ++ [0x59, 1, 9] ∧
    startParser demoThrift [demoHeader.take 10, demoHeader.drop 10 ++ [0x59, 1, 9]]
        demoChannel true 0
      = ⟨demoChannel, 0, some (Halt.exit malformedMessage Cause.headerNotFound)⟩ ∧
    startParser demoThrift [demoHeader ++ [0x59, 1, 9]] demoChannel true 0
      = ⟨⟨kafkaMessageTypeReplicationTask, some [9], none⟩, 0, none⟩ ∧
    List.flatten demoChunks = demoStream ∧
    startParser demoThrift demoChunks demoChannel false 0
      = ⟨⟨kafkaMessageTypeReplicationTask, some [7], none⟩, 0,
          some (Halt.exit malformedMessage (Cause.decodeError ()))⟩ ∧
    startParser demoThrift [demoStream] demoChannel false 0
      = ⟨demoChannel, 0, some (Halt.exit malformedMessage (Cause.decodeError ()))⟩ := by
  refine ⟨by decide, by rfl, by rfl, by decide, by rfl, by rfl⟩

/-- C5, amended: when the first chunk holds a match of the header expression, the
way the input is cut into chunks does not change whether `startParser`
returns, nor what it leaves when it returns: it returns exactly when it does on
the whole input in one chunk (which is when one call of `parse` on the whole
input would), and then with the same channel contents and the same skip count.
When it does not return, it does not return on the single chunk either (the
messages sent before may differ). When the first chunk holds no match of the
header expression, `startParser` ends at once in `splitBuffer` with the
malformed-input error, whatever the other chunks are, having sent and counted
nothing. -/
theorem startParser_chunking (cx : Thrift E W R V T) (c : List Byte)
    (cs : List (List Byte)) (wc : writerChannel T V) (skipErrors : Bool) (sk : Int) :
    (FindAllIndex r c ≠ [] →
      ((startParser cx (c :: cs) wc skipErrors sk).halted = none
        ↔ (startParser cx [(c :: cs).flatten] wc skipErrors sk).halted = none) ∧
      ((startParser cx (c :: cs) wc skipErrors sk).halted = none →
        startParser cx (c :: cs) wc skipErrors sk
          = startParser cx [(c :: cs).flatten] wc skipErrors sk) ∧
      ((startParser cx (c :: cs) wc skipErrors sk).halted = none
        ↔ parseSucceeds cx skipErrors wc (Split r (c :: cs).flatten)) ∧
      ((startParser cx (c :: cs) wc skipErrors sk).halted = none →
        startParser cx (c :: cs) wc skipErrors sk
          = parseResult cx sk wc (groups (c :: cs).flatten))) ∧
    (FindAllIndex r c = [] →
      startParser cx (c :: cs) wc skipErrors sk
        = ⟨wc, sk, some (Halt.exit malformedMessage Cause.headerNotFound)⟩) := by
  refine ⟨fun h => ?_, fun h1 => ?_⟩
  · have hW : FindAllIndex r (c :: cs).flatten ≠ [] := by
      intro h0
      rw [List.flatten_cons] at h0
      exact h (FindAllIndex_nil_of_append _ _ h0)
    obtain ⟨a1, a2⟩ := startParser_of_header cx c cs wc skipErrors sk h
    obtain ⟨b1, b2⟩ := startParser_of_header cx (c :: cs).flatten [] wc skipErrors sk hW
    have hflat : [(c :: cs).flatten].flatten = (c :: cs).flatten := by simp
    rw [hflat] at b1 b2
    refine ⟨a1.trans b1.symm, fun hh => ?_, a1, fun hh => a2 (a1.mp hh)⟩
    rw [a2 (a1.mp hh), b2 (a1.mp hh)]
  · unfold startParser startParserLoop splitBuffer
    simp [h1, ErrorAndExit]

/-- Witness of C5 (amended): a header cut by the boundary between the first and
the second chunk, in permissive mode; and a first chunk that ends inside the
first header. -/
theorem startParser_chunking_witness :
    FindAllIndex r (demoHeader ++ [0x59, 1, 7] ++ demoHeader.take 5) ≠ [] ∧
    startParser demoThrift [demoHeader ++ [0x59, 1, 7] ++ demoHeader.take 5,
        demoHeader.drop 5 ++ [0x59, 2] ++ demoHeader ++ [107]] demoChannel true 0
      = ⟨⟨kafkaMessageTypeReplicationTask, some [7], none⟩, 2, none⟩ ∧
    startParser demoThrift [demoHeader ++ [0x59, 1, 7] ++ demoHeader.take 5,
        demoHeader.drop 5 ++ [0x59, 2] ++ demoHeader ++ [107]] demoChannel true 0
      = startParser demoThrift [((demoHeader ++ [0x59, 1, 7] ++ demoHeader.take 5)
          :: [demoHeader.drop 5 ++ [0x59, 2] ++ demoHeader ++ [107]]).flatten]
          demoChannel true 0 ∧
    FindAllIndex r (demoHeader.take 10) = [] ∧
    startParser demoThrift [demoHeader.take 10, demoHeader.drop 10 ++ [0x59, 1, 9]]
        demoChannel false 5
      = ⟨demoChannel, 5, some (Halt.exit malformedMessage Cause.headerNotFound)⟩ :=
  ⟨by decide, by rfl,
    ((startParser_chunking demoThrift (demoHeader ++ [0x59, 1, 7] ++ demoHeader.take 5)
      [demoHeader.drop 5 ++ [0x59, 2] ++ demoHeader ++ [107]] demoChannel true 0).1
      (by decide)).2.1 (by rfl),
    by decide,
    (startParser_chunking demoThrift (demoHeader.take 10)
      [demoHeader.drop 10 ++ [0x59, 1, 9]] demoChannel false 5).2 (by decide)⟩

/-- C6: for a buffer with at least one header match, `splitBuffer` returns
`(buffer[:i], buffer[i:])` where `(i, e)` is the last match found in the buffer;
the two parts make up the buffer again, and the second part starts with that
match (the header of length `e - i`). -/
theorem splitBuffer_at_last_match (buffer : List Byte) (h : FindAllIndex r buffer ≠ []) :
    ∃ i e, (FindAllIndex r buffer).getLast? = some (i, e) ∧
      splitBuffer (E := E) buffer = Except.ok (buffer.take i, buffer.drop i) ∧
      buffer.take i ++ buffer.drop i = buffer ∧
      i < e ∧ e ≤ buffer.length ∧
      matchItems r (buffer.drop i) = some (e - i) ∧
      (∃ rest, FindAllIndex r (buffer.drop i) = (0, e - i) :: rest) := by
  cases hl : (FindAllIndex r buffer).getLast? with
  | none => exact absurd (List.getLast?_eq_none_iff.mp hl) h
  | some m =>
    obtain ⟨i, e⟩ := m
    have hmem := List.mem_of_getLast?_eq_some hl
    obtain ⟨h1, h2, h3⟩ := FindAllIndex_spec r buffer i e hmem
    have hlen : (FindAllIndex r buffer).length ≠ 0 := fun h0 => h (List.length_eq_zero.mp h0)
    refine ⟨i, e, rfl, ?_, List.take_append_drop i buffer, h1, h2, h3,
      (FindAllIndex_cut buffer.length buffer (le_refl _) i e hmem).1⟩
    unfold splitBuffer
    simp only [hlen, if_false, hl]

/-- Witness of C6: a buffer with two headers is cut at the second one. -/
theorem splitBuffer_at_last_match_witness :
    FindAllIndex r (demoHeader ++ [0x59, 1, 7] ++ demoHeader ++ [0x59]) ≠ [] ∧
    ∃ i e, (FindAllIndex r (demoHeader ++ [0x59, 1, 7] ++ demoHeader ++ [0x59])).getLast?
        = some (i, e) ∧
      splitBuffer (E := Unit) (demoHeader ++ [0x59, 1, 7] ++ demoHeader ++ [0x59])
        = Except.ok ((demoHeader ++ [0x59, 1, 7] ++ demoHeader ++ [0x59]).take i,
            (demoHeader ++ [0x59, 1, 7] ++ demoHeader ++ [0x59]).drop i) ∧
      (demoHeader ++ [0x59, 1, 7] ++ demoHeader ++ [0x59]).take i
        ++ (demoHeader ++ [0x59, 1, 7] ++ demoHeader ++ [0x59]).drop i
        = demoHeader ++ [0x59, 1, 7] ++ demoHeader ++ [0x59] ∧
      i < e ∧ e ≤ (demoHeader ++ [0x59, 1, 7] ++ demoHeader ++ [0x59]).length ∧
      matchItems r ((demoHeader ++ [0x59, 1, 7] ++ demoHeader ++ [0x59]).drop i)
        = some (e - i) ∧
      (∃ rest, FindAllIndex r ((demoHeader ++ [0x59, 1, 7] ++ demoHeader ++ [0x59]).drop i)
        = (0, e - i) :: rest) :=
  ⟨by decide, splitBuffer_at_last_match _ (by decide)⟩


/-- C7: whenever `getMessages` returns, the raw frames are those of the groups
that have a marker byte, each one the suffix of its group (the text after the
header) that starts at the first `0x59`, all bytes before it being dropped; so
every raw frame is non-empty and starts with `0x59`, and `decode` and
`decodeVisibility` do not panic on `message[1:]` and hand the bytes after the
marker to the thrift decoder. -/
theorem getMessages_rawFrame_from_first_marker (cx : Thrift E W R V T) (data : List Byte)
    (skipErrors : Bool) (raws : List (List Byte)) (k : Int)
    (h : getMessages (E := E) data skipErrors = Except.ok (raws, k)) :
    raws = (groups data).filterMap rawFrame ∧
    (∀ g ∈ groups data, preambleVersion0 ∈ g →
      ∃ pre m, rawFrame g = some m ∧ m ∈ raws ∧ g = pre ++ m ∧ preambleVersion0 ∉ pre ∧
        m.head? = some preambleVersion0) ∧
    (∀ m ∈ raws, ∃ rest, m = preambleVersion0 :: rest ∧ m ≠ [] ∧
      decode cx m = Except.ok (match cx.binaryDecode rest with
        | Except.error err => Except.error err
        | Except.ok wireVal => cx.replicationTaskFromWire wireVal) ∧
      decodeVisibility cx m = Except.ok (match cx.binaryDecode rest with
        | Except.error err => Except.error err
        | Except.ok wireVal => cx.messageFromWire wireVal)) := by
  obtain ⟨_, _, hraws⟩ := getMessages_frames data skipErrors raws k h
  refine ⟨hraws, ?_, ?_⟩
  · intro g hg hmem
    cases hr : rawFrame g with
    | none => exact absurd hmem ((rawFrame_none g).mp hr)
    | some m =>
      obtain ⟨pre, rest, h1, h2, h3⟩ := rawFrame_some g m hr
      refine ⟨pre, m, rfl, ?_, h1, h2, by simp [h3]⟩
      rw [hraws, List.mem_filterMap]
      exact ⟨g, hg, hr⟩
  · intro m hm
    rw [hraws, List.mem_filterMap] at hm
    obtain ⟨g, _, hr⟩ := hm
    obtain ⟨pre, rest, _, _, h3⟩ := rawFrame_some g m hr
    refine ⟨rest, h3, by simp [h3], ?_, ?_⟩
    · rw [h3]; rfl
    · rw [h3]; rfl

/-- Witness of C7: a group `k Y 1 7` after a header gives the raw frame `Y 1 7`. -/
theorem getMessages_rawFrame_from_first_marker_witness :
    getMessages (E := Unit) (demoHeader ++ [107, 0x59, 1, 7]) true
      = Except.ok ([[0x59, 1, 7]], 0) ∧
    [[0x59, 1, 7]] = (groups (demoHeader ++ [107, 0x59, 1, 7])).filterMap rawFrame ∧
    (∀ g ∈ groups (demoHeader ++ [107, 0x59, 1, 7]), preambleVersion0 ∈ g →
      ∃ pre m, rawFrame g = some m ∧ m ∈ [[0x59, 1, 7]] ∧ g = pre ++ m ∧
        preambleVersion0 ∉ pre ∧ m.head? = some preambleVersion0) ∧
    (∀ m ∈ [[0x59, 1, 7]], ∃ rest, m = preambleVersion0 :: rest ∧ m ≠ [] ∧
      decode demoThrift m = Except.ok (match demoThrift.binaryDecode rest with
        | Except.error err => Except.error err
        | Except.ok wireVal => demoThrift.replicationTaskFromWire wireVal) ∧
      decodeVisibility demoThrift m = Except.ok (match demoThrift.binaryDecode rest with
        | Except.error err => Except.error err
        | Except.ok wireVal => demoThrift.messageFromWire wireVal)) :=
  ⟨by rfl, getMessages_rawFrame_from_first_marker demoThrift
    (demoHeader ++ [107, 0x59, 1, 7]) true [[0x59, 1, 7]] 0 (by rfl)⟩


/-- C8, counterexample: in permissive mode a group without marker byte is
skipped and counted, and `getMessages` returns. -/
theorem permissive_skips_group_without_marker :
    ¬ (∀ (data : List Byte) (skipErrors : Bool),
        (∃ g ∈ groups data, preambleVersion0 ∉ g) →
        ∃ cause, getMessages (E := Unit) data skipErrors =
          Except.error (Halt.exit malformedMessage cause)) := by
  intro h
  obtain ⟨cause, hc⟩ := h (demoHeader ++ [107]) true ⟨[107], by decide, by decide⟩
  have hok : getMessages (E := Unit) (demoHeader ++ [107]) true = Except.ok ([], 1) := by rfl
  rw [hok] at hc
  cases hc

/-- C8, amended: a group without marker byte makes `getMessages` end the process
with the malformed-input message in strict mode; in permissive mode, when the
data starts with a header and no group is empty, `getMessages` returns the raw
frames of the other groups and returns as skip count the number of the groups
without marker byte (as an `int32`), of which there is at least one. -/
theorem getMessages_no_marker (data : List Byte)
    (h : ∃ g ∈ groups data, preambleVersion0 ∉ g) :
    (∃ cause, getMessages (E := E) data false =
      Except.error (Halt.exit malformedMessage cause)) ∧
    ((Split r data).head? = some [] → (∀ g ∈ groups data, g ≠ []) →
      getMessages (E := E) data true =
        Except.ok ((groups data).filterMap rawFrame,
          wrapInt32 (((groups data).countP (fun g => decide (preambleVersion0 ∉ g)) : Nat) : Int)) ∧
      1 ≤ (groups data).countP (fun g => decide (preambleVersion0 ∉ g))) := by
  obtain ⟨g, hg, hno⟩ := h
  constructor
  · apply getMessages_error
    intro hall
    exact (hall g hg).2 rfl ((rawFrame_none g).mpr hno)
  · intro hhead hne
    have hS : Split r data = [] :: groups data := by
      unfold groups
      cases hs : Split r data with
      | nil => rw [hs] at hhead; simp at hhead
      | cons first gs => rw [hs] at hhead; simp at hhead; simp [hhead]
    have hcount : (groups data).countP (fun m => (rawFrame m).isNone)
        = (groups data).countP (fun g => decide (preambleVersion0 ∉ g)) := by
      apply List.countP_congr
      intro x _
      simp only [Option.isNone_iff_eq_none, rawFrame_none, decide_eq_true_eq]
    constructor
    · rw [getMessages_ok data true (groups data) hS (fun m hm => ⟨hne m hm, by simp⟩), hcount]
    · apply List.countP_pos_iff.mpr
      exact ⟨g, hg, by simpa using hno⟩

/-- Witness of C8 (amended): one group with a marker byte, one without. -/
theorem getMessages_no_marker_witness :
    (∃ g ∈ groups (demoHeader ++ [0x59, 1, 7] ++ demoHeader ++ [107]), preambleVersion0 ∉ g) ∧
    (∃ cause, getMessages (E := Unit) (demoHeader ++ [0x59, 1, 7] ++ demoHeader ++ [107]) false =
      Except.error (Halt.exit malformedMessage cause)) ∧
    getMessages (E := Unit) (demoHeader ++ [0x59, 1, 7] ++ demoHeader ++ [107]) true =
      Except.ok ([[0x59, 1, 7]], 1) ∧
    1 ≤ (groups (demoHeader ++ [0x59, 1, 7] ++ demoHeader ++ [107])).countP
      (fun g => decide (preambleVersion0 ∉ g)) :=
  ⟨⟨[107], by decide, by decide⟩,
    (getMessages_no_marker (demoHeader ++ [0x59, 1, 7] ++ demoHeader ++ [107])
      ⟨[107], by decide, by decide⟩).1,
    by rfl,
    ((getMessages_no_marker (E := Unit) (demoHeader ++ [0x59, 1, 7] ++ demoHeader ++ [107])
      ⟨[107], by decide, by decide⟩).2 (by decide) (by decide)).2⟩


/-- C9, counterexample: on the empty stream (the reader closes its channel
without sending a chunk) the header expression never matches, and the parser
returns without error. -/
theorem startParser_empty_stream_no_error :
    FindAllIndex r (List.flatten ([] : List (List Byte))) = [] ∧
    startParser demoThrift [] ⟨kafkaMessageTypeReplicationTask, some [], none⟩ false 0
      = ⟨⟨kafkaMessageTypeReplicationTask, some [], none⟩, 0, none⟩ ∧
    startParser demoThrift [] ⟨kafkaMessageTypeReplicationTask, some [], none⟩ true 0
      = ⟨⟨kafkaMessageTypeReplicationTask, some [], none⟩, 0, none⟩ := by
  refine ⟨by rfl, by rfl, by rfl⟩

/-- C9, amended: for every stream of at least one chunk in which the header
expression never matches, `startParser` stops in `splitBuffer` at the first
chunk with the malformed-input error (header not found), in strict and in
permissive mode alike, and has sent no message and counted no skip. -/
theorem startParser_no_header (cx : Thrift E W R V T) (chunk : List Byte)
    (chunks : List (List Byte)) (writerCh : writerChannel T V) (skipErrors : Bool)
    (skippedCount : Int)
    (h : FindAllIndex r (List.flatten (chunk :: chunks)) = []) :
    startParser cx (chunk :: chunks) writerCh skipErrors skippedCount
      = ⟨writerCh, skippedCount, some (Halt.exit malformedMessage Cause.headerNotFound)⟩ := by
  have h1 : FindAllIndex r chunk = [] := by
    rw [List.flatten_cons] at h
    exact FindAllIndex_nil_of_append _ _ h
  unfold startParser startParserLoop splitBuffer
  simp [h1, ErrorAndExit]

/-- Witness of C9 (amended): two chunks of text without header. -/
theorem startParser_no_header_witness :
    FindAllIndex r (List.flatten [[0x59, 1, 7], ascii "Partition: 1"]) = [] ∧
    startParser demoThrift [[0x59, 1, 7], ascii "Partition: 1"]
        ⟨kafkaMessageTypeReplicationTask, some [], none⟩ true 0
      = ⟨⟨kafkaMessageTypeReplicationTask, some [], none⟩, 0,
          some (Halt.exit malformedMessage Cause.headerNotFound)⟩ :=
  ⟨by decide, startParser_no_header demoThrift _ _ _ true 0 (by decide)⟩


/-- C10: when two matches of the header expression are adjacent, or the last
match ends with the data, `getMessages` ends the process with the
malformed-input message, whatever `skipErrors` is: nothing is returned, so an
empty group is neither skipped nor counted. -/
theorem getMessages_empty_group_fatal (data : List Byte) (skipErrors : Bool)
    (h : (∃ pre a b c post, FindAllIndex r data = pre ++ (a, b) :: (b, c) :: post) ∨
      (∃ pre a, FindAllIndex r data = pre ++ [(a, data.length)])) :
    ∃ cause, getMessages (E := E) data skipErrors =
      Except.error (Halt.exit malformedMessage cause) := by
  have hlen : data.length ≠ 0 := by
    intro h0
    have hnil : data = [] := List.length_eq_zero.mp h0
    subst hnil
    rw [FindAllIndex_nil] at h
    rcases h with ⟨pre, a, b, c, post, h⟩ | ⟨pre, a, h⟩
    · exact List.cons_ne_nil _ _ (List.append_eq_nil.mp h.symm).2
    · exact List.cons_ne_nil _ _ (List.append_eq_nil.mp h.symm).2
  have hmem : [] ∈ groups data := by
    unfold groups Split
    rw [if_neg hlen]
    rcases h with ⟨pre, a, b, c, post, h⟩ | ⟨pre, a, h⟩
    · have hab := FindAllIndex_spec r data a b (by rw [h]; simp)
      have hbc := FindAllIndex_spec r data b c (by rw [h]; simp)
      rw [h]
      exact splitLoop_adjacent data a b c post (by omega) (by omega) pre 0 0
    · have hab := FindAllIndex_spec r data a data.length (by rw [h]; simp)
      rw [h]
      exact splitLoop_at_end data a (by omega) hlen pre 0 0
  apply getMessages_error
  intro hall
  exact (hall [] hmem).1 rfl

/-- Witness of C10: two headers in a row. -/
theorem getMessages_empty_group_fatal_witness :
    ((∃ pre a b c post, FindAllIndex r (demoHeader ++ demoHeader ++ [0x59, 1, 7])
        = pre ++ (a, b) :: (b, c) :: post) ∨
      (∃ pre a, FindAllIndex r (demoHeader ++ demoHeader ++ [0x59, 1, 7])
        = pre ++ [(a, (demoHeader ++ demoHeader ++ [0x59, 1, 7]).length)])) ∧
    ∃ cause, getMessages (E := Unit) (demoHeader ++ demoHeader ++ [0x59, 1, 7]) true =
      Except.error (Halt.exit malformedMessage cause) :=
  ⟨Or.inl ⟨[], 0, 30, 60, [], by decide⟩,
    getMessages_empty_group_fatal (demoHeader ++ demoHeader ++ [0x59, 1, 7]) true
      (Or.inl ⟨[], 0, 30, 60, [], by decide⟩)⟩


/-! ## C11 -/

/-- C11: for all criteria and every visibility message, the filter built by
`buildFilterFnForVisibility` accepts the message exactly when the workflow
criterion is empty or equals the workflow id of the message, and the run
criterion is empty or equals its run id. The same holds when the ids are read
from the optional fields instead of the getters, and with both criteria empty
every message is accepted. -/
theorem buildFilterFnForVisibility_accepts_iff (workflowID runID : List Byte) (msg : Message) :
    (buildFilterFnForVisibility workflowID runID msg = true ↔
      (workflowID = [] ∨ msg.GetWorkflowID = workflowID) ∧
        (runID = [] ∨ msg.GetRunID = runID)) ∧
    (buildFilterFnForVisibility workflowID runID msg = true ↔
      (workflowID = [] ∨ msg.WorkflowID = some workflowID) ∧
        (runID = [] ∨ msg.RunID = some runID)) ∧
    buildFilterFnForVisibility [] [] msg = true := by
  have hget : ∀ (o : Option (List Byte)) (w : List Byte),
      (w = [] ∨ o.getD [] = w) ↔ (w = [] ∨ o = some w) := by
    intro o w
    cases o with
    | none =>
      simp only [Option.getD_none, reduceCtorEq, or_false]
      exact ⟨fun h => h.elim id Eq.symm, Or.inl⟩
    | some x => simp only [Option.getD_some, Option.some.injEq]
  refine ⟨?_, ?_, ?_⟩
  · rw [buildFilterFnForVisibility_eq]; simp
  · rw [buildFilterFnForVisibility_eq]
    simp only [decide_eq_true_eq, Message.GetWorkflowID, Message.GetRunID, hget]
  · rw [buildFilterFnForVisibility_eq]; simp

/-! ## C12 -/

/-- C12: for a replication task with non-nil attributes, the filter built by
`buildFilterFn` returns the conjunction of the two criteria (each criterion
holds when it is empty or equals the id of the task). Over four tasks that
carry the workflow ids A, B and the run ids X, Y in all combinations, with A
and X non-empty, A different from B and X from Y, the filter for (A, X)
accepts exactly the task with both ids, and the filter for (A, empty) accepts
exactly the two tasks with workflow id A. -/
theorem buildFilterFn_conjunction (workflowID runID : List Byte) (task : ReplicationTask Blob)
    (a : HistoryTaskV2Attributes Blob) (h : task.HistoryTaskV2Attributes = some a) :
    (buildFilterFn workflowID runID task = some true ↔
        (workflowID = [] ∨ a.WorkflowID = workflowID) ∧ (runID = [] ∨ a.RunID = runID)) ∧
    (buildFilterFn workflowID runID task = some false ↔
        ¬ ((workflowID = [] ∨ a.WorkflowID = workflowID) ∧ (runID = [] ∨ a.RunID = runID))) ∧
    ∀ (A B X Y : List Byte), A ≠ [] → X ≠ [] → A ≠ B → X ≠ Y →
      ∀ tAX tAY tBX tBY : ReplicationTask Blob,
        [tAX, tAY, tBX, tBY].map
            (fun t => t.HistoryTaskV2Attributes.map (fun a => (a.WorkflowID, a.RunID))) =
          [some (A, X), some (A, Y), some (B, X), some (B, Y)] →
        [tAX, tAY, tBX, tBY].map (buildFilterFn A X) =
          [some true, some false, some false, some false] ∧
        [tAX, tAY, tBX, tBY].map (buildFilterFn A []) =
          [some true, some true, some false, some false] := by
  refine ⟨?_, ?_, ?_⟩
  · rw [buildFilterFn_of_attributes workflowID runID task a h]; simp
  · rw [buildFilterFn_of_attributes workflowID runID task a h]; simp
  · intro A B X Y hA hX hAB hXY t1 t2 t3 t4 ht
    · simp only [List.map_cons, List.map_nil, List.cons.injEq, and_true] at ht
      obtain ⟨a1, e1, w1, x1⟩ := ids_of_map_some t1 A X ht.1
      obtain ⟨a2, e2, w2, x2⟩ := ids_of_map_some t2 A Y ht.2.1
      obtain ⟨a3, e3, w3, x3⟩ := ids_of_map_some t3 B X ht.2.2.1
      obtain ⟨a4, e4, w4, x4⟩ := ids_of_map_some t4 B Y ht.2.2.2
      simp only [List.map_cons, List.map_nil, buildFilterFn_of_attributes _ _ t1 a1 e1,
        buildFilterFn_of_attributes _ _ t2 a2 e2, buildFilterFn_of_attributes _ _ t3 a3 e3,
        buildFilterFn_of_attributes _ _ t4 a4 e4, w1, w2, w3, w4, x1, x2, x3, x4]
      have hBA : ¬ B = A := fun e => hAB e.symm
      have hYX : ¬ Y = X := fun e => hXY e.symm
      simp [hA, hX, hBA, hYX]

theorem buildFilterFn_conjunction_witness :
    (demoTask "A" "X").HistoryTaskV2Attributes =
      some ⟨ascii "d1", ascii "A", ascii "X", some 1, none⟩ ∧
    [demoTask "A" "X", demoTask "A" "Y", demoTask "B" "X", demoTask "B" "Y"].map
        (buildFilterFn (ascii "A") (ascii "X")) =
      [some true, some false, some false, some false] ∧
    [demoTask "A" "X", demoTask "A" "Y", demoTask "B" "X", demoTask "B" "Y"].map
        (buildFilterFn (ascii "A") []) =
      [some true, some true, some false, some false] :=
  ⟨rfl,
    (buildFilterFn_conjunction (ascii "A") (ascii "X") (demoTask "A" "X")
      ⟨ascii "d1", ascii "A", ascii "X", some 1, none⟩ rfl).2.2
      (ascii "A") (ascii "B") (ascii "X") (ascii "Y")
      (by decide) (by decide) (by decide) (by decide)
      (demoTask "A" "X") (demoTask "A" "Y") (demoTask "B" "X") (demoTask "B" "Y") rfl⟩

/-! ## C13 -/

/-- C13: for a replication task whose attributes are nil, and criteria of
which at least one is non-empty, the filter built by `buildFilterFn` returns
false: it returns, so there is no panic of a nil dereference, and the value is
false. -/
theorem buildFilterFn_nil_attributes (workflowID runID : List Byte) (task : ReplicationTask Blob)
    (hnil : task.HistoryTaskV2Attributes = none) (hset : workflowID ≠ [] ∨ runID ≠ []) :
    buildFilterFn workflowID runID task = some false := by
  rw [buildFilterFn_of_nil workflowID runID task hnil]
  rcases hset with h | h <;> simp [h]

theorem buildFilterFn_nil_attributes_witness :
    demoBareTask.HistoryTaskV2Attributes = none ∧ (ascii "A" ≠ [] ∨ ([] : List Byte) ≠ []) ∧
    buildFilterFn (ascii "A") [] demoBareTask = some false :=
  ⟨rfl, Or.inl (by decide),
    buildFilterFn_nil_attributes (ascii "A") [] demoBareTask rfl (Or.inl (by decide))⟩


/-! ## C14 -/

/-- C14: for a history v2 replication task with attributes whose event blob
is there and deserialises, and whose new-run blob is nil or deserialises,
`decodeReplicationTask` returns what `json.Marshal` gives on the projection
made of the task, the deserialised events and the deserialised new-run events
(nil when that blob is nil). The task it leaves behind, which is also the one
in the projection, keeps its type and identifiers and has both raw blobs nil. -/
theorem decodeReplicationTask_historyV2 (cd : Codec E Blob H) (task : ReplicationTask Blob)
    (a : HistoryTaskV2Attributes Blob) (blob : Blob) (events newRunEvents : Option (List H))
    (htype : task.GetTaskType = ReplicationTaskTypeHistoryV2)
    (ha : task.HistoryTaskV2Attributes = some a)
    (hb : a.Events = some blob)
    (hev : cd.DeserializeBatchEvents blob = some (Except.ok events))
    (hnew : (a.NewRunEvents = none ∧ newRunEvents = none) ∨
      (∃ newRunBlob, a.NewRunEvents = some newRunBlob ∧
        cd.DeserializeBatchEvents newRunBlob = some (Except.ok newRunEvents))) :
    ∃ task1 : ReplicationTask Blob,
      decodeReplicationTask cd task =
        some (cd.marshalHistoryV2Task ⟨task1, events, newRunEvents⟩, task1) ∧
      task1.TaskType = task.TaskType ∧
      task1.HistoryTaskV2Attributes =
        some ⟨a.DomainID, a.WorkflowID, a.RunID, none, none⟩ := by
  refine ⟨⟨task.TaskType, some ⟨a.DomainID, a.WorkflowID, a.RunID, none, none⟩⟩, ?_, rfl, rfl⟩
  unfold decodeReplicationTask ReplicationTask.GetHistoryTaskV2Attributes
  rw [if_pos htype, ha]
  simp only []
  rw [hb]
  simp only []
  rw [hev]
  simp only []
  rcases hnew with ⟨h1, h2⟩ | ⟨nb, h1, h2⟩
  · rw [h1, h2]
  · rw [h1]
    simp only []
    rw [h2]

/-- Witness of C14: a task with the events blob `1` and the new-run blob `3`. -/
theorem decodeReplicationTask_historyV2_witness :
    (⟨some 5, some ⟨ascii "d1", ascii "A", ascii "X", some 1, some 3⟩⟩ :
      ReplicationTask Nat).GetTaskType = ReplicationTaskTypeHistoryV2 ∧
    demoCodec.DeserializeBatchEvents 1 = some (Except.ok (some [0])) ∧
    demoCodec.DeserializeBatchEvents 3 = some (Except.ok (some [2])) ∧
    ∃ task1 : ReplicationTask Nat,
      decodeReplicationTask demoCodec
          ⟨some 5, some ⟨ascii "d1", ascii "A", ascii "X", some 1, some 3⟩⟩ =
        some (demoCodec.marshalHistoryV2Task ⟨task1, some [0], some [2]⟩, task1) ∧
      task1.TaskType = some 5 ∧
      task1.HistoryTaskV2Attributes = some ⟨ascii "d1", ascii "A", ascii "X", none, none⟩ :=
  ⟨rfl, rfl, rfl,
    decodeReplicationTask_historyV2 demoCodec
      ⟨some 5, some ⟨ascii "d1", ascii "A", ascii "X", some 1, some 3⟩⟩
      ⟨ascii "d1", ascii "A", ascii "X", some 1, some 3⟩ 1 (some [0]) (some [2]) rfl rfl rfl rfl
      (Or.inr ⟨3, rfl, rfl⟩)⟩

/-! ## C15 -/

/-- C15, counterexample: in header mode and permissive mode, a task that the
filter accepts but whose event blob does not deserialise yields no line at
all: the writer returns with an empty output and a skip count of one. And a
task that the filter accepts and that serialises yields no line when the write
to the file fails: the writer ends the process. -/
theorem header_mode_skips_unserialisable_message :
    buildFilterFn [] [] demoBrokenTask = some true ∧
    decodeReplicationTask demoCodec demoBrokenTask = some (Except.error (), demoBrokenTask) ∧
    (writeReplicationTask (V := Message) demoCodec demoFile
      ⟨kafkaMessageTypeReplicationTask, some [demoBrokenTask], none⟩ 0 true true [] []
      ).outputFile.written = [] ∧
    (writeReplicationTask (V := Message) demoCodec demoFile
      ⟨kafkaMessageTypeReplicationTask, some [demoBrokenTask], none⟩ 0 true true [] []
      ).halted = none ∧
    (writeReplicationTask (V := Message) demoCodec demoFile
      ⟨kafkaMessageTypeReplicationTask, some [demoBrokenTask], none⟩ 0 true true [] []
      ).skippedCount = 1 ∧
    buildFilterFn [] [] (demoTask "A" "X") = some true ∧
    (writeReplicationTask (V := Message) demoCodec demoFullFile
      ⟨kafkaMessageTypeReplicationTask, some [demoTask "A" "X"], none⟩ 0 true true [] []
      ).outputFile.written = [] ∧
    (writeReplicationTask (V := Message) demoCodec demoFullFile
      ⟨kafkaMessageTypeReplicationTask, some [demoTask "A" "X"], none⟩ 0 true true [] []
      ).halted = some (Halt.exit "Failed to write to file" (Cause.writeError ())) := by
  refine ⟨by decide, by rfl, by decide, by decide, by decide, by decide, by decide, by rfl⟩

/-- C15, amended: in header mode, for a task that the filter accepts, that
has history attributes, that `decodeReplicationTask` serialises without error
and whose write succeeds, `writeReplicationTask` performs exactly one write,
of the text `domainID, workflowID, runID` of the attributes followed by a
newline, and goes on with the next task. For a visibility message that the
filter accepts and whose write succeeds, `writeVisibilityMessage` performs
exactly one write, of the text
`domainID, workflowID, runID, messageType, version` of the message followed
by a newline, and goes on with the next message; here `json.Marshal` of the
message, a call of the library that is a parameter, is taken to return without
error. -/
theorem writer_header_mode_line (cd : Codec E Blob H) (workflowID runID : List Byte)
    (skipErrMode : Bool) (outputFile : OutputFile E) (skippedCount : Int) :
    (∀ (task task1 : ReplicationTask Blob) (jsonStr : List Byte)
        (a : HistoryTaskV2Attributes Blob) (rest : List (ReplicationTask Blob)),
      buildFilterFn workflowID runID task = some true →
      decodeReplicationTask cd task = some (Except.ok jsonStr, task1) →
      task.HistoryTaskV2Attributes = some a →
      outputFile.failure outputFile.written
        (a.DomainID ++ ascii ", " ++ a.WorkflowID ++ ascii ", " ++ a.RunID ++ ascii "\n")
        = none →
      writeReplicationTaskLoop cd workflowID runID skipErrMode true (task :: rest) outputFile
          skippedCount =
        writeReplicationTaskLoop cd workflowID runID skipErrMode true rest
          ⟨outputFile.written ++
            [a.DomainID ++ ascii ", " ++ a.WorkflowID ++ ascii ", " ++ a.RunID ++ ascii "\n"],
            outputFile.failure⟩ skippedCount) ∧
    (∀ (msg : Message) (jsonStr : List Byte) (rest : List Message),
      buildFilterFnForVisibility workflowID runID msg = true →
      cd.marshalMessage msg = Except.ok jsonStr →
      outputFile.failure outputFile.written
        (msg.GetDomainID ++ ascii ", " ++ msg.GetWorkflowID ++ ascii ", " ++ msg.GetRunID
          ++ ascii ", " ++ cd.messageTypeString msg.GetMessageType ++ ascii ", "
          ++ formatInt msg.GetVersion ++ ascii "\n") = none →
      writeVisibilityMessageLoop cd workflowID runID skipErrMode true (msg :: rest) outputFile
          skippedCount =
        writeVisibilityMessageLoop cd workflowID runID skipErrMode true rest
          ⟨outputFile.written ++
            [msg.GetDomainID ++ ascii ", " ++ msg.GetWorkflowID ++ ascii ", " ++ msg.GetRunID
              ++ ascii ", " ++ cd.messageTypeString msg.GetMessageType ++ ascii ", "
              ++ formatInt msg.GetVersion ++ ascii "\n"],
            outputFile.failure⟩ skippedCount) :=
  ⟨fun task task1 jsonStr a rest hf hd ha hw =>
      writeReplicationTaskLoop_header cd workflowID runID skipErrMode task task1 jsonStr a rest
        outputFile skippedCount hf hd ha hw,
    fun msg jsonStr rest hf hd hw =>
      writeVisibilityMessageLoop_header cd workflowID runID skipErrMode msg jsonStr rest
        outputFile skippedCount hf hd hw⟩

theorem writer_header_mode_line_witness :
    (buildFilterFn (ascii "A") [] (demoTask "A" "X") = some true ∧
      (writeReplicationTaskLoop demoCodec (ascii "A") [] false true [demoTask "A" "X"] demoFile 0
        ).outputFile.written = [ascii "d1, A, X\n"]) ∧
    (buildFilterFnForVisibility (ascii "A") [] (demoMessage "A" "X") = true ∧
      (writeVisibilityMessageLoop demoCodec (ascii "A") [] false true [demoMessage "A" "X"]
        demoFile 0).outputFile.written = [ascii "d1, A, X, Index, 7\n"]) :=
  ⟨⟨by decide, by
      rw [(writer_header_mode_line demoCodec (ascii "A") [] false demoFile 0).1
        (demoTask "A" "X") ⟨some 5, some ⟨ascii "d1", ascii "A", ascii "X", none, none⟩⟩
        (ascii "v2 0") ⟨ascii "d1", ascii "A", ascii "X", some 1, none⟩ []
        (by decide) rfl rfl rfl]
      decide⟩,
    ⟨by decide, by
      rw [(writer_header_mode_line demoCodec (ascii "A") [] false demoFile 0).2
        (demoMessage "A" "X") (ascii "msg") [] (by decide) rfl rfl]
      decide⟩⟩

/-! ## C16 -/

/-- C16: evaluation of the code at the failing input. With the headers-mode
flag set and no filter, the line written for a history v2 task with domain id
`d1`, workflow id `wf` and run id `run` is `d1, wf, run`: three fields, and no
first or next event id. -/
theorem header_mode_line_has_three_fields :
    (writeReplicationTask (V := Message) demoCodec demoFile
      ⟨kafkaMessageTypeReplicationTask, some [demoTask "wf" "run"], none⟩ 0 false true [] []
      ).outputFile.written = [ascii "d1, wf, run\n"] ∧
    (writeReplicationTask (V := Message) demoCodec demoFile
      ⟨kafkaMessageTypeReplicationTask, some [demoTask "wf" "run"], none⟩ 0 false true [] []
      ).halted = none := by
  decide


/-! ## C17 -/

/-- C17, counterexample: the skip counter is a 32-bit integer, and an update
at its largest value makes it smaller. With the counter at 2147483647, `parse`
in permissive mode on a slice with one group without marker byte leaves it at
-2147483648, and so does the writer on one task that cannot be serialised. -/
theorem skip_counter_wraps_at_largest_value :
    (parse demoThrift (demoHeader ++ [107]) true 2147483647 demoChannel).skippedCount
      = -2147483648 ∧
    (parse demoThrift (demoHeader ++ [107]) true 2147483647 demoChannel).halted = none ∧
    (writeReplicationTaskLoop demoCodec [] [] true false [demoBrokenTask] demoFile 2147483647
      ).skippedCount = -2147483648 ∧
    (writeReplicationTaskLoop demoCodec [] [] true false [demoBrokenTask] demoFile 2147483647
      ).halted = none := by
  decide

/-- C17, amended: as long as the counter stays in the range of a 32-bit
integer, it only increases. For a slice of fewer than 2^31 bytes the two
counts that `parse` adds up are non-negative and their sum does not overflow.
From a counter value that is at least -2^31 and that, increased by the number
of bytes still to parse (or of messages still to write), stays below 2^31,
the value after `parse`, after the rest of the parser loop, and after the rest
of either writer loop is at least the value before. Every intermediate state
of a loop is such a start, so the final value is at least every intermediate
value. -/
theorem skippedCount_nondecreasing_in_range (cx : Thrift E W R V T) (cd : Codec E Blob H)
    (skippedCount : Int) (h1 : -2147483648 ≤ skippedCount) :
    (∀ (bytes : List Byte) (skipErrors : Bool) (messages : List (List Byte)) (s1 : Int),
      bytes.length < 2147483648 →
      getMessages (E := E) bytes skipErrors = Except.ok (messages, s1) →
      0 ≤ s1 ∧
      (∀ msgs s2, deserializeMessages cx messages skipErrors = Except.ok (msgs, s2) →
        0 ≤ s2 ∧ s1 + s2 < 2147483648) ∧
      (∀ msgs s2, deserializeVisibilityMessages cx messages skipErrors = Except.ok (msgs, s2) →
        0 ≤ s2 ∧ s1 + s2 < 2147483648)) ∧
    (∀ (bytes : List Byte) (skipErrors : Bool) (writerCh : writerChannel T V),
      skippedCount + bytes.length < 2147483648 →
      skippedCount ≤ (parse cx bytes skipErrors skippedCount writerCh).skippedCount ∧
      (parse cx bytes skipErrors skippedCount writerCh).skippedCount
        ≤ skippedCount + bytes.length) ∧
    (∀ (chunks : List (List Byte)) (buffer : List Byte) (skipErrors : Bool)
        (writerCh : writerChannel T V),
      skippedCount + (buffer.length + chunks.flatten.length : Nat) < 2147483648 →
      skippedCount
        ≤ (startParserLoop cx skipErrors chunks buffer skippedCount writerCh).skippedCount) ∧
    (∀ (workflowID runID : List Byte) (skipErrMode headerMode : Bool)
        (tasks : List (ReplicationTask Blob)) (outputFile : OutputFile E),
      skippedCount + tasks.length < 2147483648 →
      skippedCount ≤ (writeReplicationTaskLoop cd workflowID runID skipErrMode headerMode tasks
        outputFile skippedCount).skippedCount ∧
      (writeReplicationTaskLoop cd workflowID runID skipErrMode headerMode tasks
        outputFile skippedCount).skippedCount ≤ skippedCount + tasks.length) ∧
    (∀ (workflowID runID : List Byte) (skipErrMode headerMode : Bool)
        (msgs : List Message) (outputFile : OutputFile E),
      skippedCount + msgs.length < 2147483648 →
      skippedCount ≤ (writeVisibilityMessageLoop cd workflowID runID skipErrMode headerMode msgs
        outputFile skippedCount).skippedCount ∧
      (writeVisibilityMessageLoop cd workflowID runID skipErrMode headerMode msgs
        outputFile skippedCount).skippedCount ≤ skippedCount + msgs.length) :=
  ⟨fun bytes skipErrors messages s1 hb hg =>
      parse_amounts_nonneg cx bytes skipErrors messages s1 hb hg,
    fun bytes skipErrors writerCh h2 =>
      parse_skippedCount_range cx bytes skipErrors skippedCount writerCh h1 h2,
    fun chunks buffer skipErrors writerCh h2 =>
      (startParserLoop_skippedCount_range cx skipErrors chunks buffer skippedCount writerCh
        h1 h2).1,
    fun workflowID runID skipErrMode headerMode tasks outputFile h2 =>
      writeReplicationTaskLoop_skippedCount cd workflowID runID skipErrMode headerMode tasks
        outputFile skippedCount h1 h2,
    fun workflowID runID skipErrMode headerMode msgs outputFile h2 =>
      writeVisibilityMessageLoop_skippedCount cd workflowID runID skipErrMode headerMode msgs
        outputFile skippedCount h1 h2⟩

theorem skippedCount_nondecreasing_in_range_witness :
    (-2147483648 : Int) ≤ 5 ∧
    (5 : Int) + (demoHeader ++ [107]).length < 2147483648 ∧
    (5 : Int) ≤ (parse demoThrift (demoHeader ++ [107]) true 5 demoChannel).skippedCount ∧
    (parse demoThrift (demoHeader ++ [107]) true 5 demoChannel).skippedCount = 6 ∧
    (5 : Int) ≤ (writeReplicationTaskLoop demoCodec [] [] true false [demoBrokenTask] demoFile 5
      ).skippedCount :=
  ⟨by decide, by decide,
    ((skippedCount_nondecreasing_in_range demoThrift demoCodec 5 (by decide)).2.1
      (demoHeader ++ [107]) true demoChannel (by decide)).1,
    by decide,
    ((skippedCount_nondecreasing_in_range demoThrift demoCodec 5 (by decide)).2.2.2.1
      [] [] true false [demoBrokenTask] demoFile (by decide)).1⟩

/-! ## C18 -/

/-- C18: when the serialisation of a message that the filter accepts fails,
either writer follows the decode policy. In strict mode the run stops with the
exit of the malformed-message error. In permissive mode the loop goes on with
the next message from the same output file, so no line is written for the
message, and with the counter increased by one as a 32-bit integer, which is
the counter plus one whenever the counter is below 2147483647. -/
theorem writer_serialization_failure_policy (cd : Codec E Blob H)
    (workflowID runID : List Byte) (headerMode : Bool) (outputFile : OutputFile E)
    (skippedCount : Int) :
    (∀ (task task1 : ReplicationTask Blob) (err : E) (rest : List (ReplicationTask Blob)),
      buildFilterFn workflowID runID task = some true →
      decodeReplicationTask cd task = some (Except.error err, task1) →
      writeReplicationTaskLoop cd workflowID runID false headerMode (task :: rest) outputFile
          skippedCount =
        ⟨outputFile, skippedCount,
          some (Halt.exit malformedMessage (Cause.encodeError err))⟩ ∧
      writeReplicationTaskLoop cd workflowID runID true headerMode (task :: rest) outputFile
          skippedCount =
        writeReplicationTaskLoop cd workflowID runID true headerMode rest outputFile
          (wrapInt32 (skippedCount + 1))) ∧
    (∀ (msg : Message) (err : E) (rest : List Message),
      buildFilterFnForVisibility workflowID runID msg = true →
      cd.marshalMessage msg = Except.error err →
      writeVisibilityMessageLoop cd workflowID runID false headerMode (msg :: rest) outputFile
          skippedCount =
        ⟨outputFile, skippedCount,
          some (Halt.exit malformedMessage (Cause.encodeError err))⟩ ∧
      writeVisibilityMessageLoop cd workflowID runID true headerMode (msg :: rest) outputFile
          skippedCount =
        writeVisibilityMessageLoop cd workflowID runID true headerMode rest outputFile
          (wrapInt32 (skippedCount + 1))) ∧
    (-2147483648 ≤ skippedCount → skippedCount < 2147483647 →
      wrapInt32 (skippedCount + 1) = skippedCount + 1) := by
  refine ⟨?_, ?_, ?_⟩
  · intro task task1 err rest hf hd
    constructor
    · rw [writeReplicationTaskLoop_encode_fail cd workflowID runID false headerMode task task1
        err rest outputFile skippedCount hf hd]
      rfl
    · rw [writeReplicationTaskLoop_encode_fail cd workflowID runID true headerMode task task1
        err rest outputFile skippedCount hf hd]
      rfl
  · intro msg err rest hf hd
    constructor
    · rw [writeVisibilityMessageLoop_encode_fail cd workflowID runID false headerMode msg
        err rest outputFile skippedCount hf hd]
      rfl
    · rw [writeVisibilityMessageLoop_encode_fail cd workflowID runID true headerMode msg
        err rest outputFile skippedCount hf hd]
      rfl
  · intro h1 h2
    exact wrapInt32_of_range _ (by omega) (by omega)

theorem writer_serialization_failure_policy_witness :
    buildFilterFn [] [] demoBrokenTask = some true ∧
    decodeReplicationTask demoCodec demoBrokenTask = some (Except.error (), demoBrokenTask) ∧
    (writeReplicationTaskLoop demoCodec [] [] false false [demoBrokenTask, demoTask "A" "X"]
      demoFile 0).halted = some (Halt.exit malformedMessage (Cause.encodeError ())) ∧
    (writeReplicationTaskLoop demoCodec [] [] false false [demoBrokenTask, demoTask "A" "X"]
      demoFile 0).outputFile.written = [] ∧
    (writeReplicationTaskLoop demoCodec [] [] true false [demoBrokenTask, demoTask "A" "X"]
      demoFile 0).outputFile.written = [ascii "v2 0\n"] ∧
    (writeReplicationTaskLoop demoCodec [] [] true false [demoBrokenTask, demoTask "A" "X"]
      demoFile 0).skippedCount = 1 :=
  ⟨by decide, rfl,
    by
      rw [((writer_serialization_failure_policy demoCodec [] [] false demoFile 0).1
        demoBrokenTask demoBrokenTask () [demoTask "A" "X"] (by decide) rfl).1],
    by
      rw [((writer_serialization_failure_policy demoCodec [] [] false demoFile 0).1
        demoBrokenTask demoBrokenTask () [demoTask "A" "X"] (by decide) rfl).1]
      rfl,
    by
      rw [((writer_serialization_failure_policy demoCodec [] [] false demoFile 0).1
        demoBrokenTask demoBrokenTask () [demoTask "A" "X"] (by decide) rfl).2]
      decide,
    by
      rw [((writer_serialization_failure_policy demoCodec [] [] false demoFile 0).1
        demoBrokenTask demoBrokenTask () [demoTask "A" "X"] (by decide) rfl).2]
      decide⟩


/-! ## C19 -/

/-- C19, counterexample: with the largest 64-bit value as max event id, the
addition wraps around and the request carries the smallest 64-bit value as
end event id, not the max event id plus one. -/
theorem end_event_id_wraps_at_largest_value :
    (AdminRereplicate (demoContext (some 9223372036854775807) none) (fun _ _ => none)).calls.map
        (fun call => call.2.EndEventID) = [some (-9223372036854775808)] ∧
    ((-9223372036854775808 : Int) ≠ 9223372036854775807 + 1) := by
  decide

/-- C19, amended: every request that `AdminRereplicate` sends has as end
event id the max event id plus one in 64-bit arithmetic when a max event id
is supplied: that is the max event id plus one for every 64-bit value below
the largest one (100 gives 101). The end event id is nil when no max event id
is supplied, and the end version is the supplied end event version unchanged,
nil when there is none. With a positive shard count and the four required
options present, exactly one request is sent. -/
theorem AdminRereplicate_bounds (c : RereplicateContext E)
    (adminClient : Int → ResendReplicationTasksRequest → Option E) :
    (∀ call ∈ (AdminRereplicate c adminClient).calls,
      call.2.EndEventID = c.MaxEventID.map (fun n => wrapInt64 (n + 1)) ∧
      (∀ n : Int, c.MaxEventID = some n → -9223372036854775808 ≤ n →
        n < 9223372036854775807 → call.2.EndEventID = some (n + 1)) ∧
      (c.MaxEventID = none → call.2.EndEventID = none) ∧
      call.2.EndVersion = c.EndEventVersion) ∧
    (∀ sourceCluster domainID wid rid : List Byte, 0 < c.NumberOfShards →
      c.SourceCluster = Except.ok sourceCluster → c.DomainID = Except.ok domainID →
      c.WorkflowID = Except.ok wid → c.RunID = Except.ok rid →
      ∃ ctx, (AdminRereplicate c adminClient).calls =
        [(ctx, ⟨domainID, wid, rid, sourceCluster,
          c.MaxEventID.map (fun n => wrapInt64 (n + 1)), c.EndEventVersion⟩)]) := by
  rcases AdminRereplicate_calls c adminClient with h | ⟨ctx, d, w, x, s, hn, hs, hd, hw, hr, h⟩
  · refine ⟨fun call hc => ?_, ?_⟩
    · rw [h] at hc; exact absurd hc (List.not_mem_nil _)
    · intro s d w x hn hs hd hw hr
      exfalso
      unfold AdminRereplicate at h
      rw [if_neg (by omega), hs, hd, hw, hr] at h
      simp only [doRereplicate] at h
      split at h <;> simp at h
  · refine ⟨fun call hc => ?_, ?_⟩
    · rw [h, List.mem_singleton] at hc
      subst hc
      refine ⟨rfl, ?_, ?_, rfl⟩
      · intro n hm h1 h2
        show c.MaxEventID.map (fun n => wrapInt64 (n + 1)) = some (n + 1)
        rw [hm, Option.map_some', wrapInt64_of_range _ (by omega) (by omega)]
      · intro hm
        show c.MaxEventID.map (fun n => wrapInt64 (n + 1)) = none
        rw [hm]; rfl
    · intro s1 d1 w1 x1 _ hs1 hd1 hw1 hr1
      rw [hs] at hs1; rw [hd] at hd1; rw [hw] at hw1; rw [hr] at hr1
      cases hs1; cases hd1; cases hw1; cases hr1
      exact ⟨ctx, h⟩

theorem AdminRereplicate_bounds_witness :
    (AdminRereplicate (demoContext (some 100) (some 3)) (fun _ _ => none)).calls =
      [(defaultResendContextTimeout,
        ⟨ascii "d1", ascii "A", ascii "X", ascii "west", some 101, some 3⟩)] ∧
    (∀ call ∈ (AdminRereplicate (demoContext (some 100) (some 3)) (fun _ _ => none)).calls,
      call.2.EndEventID = some (100 + 1)) ∧
    (∀ call ∈ (AdminRereplicate (demoContext none none) (fun _ _ => none)).calls,
      call.2.EndEventID = none ∧ call.2.EndVersion = none) :=
  ⟨by decide,
    fun call hc =>
      ((AdminRereplicate_bounds (demoContext (some 100) (some 3)) (fun _ _ => none)).1
        call hc).2.1 100 rfl (by decide) (by decide),
    fun call hc =>
      ⟨((AdminRereplicate_bounds (demoContext none none) (fun _ _ => none)).1
        call hc).2.2.1 rfl,
      ((AdminRereplicate_bounds (demoContext none none) (fun _ _ => none)).1
        call hc).2.2.2⟩⟩

/-! ## C20 -/

/-- C20: for all arguments, `doRereplicate` calls `ResendReplicationTasks` of
the admin client exactly once, with the context it was given and the request
made of the domain id, workflow id, run id, source cluster as remote cluster,
end event id and end event version. If the call returns an error the function
stops with the exit `Failed to resend ndc workflow` carrying that error, and
the list of calls still has that one call: there is no retry. If the call
returns no error the function returns. -/
theorem doRereplicate_calls_once {Ctx : Type} (ctx : Ctx) (domainID wid rid : List Byte)
    (endEventID endEventVersion : Option Int) (sourceCluster : List Byte)
    (adminClient : Ctx → ResendReplicationTasksRequest → Option E) :
    (doRereplicate ctx domainID wid rid endEventID endEventVersion sourceCluster adminClient
      ).calls =
      [(ctx, ⟨domainID, wid, rid, sourceCluster, endEventID, endEventVersion⟩)] ∧
    (∀ err,
      adminClient ctx ⟨domainID, wid, rid, sourceCluster, endEventID, endEventVersion⟩
        = some err →
      (doRereplicate ctx domainID wid rid endEventID endEventVersion sourceCluster adminClient
        ).halted = some (Halt.exit "Failed to resend ndc workflow" (Cause.resendError err))) ∧
    (adminClient ctx ⟨domainID, wid, rid, sourceCluster, endEventID, endEventVersion⟩ = none →
      (doRereplicate ctx domainID wid rid endEventID endEventVersion sourceCluster adminClient
        ).halted = none) := by
  unfold doRereplicate
  refine ⟨?_, ?_, ?_⟩
  · simp only []
    split <;> rfl
  · intro err he
    simp only [he]
  · intro he
    simp only [he]

theorem doRereplicate_calls_once_witness :
    (doRereplicate (E := Unit) (30 : Int) (ascii "d1") (ascii "A") (ascii "X") (some 101) none
      (ascii "west") (fun _ _ => some ())).calls =
      [(30, ⟨ascii "d1", ascii "A", ascii "X", ascii "west", some 101, none⟩)] ∧
    (doRereplicate (E := Unit) (30 : Int) (ascii "d1") (ascii "A") (ascii "X") (some 101) none
      (ascii "west") (fun _ _ => some ())).halted =
      some (Halt.exit "Failed to resend ndc workflow" (Cause.resendError ())) :=
  ⟨(doRereplicate_calls_once (E := Unit) (30 : Int) (ascii "d1") (ascii "A") (ascii "X")
      (some 101) none (ascii "west") (fun _ _ => some ())).1,
    (doRereplicate_calls_once (E := Unit) (30 : Int) (ascii "d1") (ascii "A") (ascii "X")
      (some 101) none (ascii "west") (fun _ _ => some ())).2.1 () rfl⟩


/-! ## C21 -/

/-- C21: for every admin API method of the access-controlled wrapper, the
attributes given to the authorizer have the name of the method as API name
and the admin permission. When the authorizer returns no error and the
decision to allow, the wrapped method of the same name is called once with
the same context and request and its result is returned unchanged. When the
authorizer returns an error, that error is returned; when it returns no error
and another decision, `errUnauthorized` is returned; in both cases the
wrapped handler is not called. So the wrapped handler is called if and only
if the authorizer returns no error and the decision to allow. -/
theorem call_authorized_iff (a : AccessControlledWorkflowAdminHandler E Ctx Req Resp)
    (errUnauthorized : E) (method : AdminMethod) (ctx : Ctx) (request : Req) :
    (∀ result, a.authorizer ctx ⟨method.name, Permission.PermissionAdmin⟩ = (result, none) →
      result.Decision = Decision.DecisionAllow →
      a.call errUnauthorized method ctx request =
        ⟨[(method, ctx, request)], a.adminHandler method ctx request⟩) ∧
    (∀ result err,
      a.authorizer ctx ⟨method.name, Permission.PermissionAdmin⟩ = (result, some err) →
      a.call errUnauthorized method ctx request = ⟨[], (none, some err)⟩) ∧
    (∀ result, a.authorizer ctx ⟨method.name, Permission.PermissionAdmin⟩ = (result, none) →
      result.Decision ≠ Decision.DecisionAllow →
      a.call errUnauthorized method ctx request = ⟨[], (none, some errUnauthorized)⟩) ∧
    ((a.call errUnauthorized method ctx request).calls ≠ [] ↔
      ∃ result, a.authorizer ctx ⟨method.name, Permission.PermissionAdmin⟩ = (result, none) ∧
        result.Decision = Decision.DecisionAllow) := by
  rw [call_of_authorize]
  refine ⟨?_, ?_, ?_, ?_⟩
  · intro result h hd
    rw [h]; simp only []; rw [if_pos hd]
  · intro result err h
    rw [h]
  · intro result h hd
    rw [h]; simp only []; rw [if_neg hd]
  · cases h : a.authorizer ctx ⟨method.name, Permission.PermissionAdmin⟩ with
    | mk result err =>
      cases err with
      | some err => simp
      | none =>
        by_cases hd : result.Decision = Decision.DecisionAllow
        · simp [hd]
        · simp [hd]

theorem call_authorized_iff_witness :
    demoAdminHandler.authorizer () ⟨AdminMethod.ResendReplicationTasks.name,
      Permission.PermissionAdmin⟩ = (⟨Decision.DecisionAllow⟩, none) ∧
    demoAdminHandler.call "unauthorized" AdminMethod.ResendReplicationTasks () 5 =
      ⟨[(AdminMethod.ResendReplicationTasks, (), 5)], (some 6, none)⟩ ∧
    demoAdminHandler.call "unauthorized" AdminMethod.CloseShard () 5 =
      ⟨[], (none, some "authorizer failed")⟩ ∧
    demoAdminHandler.call "unauthorized" AdminMethod.RemoveTask () 5 =
      ⟨[], (none, some "unauthorized")⟩ :=
  ⟨rfl,
    (call_authorized_iff demoAdminHandler "unauthorized" AdminMethod.ResendReplicationTasks
      () 5).1 ⟨Decision.DecisionAllow⟩ rfl rfl,
    (call_authorized_iff demoAdminHandler "unauthorized" AdminMethod.CloseShard
      () 5).2.1 ⟨Decision.unset⟩ "authorizer failed" rfl,
    (call_authorized_iff demoAdminHandler "unauthorized" AdminMethod.RemoveTask
      () 5).2.2.1 ⟨Decision.DecisionDeny⟩ rfl (by decide)⟩


/-! ## C22 -/

/-- C22: if `validate` returns no error, the receiver is not nil and every
cluster of its cluster information has an initial failover version that is
at least zero and below the failover version increment. Conversely, for
metadata with a cluster whose initial failover version is outside this range,
`validate` returns an error. -/
theorem validate_versions_in_range :
    (∀ m : Option ClusterMetadata, validate m = [] →
      ∃ md, m = some md ∧ ∀ e ∈ md.ClusterInformation,
        0 ≤ e.2.InitialFailoverVersion ∧
          e.2.InitialFailoverVersion < md.FailoverVersionIncrement) ∧
    (∀ md : ClusterMetadata,
      (∃ e ∈ md.ClusterInformation,
        ¬ (0 ≤ e.2.InitialFailoverVersion ∧
          e.2.InitialFailoverVersion < md.FailoverVersionIncrement)) →
      validate (some md) ≠ []) := by
  have key : ∀ md : ClusterMetadata, validate (some md) = [] →
      ∀ e ∈ md.ClusterInformation, 0 ≤ e.2.InitialFailoverVersion ∧
        e.2.InitialFailoverVersion < md.FailoverVersionIncrement := by
    intro md h e he
    have := ((validate_nil_elim md h).2.2.2.2.1 e he).2.1
    omega
  refine ⟨?_, ?_⟩
  · intro m h
    cases m with
    | none => exact absurd h (by decide)
    | some md => exact ⟨md, rfl, key md h⟩
  · rintro md ⟨e, he, hbad⟩ h
    exact hbad (key md h e he)

theorem validate_versions_in_range_witness :
    validate (some demoMetadata) = [] ∧
    (∀ e ∈ demoMetadata.ClusterInformation,
      0 ≤ e.2.InitialFailoverVersion ∧
        e.2.InitialFailoverVersion < demoMetadata.FailoverVersionIncrement) ∧
    validate (some { demoMetadata with FailoverVersionIncrement := 2 }) ≠ [] :=
  ⟨by decide,
    (by
      obtain ⟨md, hmd, h⟩ := validate_versions_in_range.1 (some demoMetadata) (by decide)
      cases hmd
      exact h),
    validate_versions_in_range.2 { demoMetadata with FailoverVersionIncrement := 2 }
      ⟨(ascii "west", ⟨false, 2, [], ascii "host2:7933"⟩), by decide, by decide⟩⟩

/-! ## C23 -/

/-- C23: if `validate` returns no error, the initial failover versions of the
clusters are pairwise distinct, there is at least one cluster, the number of
clusters is at most the failover version increment, and the increment is
positive. -/
theorem validate_bounds_cluster_count (m : Option ClusterMetadata) (h : validate m = []) :
    ∃ md, m = some md ∧
      (md.ClusterInformation.map (fun e => e.2.InitialFailoverVersion)).Nodup ∧
      1 ≤ md.ClusterInformation.length ∧
      (md.ClusterInformation.length : Int) ≤ md.FailoverVersionIncrement ∧
      0 < md.FailoverVersionIncrement := by
  cases m with
  | none => exact absurd h (by decide)
  | some md =>
    obtain ⟨-, -, -, hlen, hall, hnd⟩ := validate_nil_elim md h
    have hpos : 1 ≤ md.ClusterInformation.length := Nat.one_le_iff_ne_zero.mpr hlen
    have hinc : 0 < md.FailoverVersionIncrement := by
      cases hci : md.ClusterInformation with
      | nil => rw [hci] at hlen; exact absurd rfl hlen
      | cons e rest =>
        have := (hall e (by rw [hci]; exact List.mem_cons_self _ _)).2.1
        omega
    refine ⟨md, rfl, hnd, hpos, ?_, hinc⟩
    have := nodup_length_le_of_range
      (md.ClusterInformation.map (fun e => e.2.InitialFailoverVersion))
      md.FailoverVersionIncrement (le_of_lt hinc) hnd (by
        intro x hx
        obtain ⟨e, he, rfl⟩ := List.mem_map.mp hx
        have := (hall e he).2.1
        omega)
    rw [List.length_map] at this
    exact this

theorem validate_bounds_cluster_count_witness :
    validate (some demoMetadata) = [] ∧
    ∃ md, some demoMetadata = some md ∧
      (md.ClusterInformation.map (fun e => e.2.InitialFailoverVersion)).Nodup ∧
      1 ≤ md.ClusterInformation.length ∧
      (md.ClusterInformation.length : Int) ≤ md.FailoverVersionIncrement ∧
      0 < md.FailoverVersionIncrement :=
  ⟨by decide, validate_bounds_cluster_count (some demoMetadata) (by decide)⟩


/-! ## C24 -/

/-- C24: for metadata whose cluster information has distinct cluster names
(as every Go map has), `fillDefaults` leaves metadata in which the cluster
information is the old one with the RPC name `cadence-frontend` in exactly
the entries whose RPC name was empty, and every other entry unchanged. So the
cluster names, and the enabled flag, initial failover version and RPC address
of every cluster, are unchanged, no cluster has an empty RPC name afterwards,
and a second call changes nothing. -/
theorem fillDefaults_spec (md : ClusterMetadata)
    (hk : (md.ClusterInformation.map Prod.fst).Nodup) :
    ∃ md1, fillDefaults (some md) = some md1 ∧
      md1.ClusterInformation = md.ClusterInformation.map (fun e =>
        (e.1, if e.2.RPCName = [] then { e.2 with RPCName := ascii "cadence-frontend" }
          else e.2)) ∧
      md1.ClusterInformation.map Prod.fst = md.ClusterInformation.map Prod.fst ∧
      md1.ClusterInformation.map
          (fun e => (e.2.Enabled, e.2.InitialFailoverVersion, e.2.RPCAddress)) =
        md.ClusterInformation.map
          (fun e => (e.2.Enabled, e.2.InitialFailoverVersion, e.2.RPCAddress)) ∧
      (∀ e ∈ md1.ClusterInformation, e.2.RPCName ≠ []) ∧
      fillDefaults (some md1) = some md1 := by
  have hci : ∀ m1 : ClusterMetadata, m1.ClusterInformation = md.ClusterInformation →
      fillDefaultsLoop m1.ClusterInformation m1.ClusterInformation =
        md.ClusterInformation.map (fun e =>
          (e.1, if e.2.RPCName = [] then { e.2 with RPCName := ascii "cadence-frontend" }
            else e.2)) := by
    intro m1 h1
    rw [h1]; exact fillDefaultsLoop_self _ hk
  have hkeys : (md.ClusterInformation.map (fun e : List Byte × ClusterInformation =>
        (e.1, if e.2.RPCName = [] then { e.2 with RPCName := ascii "cadence-frontend" }
          else e.2))).map Prod.fst = md.ClusterInformation.map Prod.fst := by
    rw [List.map_map]; rfl
  have hidem : (md.ClusterInformation.map (fun e : List Byte × ClusterInformation =>
        (e.1, if e.2.RPCName = [] then { e.2 with RPCName := ascii "cadence-frontend" }
          else e.2))).map (fun e : List Byte × ClusterInformation =>
        (e.1, if e.2.RPCName = [] then { e.2 with RPCName := ascii "cadence-frontend" }
          else e.2)) =
      md.ClusterInformation.map (fun e : List Byte × ClusterInformation =>
        (e.1, if e.2.RPCName = [] then { e.2 with RPCName := ascii "cadence-frontend" }
          else e.2)) := by
    rw [List.map_map]
    apply List.map_congr_left
    intro e _
    by_cases hc : e.2.RPCName = []
    · simp only [Function.comp, hc, if_true]
      rw [if_neg (by decide)]
    · simp only [Function.comp, hc, if_false]
  have hframe : (md.ClusterInformation.map (fun e : List Byte × ClusterInformation =>
        (e.1, if e.2.RPCName = [] then { e.2 with RPCName := ascii "cadence-frontend" }
          else e.2))).map
        (fun e => (e.2.Enabled, e.2.InitialFailoverVersion, e.2.RPCAddress)) =
      md.ClusterInformation.map
        (fun e => (e.2.Enabled, e.2.InitialFailoverVersion, e.2.RPCAddress)) := by
    rw [List.map_map]
    apply List.map_congr_left
    intro e _
    by_cases hc : e.2.RPCName = [] <;> simp [Function.comp, hc]
  have hne : ∀ e ∈ md.ClusterInformation.map (fun e : List Byte × ClusterInformation =>
        (e.1, if e.2.RPCName = [] then { e.2 with RPCName := ascii "cadence-frontend" }
          else e.2)), e.2.RPCName ≠ [] := by
    intro e he
    obtain ⟨e0, -, rfl⟩ := List.mem_map.mp he
    by_cases hc : e0.2.RPCName = []
    · simp only [hc, if_true]; decide
    · simp only [hc, if_false]; exact hc
  unfold fillDefaults
  simp only []
  by_cases hp : md.PrimaryClusterName.length = 0
  · rw [if_pos hp]
    refine ⟨_, rfl, ?_, ?_, ?_, ?_, ?_⟩
    · exact hci _ rfl
    · show List.map Prod.fst (fillDefaultsLoop _ _) = _
      rw [hci _ rfl, hkeys]
    · show List.map _ (fillDefaultsLoop _ _) = _
      rw [hci _ rfl, hframe]
    · show ∀ e ∈ fillDefaultsLoop _ _, _
      rw [hci _ rfl]; exact hne
    · simp only []
      rw [hci _ rfl]
      by_cases hm : md.MasterClusterName.length = 0
      · rw [if_pos hm]
        simp only []
        rw [fillDefaultsLoop_self _ (by rw [hkeys]; exact hk), hidem]
      · rw [if_neg hm]
        simp only []
        rw [fillDefaultsLoop_self _ (by rw [hkeys]; exact hk), hidem]
  · rw [if_neg hp]
    refine ⟨_, rfl, ?_, ?_, ?_, ?_, ?_⟩
    · exact hci _ rfl
    · show List.map Prod.fst (fillDefaultsLoop _ _) = _
      rw [hci _ rfl, hkeys]
    · show List.map _ (fillDefaultsLoop _ _) = _
      rw [hci _ rfl, hframe]
    · show ∀ e ∈ fillDefaultsLoop _ _, _
      rw [hci _ rfl]; exact hne
    · simp only []
      rw [hci _ rfl, if_neg hp]
      simp only []
      rw [fillDefaultsLoop_self _ (by rw [hkeys]; exact hk), hidem]

theorem fillDefaults_spec_witness :
    (demoMetadata.ClusterInformation.map Prod.fst).Nodup ∧
    ∃ md1, fillDefaults (some demoMetadata) = some md1 ∧
      md1.ClusterInformation =
        [(ascii "east", ⟨true, 0, ascii "frontend", ascii "host1:7933"⟩),
         (ascii "west", ⟨false, 2, ascii "cadence-frontend", ascii "host2:7933"⟩)] ∧
      fillDefaults (some md1) = some md1 :=
  ⟨by decide,
    match fillDefaults_spec demoMetadata (by decide) with
    | ⟨md1, h1, h2, _, _, _, h6⟩ => ⟨md1, h1, by rw [h2]; decide, h6⟩⟩


/-! ## C26 -/

/-- C26, counterexample: for the message type 2 the writer channel has no
channel at all. On data with a group that decodes to the task 7, `parse`
returns with the channel and the skip counter as they were, so the task is
neither forwarded nor counted, and the writer writes nothing. -/
theorem message_type_two_has_no_channel :
    (newWriterChannel 2 : writerChannel Nat Nat) = ⟨2, none, none⟩ ∧
    (groups demoData).filterMap (groupTask demoThrift) = [7] ∧
    parse demoThrift demoData true 0 (newWriterChannel 2) = ⟨newWriterChannel 2, 0, none⟩ ∧
    (startWriter demoCodec demoFile (newWriterChannel 2) 0 true false [] []).outputFile.written
      = [] ∧
    (startWriter demoCodec demoFile (newWriterChannel 2) 0 true false [] []).halted = none := by
  decide

/-- C26, amended: for the two message types that are defined, replication
task and visibility message, `newWriterChannel` returns a writer channel with
exactly one channel that is not nil, the one of its type, with nothing sent
on it. When `parse` returns on a writer channel of one of these types whose
channel is not nil, the messages of all the groups of the batch that decode
are at the end of that channel, in order, and the groups that do not decode
are added to the skip counter. For every other message type both channels
are nil and `parse` leaves the channel and the skip counter as they are. -/
theorem newWriterChannel_one_kind (cx : Thrift E W R V T) :
    ((newWriterChannel kafkaMessageTypeReplicationTask : writerChannel T V)
        = ⟨kafkaMessageTypeReplicationTask, some [], none⟩ ∧
      (newWriterChannel kafkaMessageTypeVisibilityMsg : writerChannel T V)
        = ⟨kafkaMessageTypeVisibilityMsg, none, some []⟩) ∧
    (∀ (bytes : List Byte) (skipErrors : Bool) (skippedCount : Int)
        (writerCh : writerChannel T V),
      (parse cx bytes skipErrors skippedCount writerCh).halted = none →
      (∀ q, writerCh.msgType = kafkaMessageTypeReplicationTask →
        writerCh.ReplicationTaskChannel = some q →
        parse cx bytes skipErrors skippedCount writerCh =
          ⟨{ writerCh with
              ReplicationTaskChannel := some (q ++ (groups bytes).filterMap (groupTask cx)) },
            wrapInt32 (skippedCount +
              (((groups bytes).countP (fun g => (groupTask cx g).isNone) : Nat) : Int)),
            none⟩) ∧
      (∀ q, writerCh.msgType = kafkaMessageTypeVisibilityMsg →
        writerCh.VisibilityMsgChannel = some q →
        parse cx bytes skipErrors skippedCount writerCh =
          ⟨{ writerCh with
              VisibilityMsgChannel := some (q ++ (groups bytes).filterMap (groupMsg cx)) },
            wrapInt32 (skippedCount +
              (((groups bytes).countP (fun g => (groupMsg cx g).isNone) : Nat) : Int)),
            none⟩)) ∧
    (∀ messageType : Int, messageType ≠ kafkaMessageTypeReplicationTask →
      messageType ≠ kafkaMessageTypeVisibilityMsg →
      (newWriterChannel messageType : writerChannel T V) = ⟨messageType, none, none⟩ ∧
      ∀ (bytes : List Byte) (skipErrors : Bool) (skippedCount : Int),
        (parse cx bytes skipErrors skippedCount (newWriterChannel messageType)).writerCh
          = newWriterChannel messageType ∧
        (parse cx bytes skipErrors skippedCount (newWriterChannel messageType)).skippedCount
          = skippedCount) := by
  refine ⟨⟨rfl, rfl⟩, ?_, ?_⟩
  · intro bytes skipErrors skippedCount writerCh h
    exact parse_forwards cx bytes skipErrors skippedCount writerCh h
  · intro messageType h0 h1
    have hn : (newWriterChannel messageType : writerChannel T V) = ⟨messageType, none, none⟩ := by
      unfold newWriterChannel
      rw [if_neg h0, if_neg h1]
    refine ⟨hn, ?_⟩
    intro bytes skipErrors skippedCount
    rw [hn]
    exact parse_other_type cx bytes skipErrors skippedCount _ h0 h1

theorem newWriterChannel_one_kind_witness :
    (parse demoThrift demoData true 0
      (newWriterChannel kafkaMessageTypeReplicationTask)).halted = none ∧
    parse demoThrift demoData true 0 (newWriterChannel kafkaMessageTypeReplicationTask) =
      ⟨⟨kafkaMessageTypeReplicationTask, some [7], none⟩, 2, none⟩ :=
  ⟨by decide, by
    rw [((newWriterChannel_one_kind (V := Nat) demoThrift).2.1 demoData true 0
      (newWriterChannel kafkaMessageTypeReplicationTask) (by decide)).1 [] rfl rfl]
    decide⟩

/-! ## C27 -/

/-- C27: evaluation of the code at the failing input. With both criteria
empty the filter accepts a task that has no history attributes, and in header
mode the writer then stops with the panic of a nil dereference, having
written nothing. -/
theorem header_mode_panics_on_task_without_attributes :
    buildFilterFn [] [] demoBareTask = some true ∧
    demoBareTask.HistoryTaskV2Attributes = none ∧
    (writeReplicationTask (V := Message) demoCodec demoFile
      ⟨kafkaMessageTypeReplicationTask, some [demoBareTask], none⟩ 0 false true [] []
      ).halted = some Halt.panic ∧
    (writeReplicationTask (V := Message) demoCodec demoFile
      ⟨kafkaMessageTypeReplicationTask, some [demoBareTask], none⟩ 0 false true [] []
      ).outputFile.written = [] := by
  decide

/-! ## C28 -/

/-- C28: `decodeReplicationTask` on failure. For a history v2 task with
attributes and an events blob, when the events blob does not deserialise, or
when it does and the new-run blob is not nil and does not deserialise, the
function returns that error, without JSON, and leaves the task as it was, with
both blobs. For a task of another type it returns what `json.Marshal` gives on
the task and leaves the task as it was. -/
theorem decodeReplicationTask_failure_atomic (cd : Codec E Blob H)
    (task : ReplicationTask Blob) :
    (∀ (a : HistoryTaskV2Attributes Blob) (blob : Blob) (err : E),
      task.GetTaskType = ReplicationTaskTypeHistoryV2 →
      task.HistoryTaskV2Attributes = some a →
      a.Events = some blob →
      cd.DeserializeBatchEvents blob = some (Except.error err) →
      decodeReplicationTask cd task = some (Except.error err, task)) ∧
    (∀ (a : HistoryTaskV2Attributes Blob) (blob newRunBlob : Blob)
        (events : Option (List H)) (err : E),
      task.GetTaskType = ReplicationTaskTypeHistoryV2 →
      task.HistoryTaskV2Attributes = some a →
      a.Events = some blob →
      cd.DeserializeBatchEvents blob = some (Except.ok events) →
      a.NewRunEvents = some newRunBlob →
      cd.DeserializeBatchEvents newRunBlob = some (Except.error err) →
      decodeReplicationTask cd task = some (Except.error err, task)) ∧
    (task.GetTaskType ≠ ReplicationTaskTypeHistoryV2 →
      decodeReplicationTask cd task = some (cd.marshalTask task, task)) := by
  refine ⟨?_, ?_, ?_⟩
  · intro a blob err ht ha hb he
    unfold decodeReplicationTask ReplicationTask.GetHistoryTaskV2Attributes
    rw [if_pos ht, ha]
    simp only []
    rw [hb]
    simp only []
    rw [he]
  · intro a blob newRunBlob events err ht ha hb he hs hn
    unfold decodeReplicationTask ReplicationTask.GetHistoryTaskV2Attributes
    rw [if_pos ht, ha]
    simp only []
    rw [hb]
    simp only []
    rw [he]
    simp only []
    rw [hs]
    simp only []
    rw [hn]
  · intro ht
    unfold decodeReplicationTask
    rw [if_neg ht]

/-- Witness of C28: an events blob that does not deserialise, a new-run blob
that does not deserialise, and a task of another type. -/
theorem decodeReplicationTask_failure_atomic_witness :
    decodeReplicationTask demoCodec demoBrokenTask = some (Except.error (), demoBrokenTask) ∧
    decodeReplicationTask demoCodec
        (⟨some 5, some ⟨ascii "d1", ascii "A", ascii "X", some 1, some 0⟩⟩ :
          ReplicationTask Nat) =
      some (Except.error (),
        ⟨some 5, some ⟨ascii "d1", ascii "A", ascii "X", some 1, some 0⟩⟩) ∧
    decodeReplicationTask demoCodec demoBareTask = some (Except.ok (ascii "task"), demoBareTask) :=
  ⟨(decodeReplicationTask_failure_atomic demoCodec demoBrokenTask).1
      ⟨ascii "d1", ascii "A", ascii "X", some 0, none⟩ 0 () rfl rfl rfl rfl,
    (decodeReplicationTask_failure_atomic demoCodec
      ⟨some 5, some ⟨ascii "d1", ascii "A", ascii "X", some 1, some 0⟩⟩).2.1
      ⟨ascii "d1", ascii "A", ascii "X", some 1, some 0⟩ 1 0 (some [0]) () rfl rfl rfl rfl rfl rfl,
    (decodeReplicationTask_failure_atomic demoCodec demoBareTask).2.2 (by decide)⟩


/-! ## C29 -/

/-- C29: the buffer invariant of the splitter. When an accumulation (the
buffer followed by a chunk) begins with a header match, `splitBuffer` returns
a data slice that is empty or begins with a header match, and a next buffer
that begins with a header match, and so does that buffer followed by any
further chunk. So when the first chunk begins with a header match, there is a
retained buffer for every chunk and each begins with a header match;
`startParser` is the sequence of the calls of `parse` on the data slices, the
last of which is the final flush; every data slice is empty or begins with a
header match, `getMessages` does not stop on it with the error for a missing
leading header, and `startParser` does not stop with that error. -/
theorem splitter_buffer_invariant (cx : Thrift E W R V T) (c : List Byte)
    (cs : List (List Byte)) (wc : writerChannel T V) (skipErrors : Bool) (sk : Int)
    (h : (matchItems r c).isSome) :
    (∀ buffer data : List Byte, (matchItems r (buffer ++ data)).isSome →
      ∃ d nextBuffer, splitBuffer (E := E) (buffer ++ data) = Except.ok (d, nextBuffer) ∧
        (matchItems r nextBuffer).isSome ∧ (d = [] ∨ (matchItems r d).isSome) ∧
        ∀ data1, (matchItems r (nextBuffer ++ data1)).isSome) ∧
    (retainedBuffers (c :: cs) []).length = (c :: cs).length ∧
    (∀ b ∈ retainedBuffers (c :: cs) [], (matchItems r b).isSome) ∧
    startParser cx (c :: cs) wc skipErrors sk
      = parseAll cx skipErrors (dataSlices (c :: cs) []) sk wc ∧
    (∀ d ∈ dataSlices (c :: cs) [],
      (d = [] ∨ (matchItems r d).isSome) ∧
      getMessages (E := E) d skipErrors
        ≠ Except.error (Halt.exit malformedMessage Cause.noLeadingHeader)) ∧
    (startParser cx (c :: cs) wc skipErrors sk).halted
      ≠ some (Halt.exit malformedMessage Cause.noLeadingHeader) := by
  have hinv := slices_begin (c :: cs) [] (fun hc => by cases hc)
    (fun c1 rest1 hc => by
      rw [List.nil_append]
      have := (List.cons.inj hc).1
      rw [← this]; exact h)
  refine ⟨?_, hinv.2.2.2, hinv.2.1, ?_, ?_, ?_⟩
  · intro buffer data hb
    obtain ⟨i, e, hl, hnb, hd⟩ := splitBuffer_begins (buffer ++ data) hb
    exact ⟨_, _, splitBuffer_some (buffer ++ data) i e hl, hnb, hd,
      fun data1 => matchItems_append_isSome r data1 _ hnb⟩
  · unfold startParser
    apply startParserLoop_of_splitsOk
    apply splitsOk_of_first_chunk
    rw [List.nil_append]
    exact FindAllIndex_ne_nil_of_match c 0 (by simpa using h)
  · intro d hd
    refine ⟨hinv.1 d hd, ?_⟩
    intro hg
    exact getMessages_noLeadingHeader d skipErrors hg (Split_head_of_begins d (hinv.1 d hd))
  · unfold startParser
    apply startParserLoop_no_leading_header_error
    · intro hc; cases hc
    · intro c1 rest1 hc
      rw [List.nil_append]
      have := (List.cons.inj hc).1
      rw [← this]; exact h

theorem splitter_buffer_invariant_witness :
    (matchItems r (demoHeader ++ [0x59, 1, 7])).isSome ∧
    dataSlices [demoHeader ++ [0x59, 1, 7], [9] ++ demoHeader ++ [0x59, 1, 8]] [] =
      [[], demoHeader ++ [0x59, 1, 7, 9], demoHeader ++ [0x59, 1, 8]] ∧
    (startParser demoThrift [demoHeader ++ [0x59, 1, 7], [9] ++ demoHeader ++ [0x59, 1, 8]]
      demoChannel true 0).halted
      ≠ some (Halt.exit malformedMessage Cause.noLeadingHeader) :=
  ⟨by decide, by decide,
    (splitter_buffer_invariant demoThrift (demoHeader ++ [0x59, 1, 7])
      [[9] ++ demoHeader ++ [0x59, 1, 8]] demoChannel true 0 (by decide)).2.2.2.2.2⟩


/-! ## C30 -/

/-- C30: evaluation of the code at the failing input. The JSON text `1` is
valid and decodes to 1, but `convertFromDataBlob` on a blob with JSON
encoding and this text returns the nil value and the error of
`json.Unmarshal` for a target that is not a pointer. So for the key `k`,
whose only value has no filters and holds this blob, `getValueWithFilters`
returns the default 5 of the caller with the not-found error. For every
decoder and every data, the function on a JSON blob returns the nil value
with an error. -/
theorem convertFromDataBlob_json_returns_error :
    demoJson.decodeValue (ascii "1") = Except.ok 1 ∧
    convertFromDataBlob demoJson (some ⟨some EncodingTypeJSON, ascii "1"⟩) =
      some (none, some (ConfigError.json "json: Unmarshal(nil)")) ∧
    getValueWithFilters demoJson (fun n => n) demoValues (ascii "k") [] (some 5) =
      some (some 5, some ConfigError.notFoundError) ∧
    (∀ (E Val : Type) (js : Json E Val) (data : List Byte),
      (jsonUnmarshalNil js data).isSome = true ∧
      convertFromDataBlob js (some ⟨some EncodingTypeJSON, data⟩) =
        some (none, (jsonUnmarshalNil js data).map ConfigError.json)) := by
  refine ⟨rfl, by decide, by decide, ?_⟩
  intro E Val js data
  constructor
  · unfold jsonUnmarshalNil
    cases js.decodeValue data <;> rfl
  · rfl

end Claims

end Cadence
